import Mathlib

/-!
# HA_JPG: an 8×8 block-transform image codec

A shallow embedding of `compress.c` and `decompress.c`.

* C arrays are functions from the index to the cell contents, a store to a cell is
  `Function.update`, and a `for` loop is a fold of its body over `0, 1, …, n-1`.
* `float` arithmetic is carried out in an ordered field `R` with a floor function.  The
  theorems about the transform take `R := ℝ`, `cosf := Real.cos` and `M_PI := Real.pi`;
  at `R := ℚ` every definition can be evaluated.
* An `int` expression that can leave the range of a 32-bit `int` (the product in
  `dequantize`, the size handed to `malloc`) is reduced modulo `2^32` (`int_cast`), like the
  conversion to `int8_t` is reduced modulo `256` (`int8_cast`).
* The pixel buffer of `decompress` has the size that `malloc` was asked for; a store of
  `write_block` outside it is recorded in the flag `fault` of the result.
* `alpha`, `zig_zag_index_matrix` and the quantization matrix are declared in `dctquant.h`
  but defined elsewhere, so that the functions using them take them as arguments.
* The bitmap library and the C file API are external: what they return is an input of the
  model (`compress_env`, `decompress_env`), what is handed to them is part of the result.
-/

namespace HA_JPG

/-! ## Loops and number conversions -/

/-- The loop `for (int i = 0; i < n; i++) body`, acting on the state `s`. -/
def for_loop {σ : Type} (n : Nat) (body : Nat → σ → σ) (s : σ) : σ :=
  (List.range n).foldl (fun s i => body i s) s

/-- The conversion `(int8_t)` of an integral value: values of `[-128, 127]` are kept, the
others are reduced modulo `256` into that range (the spec's "silently wrap"). -/
def int8_cast (z : Int) : Int :=
  (z + 128) % 256 - 128

/-- The value of an `int` expression whose exact value is `z`: values in the range of a
32-bit `int` are kept, the others are reduced modulo `2^32` into that range.  (C leaves the
overflow of a signed `int` undefined; the two's-complement wrap is what the usual targets
do.) -/
def int_cast (z : Int) : Int :=
  (z + 2147483648) % 4294967296 - 2147483648

/-- C `roundf` (and `round`): the nearest integer, halfway cases away from zero. -/
def roundf {R : Type} [LinearOrderedField R] [FloorRing R] (x : R) : Int :=
  if 0 ≤ x then ⌊x + 1 / 2⌋ else -⌊-x + 1 / 2⌋

/-! ## Coefficient reordering -/

/-- `zig_zag` of `compress.c`: the scatter `output_block[zig_zag_index_matrix[i]] = input_block[i]`.
The last argument is what `output_block` holds before the call. -/
def zig_zag (zig_zag_index_matrix : Nat → Nat) (input_block : Nat → Int)
    (output_block : Nat → Int) : Nat → Int :=
  for_loop 64
    (fun i out => Function.update out (zig_zag_index_matrix i) (input_block i)) output_block

/-- `un_zig_zag` of `decompress.c`: the gather
`output_block[i] = input_block[zig_zag_index_matrix[i]]`. -/
def un_zig_zag (zig_zag_index_matrix : Nat → Nat) (input_block : Nat → Int)
    (output_block : Nat → Int) : Nat → Int :=
  for_loop 64
    (fun i out => Function.update out i (input_block (zig_zag_index_matrix i))) output_block

/-- The index matrix lists every position of `[0, 64)` exactly once. -/
def is_permutation (zig_zag_index_matrix : Nat → Nat) : Prop :=
  ((List.range 64).map zig_zag_index_matrix).Perm (List.range 64)

/-- The customary JPEG zigzag order of an 8×8 block (row-major position to rank), a concrete
index matrix for examples. -/
def jpeg_zig_zag_order : Nat → Nat := fun i =>
  [ 0,  1,  5,  6, 14, 15, 27, 28,
    2,  4,  7, 13, 16, 26, 29, 42,
    3,  8, 12, 17, 25, 30, 41, 43,
    9, 11, 18, 24, 31, 40, 44, 53,
   10, 19, 23, 32, 39, 45, 52, 54,
   20, 22, 33, 38, 46, 51, 55, 60,
   21, 34, 37, 47, 50, 56, 59, 61,
   35, 36, 48, 49, 57, 58, 62, 63].getD i 0

/-! ## Pixels and bitmap parameters (`bitmap.h`, the external bitmap library) -/

/-- An HSV pixel; the components are 8-bit (`bitmap_component_t`). -/
structure bitmap_pixel_hsv_t where
  h : Nat
  s : Nat
  v : Nat

/-- An RGB pixel; the components are 8-bit (`bitmap_component_t`). -/
structure bitmap_pixel_rgb_t where
  r : Nat
  g : Nat
  b : Nat

inductive bitmap_color_space_t where
  | BITMAP_COLOR_SPACE_RGB
  | BITMAP_COLOR_SPACE_HSV

/-- The fields of `bitmap_parameters_t` that the codec sets. -/
structure bitmap_parameters_t where
  bottomUp : Bool
  widthPx : Int
  heightPx : Int
  colorDepth : Nat
  colorSpace : bitmap_color_space_t

/-- What `bitmapReadPixels` delivers on success: the pixel buffer and the dimensions. -/
structure bitmap_read_t where
  pixels : Nat → bitmap_pixel_hsv_t
  width_px : Int
  height_px : Int

/-- The arguments of one call of `bitmapWritePixels`: the path (`none` is `NULL`), the
parameters and the pixel buffer. -/
structure bitmap_write_t (pixel : Type) where
  path : Option String
  params : bitmap_parameters_t
  pixels : Nat → pixel

/-- The conversion `(bitmap_component_t)` of a `float`: the fractional part is dropped and
the low eight bits are kept. -/
def bitmap_component_cast {R : Type} [LinearOrderedField R] [FloorRing R] (x : R) : Nat :=
  (⌊x⌋).toNat % 256

/-- The macro `MIN` of `dctquant.h`. -/
def MIN {R : Type} [LinearOrderedField R] (a b : R) : R :=
  if a < b then a else b

/-- The macro `MAX` of `dctquant.h`. -/
def MAX {R : Type} [LinearOrderedField R] (a b : R) : R :=
  if a > b then a else b

/-! ## Blocks: `read_block`, the transforms, the quantizer, `write_block` -/

/-- The offset of pixel `(curr_x, curr_y)` of block `(index_x, index_y)` in a plane that is
`blocks_x` blocks wide, as `read_block` and `write_block` compute it:
`base_offset + row_offset + col_offset + curr_x`. -/
def pixel_offset (blocks_x index_x index_y curr_x curr_y : Nat) : Nat :=
  index_y * 8 * (blocks_x * 8) + curr_y * (blocks_x * 8) + index_x * 8 + curr_x

/-- `read_block` of `compress.c`: copies the value components of block `(index_x, index_y)`,
less the bias `128`, to `block`. -/
def read_block {R : Type} [LinearOrderedField R] (pixels : Nat → bitmap_pixel_hsv_t)
    (index_x index_y blocks_x : Nat) (block : Nat → R) : Nat → R :=
  for_loop 8 (fun curr_y block =>
    for_loop 8 (fun curr_x block =>
      Function.update block (8 * curr_y + curr_x)
        (((pixels (pixel_offset blocks_x index_x index_y curr_x curr_y)).v : R) - 128))
      block) block

/-- Modelled from the spec: `alpha` of `dctquant.h`, whose definition is not among the
sources; `alpha(0) = 1/√8` and `alpha(k) = √(2/8)` for `k > 0` (spec 4.2).  The square root
is an argument, `Real.sqrt` over the reals. -/
def alpha {R : Type} [LinearOrderedField R] (sqrtf : R → R) (pq : Nat) : R :=
  if pq = 0 then 1 / sqrtf 8 else sqrtf (2 / 8)

/-- The angle `(M_PI * (m + 0.5f) * p) / 8.0f` of both `dct_sum`s. -/
def dct_angle {R : Type} [LinearOrderedField R] (M_PI : R) (m p : Nat) : R :=
  (M_PI * ((m : R) + 0.5) * (p : R)) / 8

/-- `dct_sum` of `compress.c`; `*block++` is the cell `8 * m + n`. -/
def compress_c.dct_sum {R : Type} [LinearOrderedField R] (cosf : R → R) (M_PI : R)
    (block : Nat → R) (p q : Nat) : R :=
  for_loop 8 (fun m sum =>
    for_loop 8 (fun n sum =>
      sum + block (8 * m + n) * cosf (dct_angle M_PI m p) * cosf (dct_angle M_PI n q)) sum) 0

/-- `perform_dct` of `compress.c`; `*output_block++` is the cell `8 * p + q`. -/
def perform_dct {R : Type} [LinearOrderedField R] (cosf : R → R) (M_PI : R) (alpha : Nat → R)
    (input_block output_block : Nat → R) : Nat → R :=
  for_loop 8 (fun p out =>
    for_loop 8 (fun q out =>
      Function.update out (8 * p + q)
        (alpha p * alpha q * compress_c.dct_sum cosf M_PI input_block p q)) out) output_block

/-- `quantize` of `compress.c`: divide by the components of the quantization matrix, round,
convert to `int8_t`. -/
def quantize {R : Type} [LinearOrderedField R] [FloorRing R] (input_block : Nat → R)
    (quant_matrix : Nat → Int) (output_block : Nat → Int) : Nat → Int :=
  for_loop 64 (fun i out =>
    Function.update out i (int8_cast (roundf (input_block i / (quant_matrix i : R)))))
    output_block

/-- `dequantize` of `decompress.c`: multiply with the components of the quantization matrix.
The product `input_block[i] * quant_matrix[i]` is an `int` product, converted to `float`
afterwards. -/
def dequantize {R : Type} [LinearOrderedField R] (input_block : Nat → Int)
    (quant_matrix : Nat → Int) (output_block : Nat → R) : Nat → R :=
  for_loop 64 (fun i out =>
    Function.update out i (((int_cast (input_block i * quant_matrix i) : Int) : R)))
    output_block

/-- `dct_sum` of `decompress.c`; `*block++` is the cell `8 * p + q`. -/
def decompress_c.dct_sum {R : Type} [LinearOrderedField R] (cosf : R → R) (M_PI : R)
    (alpha : Nat → R) (block : Nat → R) (m n : Nat) : R :=
  for_loop 8 (fun p sum =>
    for_loop 8 (fun q sum =>
      sum + block (8 * p + q) * alpha p * alpha q * cosf (dct_angle M_PI m p)
        * cosf (dct_angle M_PI n q)) sum) 0

/-- `perform_inverse_dct` of `decompress.c`; `*output_block++` is the cell `8 * m + n`. -/
def perform_inverse_dct {R : Type} [LinearOrderedField R] (cosf : R → R) (M_PI : R)
    (alpha : Nat → R) (input_block output_block : Nat → R) : Nat → R :=
  for_loop 8 (fun m out =>
    for_loop 8 (fun n out =>
      Function.update out (8 * m + n) (decompress_c.dct_sum cosf M_PI alpha input_block m n))
      out) output_block

/-- The component `write_block` stores for a sample:
`(bitmap_component_t)MAX(MIN(255, round(sample) + 128), 0)`. -/
def clamped_component {R : Type} [LinearOrderedField R] [FloorRing R] (sample : R) : Nat :=
  let component : R := (roundf sample : R) + 128
  bitmap_component_cast (MAX (MIN 255 component) 0)

/-- `write_block` of `decompress.c`: stores block `(index_x, index_y)` in the pixel buffer. -/
def write_block {R : Type} [LinearOrderedField R] [FloorRing R]
    (pixels : Nat → bitmap_pixel_rgb_t) (index_x index_y blocks_x : Nat) (block : Nat → R) :
    Nat → bitmap_pixel_rgb_t :=
  for_loop 8 (fun curr_y pixels =>
    for_loop 8 (fun curr_x pixels =>
      let offset := pixel_offset blocks_x index_x index_y curr_x curr_y
      let clamped_component := clamped_component (block (8 * curr_y + curr_x))
      Function.update pixels offset
        { r := clamped_component, g := clamped_component, b := clamped_component })
      pixels) pixels

/-! ## The container: bytes of `int` and `int8_t` -/

/-- The four bytes of an `int`, least significant first, two's complement. -/
def int32_bytes (z : Int) : List Nat :=
  let u := (z % 4294967296).toNat
  [u % 256, u / 256 % 256, u / 65536 % 256, u / 16777216 % 256]

/-- The `int` stored in four bytes, least significant first, two's complement. -/
def int32_of_bytes (bytes : List Nat) : Int :=
  let u := bytes.getD 0 0 + 256 * bytes.getD 1 0 + 65536 * bytes.getD 2 0
    + 16777216 * bytes.getD 3 0
  if u < 2147483648 then (u : Int) else (u : Int) - 4294967296

/-- The byte of an `int8_t`, two's complement. -/
def int8_byte (z : Int) : Nat :=
  (z % 256).toNat

/-- The `int8_t` stored in a byte. -/
def int8_of_byte (b : Nat) : Int :=
  int8_cast (b : Int)

/-- The 64 bytes of an `int8_t[64]`. -/
def block_bytes (block : Nat → Int) : List Nat :=
  (List.range 64).map (fun i => int8_byte (block i))

/-! ## `compress.c` -/

/-- What the surroundings contribute to a run of `compress`: the outcome of the library and
file calls, and the indeterminate initial contents of the four local arrays. -/
structure compress_env (R : Type) where
  /-- the decoded bitmap at a path, `none` when reading fails -/
  bitmapReadPixels : String → Option bitmap_read_t
  /-- whether `bitmapWritePixels` to a path (`none` is `NULL`) succeeds -/
  bitmapWritePixels : Option String → Bool
  /-- whether `fopen(path, "wb")` succeeds -/
  fopen : String → Bool
  /-- whether the call number `k` (from 0) of `fwrite` succeeds -/
  fwrite : Nat → Bool
  input_block : Nat → R
  dct_block : Nat → R
  quantized_block : Nat → Int
  zig_zagged_block : Nat → Int

/-- The outcome of `create_grayscale_bitmap`: the buffer it returns (`none` is `NULL`) with
the block counts it assigned, and the call of `bitmapWritePixels` it made, if any. -/
structure grayscale_t where
  pixels : Option ((Nat → bitmap_pixel_hsv_t) × Int × Int)
  dump : Option (bitmap_write_t bitmap_pixel_hsv_t)

/-- The loop of `create_grayscale_bitmap` that converts the bitmap to grayscale:
`pixels[i].s = 0` for the first `n` pixels. -/
def convert_to_grayscale (n : Nat) (pixels : Nat → bitmap_pixel_hsv_t) :
    Nat → bitmap_pixel_hsv_t :=
  for_loop n (fun i pixels => Function.update pixels i { pixels i with s := 0 }) pixels

/-- `create_grayscale_bitmap` of `compress.c`. -/
def create_grayscale_bitmap {R : Type} (env : compress_env R) (input_path : String)
    (output_path : Option String) : grayscale_t :=
  match env.bitmapReadPixels input_path with
  | none => { pixels := none, dump := none }
  | some bmp =>
    let width_px := bmp.width_px
    let height_px := bmp.height_px
    if (Int.tmod width_px 8 ≠ 0) ∨ (Int.tmod height_px 8 ≠ 0) then
      { pixels := none, dump := none }
    else
      let blocks_x := Int.tdiv width_px 8
      let blocks_y := Int.tdiv height_px 8
      let pixels := convert_to_grayscale (width_px * height_px).toNat bmp.pixels
      let params : bitmap_parameters_t :=
        { bottomUp := true, widthPx := width_px, heightPx := height_px, colorDepth := 24,
          colorSpace := bitmap_color_space_t.BITMAP_COLOR_SPACE_HSV }
      let call : bitmap_write_t bitmap_pixel_hsv_t :=
        { path := output_path, params := params, pixels := pixels }
      if env.bitmapWritePixels output_path then
        { pixels := some (pixels, blocks_x, blocks_y), dump := some call }
      else
        { pixels := none, dump := some call }

/-- The output file of `compress` while it runs: the bytes written, the number of `fwrite`
calls made, the blocks handed to `read_block`, and whether a write has failed (the function
has returned `-1`). -/
structure compress_state where
  bytes : List Nat
  calls : Nat
  blocks : List (Nat × Nat)
  failed : Bool

/-- One `fwrite` of `data`, as the surroundings let it succeed or not. -/
def fwrite {R : Type} (env : compress_env R) (data : List Nat) (s : compress_state) :
    compress_state :=
  if env.fwrite s.calls then
    { s with bytes := s.bytes ++ data, calls := s.calls + 1 }
  else
    { s with calls := s.calls + 1, failed := true }

/-- The record of block `(index_x, index_y)`: `read_block`, `perform_dct`, `quantize`,
`zig_zag`, as in the body of the loops of `compress`. -/
def compress_block {R : Type} [LinearOrderedField R] [FloorRing R] (env : compress_env R)
    (cosf : R → R) (M_PI : R) (alpha : Nat → R) (zig_zag_index_matrix : Nat → Nat)
    (quant_matrix : Nat → Int) (pixels : Nat → bitmap_pixel_hsv_t)
    (blocks_x index_x index_y : Nat) : Nat → Int :=
  let input_block := read_block pixels index_x index_y blocks_x env.input_block
  let dct_block := perform_dct cosf M_PI alpha input_block env.dct_block
  let quantized_block := quantize dct_block quant_matrix env.quantized_block
  zig_zag zig_zag_index_matrix quantized_block env.zig_zagged_block

/-- The result of `compress`: the status, the call of `bitmapWritePixels` for the grayscale
dump (if made), the bytes of the output file (`none` when it was not created), and the blocks
handed to `read_block`, in order. -/
structure compress_result where
  status : Int
  grayscale_dump : Option (bitmap_write_t bitmap_pixel_hsv_t)
  output_file : Option (List Nat)
  blocks : List (Nat × Nat)

/-- The body of the loops of `compress` for block `(index_x, index_y)`: nothing once a write
has failed (the function has returned), else the block is read, transformed, quantized,
reordered and written. -/
def compress_step {R : Type} [LinearOrderedField R] [FloorRing R] (env : compress_env R)
    (cosf : R → R) (M_PI : R) (alpha : Nat → R) (zig_zag_index_matrix : Nat → Nat)
    (quant_matrix : Nat → Int) (pixels : Nat → bitmap_pixel_hsv_t)
    (blocks_x index_x index_y : Nat) (file : compress_state) : compress_state :=
  if file.failed then file
  else
    let zig_zagged_block := compress_block env cosf M_PI alpha zig_zag_index_matrix
      quant_matrix pixels blocks_x index_x index_y
    fwrite env (block_bytes zig_zagged_block)
      { file with blocks := file.blocks ++ [(index_x, index_y)] }

/-- `compress` of `compress.c`.  A `return -1` inside the loops is the flag `failed`, which
skips what follows. -/
def compress {R : Type} [LinearOrderedField R] [FloorRing R] (env : compress_env R)
    (cosf : R → R) (M_PI : R) (alpha : Nat → R) (zig_zag_index_matrix : Nat → Nat)
    (file_path : String) (quant_matrix : Nat → Int) (grayscale_path : Option String)
    (output_path : String) : compress_result :=
  let gray := create_grayscale_bitmap env file_path grayscale_path
  match gray.pixels with
  | none => { status := -1, grayscale_dump := gray.dump, output_file := none, blocks := [] }
  | some (pixels, blocks_x, blocks_y) =>
    if ¬ env.fopen output_path then
      { status := -1, grayscale_dump := gray.dump, output_file := none, blocks := [] }
    else
      let file : compress_state := { bytes := [], calls := 0, blocks := [], failed := false }
      let file := fwrite env (int32_bytes blocks_x) file
      if file.failed then
        { status := -1, grayscale_dump := gray.dump, output_file := some file.bytes,
          blocks := [] }
      else
        let file := fwrite env (int32_bytes blocks_y) file
        if file.failed then
          { status := -1, grayscale_dump := gray.dump, output_file := some file.bytes,
            blocks := [] }
        else
          let file := for_loop blocks_y.toNat (fun index_y file =>
            for_loop blocks_x.toNat (fun index_x file =>
              compress_step env cosf M_PI alpha zig_zag_index_matrix quant_matrix pixels
                blocks_x.toNat index_x index_y file) file) file
          { status := if file.failed then -1 else 0, grayscale_dump := gray.dump,
            output_file := some file.bytes, blocks := file.blocks }

/-! ## `decompress.c` -/

/-- What the surroundings contribute to a run of `decompress`: the bytes of the file at a
path (`none` when it cannot be opened), whether `malloc` returns `NULL` for a request of
that many bytes, and the indeterminate initial contents of the allocated pixel buffer and of
the four local arrays. -/
structure decompress_env (R : Type) where
  fopen : String → Option (List Nat)
  malloc_null : Int → Bool
  malloc : Nat → bitmap_pixel_rgb_t
  input_block : Nat → Int
  un_zig_zagged_block : Nat → Int
  original_block : Nat → R
  quantized_block : Nat → R

/-- The argument of `malloc` in `decompress`, the `int` expression
`(blocks_x*8 * blocks_y*8)*3`. -/
def malloc_size (blocks_x blocks_y : Int) : Int :=
  int_cast ((blocks_x * 8 * blocks_y * 8) * 3)

/-- The number of bytes of the buffer that `malloc` returns in `decompress`: the bytes
requested, or none for `NULL`.  A negative request is a `size_t` beyond what an allocator
grants and gives no bytes either. -/
def malloc_bytes {R : Type} (env : decompress_env R) (blocks_x blocks_y : Int) : Nat :=
  if env.malloc_null (malloc_size blocks_x blocks_y) then 0
  else (malloc_size blocks_x blocks_y).toNat

/-- Whether a store of `write_block` for block `(index_x, index_y)` falls outside a pixel
buffer of `size` bytes, a pixel taking 3 bytes (the factor of the allocation).  The offset
grows with `curr_x` and `curr_y`, so that it is the last store, at `(7, 7)`, that decides. -/
def write_block_outside (size blocks_x index_x index_y : Nat) : Bool :=
  decide (size < 3 * (pixel_offset blocks_x index_x index_y 7 7 + 1))

/-- The input file and the buffers of `decompress` while it runs: the bytes not yet read,
the number of bytes consumed, the block being read, the pixel buffer, whether a read has
failed (the function has returned `-1`), the number of bytes of the pixel buffer, and whether
a store of `write_block` has fallen outside it. -/
structure decompress_state where
  rest : List Nat
  consumed : Nat
  input_block : Nat → Int
  pixels : Nat → bitmap_pixel_rgb_t
  failed : Bool
  pixels_size : Nat
  fault : Bool

/-- `fread(&x, sizeof(int), 1, file_in)`: the `int` read, or `none` (with the rest of the
file consumed) when fewer than four bytes are left. -/
def fread_int (s : decompress_state) : Option Int × decompress_state :=
  if 4 ≤ s.rest.length then
    (some (int32_of_bytes (s.rest.take 4)),
      { s with rest := s.rest.drop 4, consumed := s.consumed + 4 })
  else
    (none, { s with rest := [], consumed := s.consumed + s.rest.length, failed := true })

/-- `fread(&input_block[i], sizeof(int8_t), 1, file_in)` with the test of its result. -/
def fread_int8 (i : Nat) (s : decompress_state) : decompress_state :=
  match s.rest with
  | [] => { s with failed := true }
  | b :: rest =>
    { s with rest := rest, consumed := s.consumed + 1,
             input_block := Function.update s.input_block i (int8_of_byte b) }

/-- The samples of a block from its record: `un_zig_zag`, `dequantize`,
`perform_inverse_dct`, as in the body of the loops of `decompress`. -/
def original_block {R : Type} [LinearOrderedField R] (env : decompress_env R)
    (cosf : R → R) (M_PI : R) (alpha : Nat → R) (zig_zag_index_matrix : Nat → Nat)
    (quant_matrix : Nat → Int) (input_block : Nat → Int) : Nat → R :=
  let un_zig_zagged_block := un_zig_zag zig_zag_index_matrix input_block env.un_zig_zagged_block
  let quantized_block := dequantize un_zig_zagged_block quant_matrix env.quantized_block
  perform_inverse_dct cosf M_PI alpha quantized_block env.original_block

/-- The 64 reads `fread(&input_block[i], sizeof(int8_t), 1, file_in)` of one record; the
reads stop at the first failure. -/
def fread_block (s : decompress_state) : decompress_state :=
  for_loop 64 (fun i s => if s.failed then s else fread_int8 i s) s

/-- The body of the loops of `decompress` for block `(index_x, index_y)`: nothing once a
read has failed (the function has returned), else the record is read, and when that
succeeds the block is reconstructed and written to the pixel buffer. -/
def decompress_step {R : Type} [LinearOrderedField R] [FloorRing R] (env : decompress_env R)
    (cosf : R → R) (M_PI : R) (alpha : Nat → R) (zig_zag_index_matrix : Nat → Nat)
    (quant_matrix : Nat → Int) (blocks_x index_x index_y : Nat) (s : decompress_state) :
    decompress_state :=
  if s.failed then s
  else
    let s := fread_block s
    if s.failed then s
    else
      let original_block := original_block env cosf M_PI alpha zig_zag_index_matrix
        quant_matrix s.input_block
      { s with pixels := write_block s.pixels index_x index_y blocks_x original_block,
               fault := s.fault || write_block_outside s.pixels_size blocks_x index_x index_y }

/-- The result of `decompress`: the status, the number of bytes of the container consumed,
the call of `bitmapWritePixels` (if made), and whether a store of `write_block` fell outside
the allocated pixel buffer.  After such a store the C program has no defined behaviour (in
practice it crashes); the other fields then describe the run on a buffer that is large
enough. -/
structure decompress_result where
  status : Int
  consumed : Nat
  image : Option (bitmap_write_t bitmap_pixel_rgb_t)
  fault : Bool

/-- `decompress` of `decompress.c`.  A `return -1` inside the loops is the flag `failed`,
which skips what follows.  The result of `malloc` is not tested.  The last statement is
`return -1;`. -/
def decompress {R : Type} [LinearOrderedField R] [FloorRing R] (env : decompress_env R)
    (cosf : R → R) (M_PI : R) (alpha : Nat → R) (zig_zag_index_matrix : Nat → Nat)
    (file_path : String) (quant_matrix : Nat → Int) (output_path : String) :
    decompress_result :=
  match env.fopen file_path with
  | none => { status := -1, consumed := 0, image := none, fault := false }
  | some bytes =>
    let file_in : decompress_state :=
      { rest := bytes, consumed := 0, input_block := env.input_block, pixels := env.malloc,
        failed := false, pixels_size := 0, fault := false }
    match fread_int file_in with
    | (none, file_in) =>
      { status := -1, consumed := file_in.consumed, image := none, fault := false }
    | (some blocks_x, file_in) =>
      match fread_int file_in with
      | (none, file_in) =>
        { status := -1, consumed := file_in.consumed, image := none, fault := false }
      | (some blocks_y, file_in) =>
        let file_in := { file_in with pixels_size := malloc_bytes env blocks_x blocks_y }
        let parameters : bitmap_parameters_t :=
          { bottomUp := true, widthPx := blocks_x * 8, heightPx := blocks_y * 8,
            colorDepth := 24, colorSpace := bitmap_color_space_t.BITMAP_COLOR_SPACE_RGB }
        let file_in := for_loop blocks_y.toNat (fun index_y s =>
          for_loop blocks_x.toNat (fun index_x s =>
            decompress_step env cosf M_PI alpha zig_zag_index_matrix quant_matrix
              blocks_x.toNat index_x index_y s) s) file_in
        if file_in.failed then
          { status := -1, consumed := file_in.consumed, image := none,
            fault := file_in.fault }
        else
          { status := -1, consumed := file_in.consumed,
            image := some { path := some output_path, params := parameters,
                            pixels := file_in.pixels },
            fault := file_in.fault }

/-- Cell `j` of record number `k` of a container: the byte at `8 + 64 * k + j`, as an
`int8_t`. -/
def container_record (bytes : List Nat) (k : Nat) : Nat → Int :=
  fun j => int8_of_byte (bytes.getD (8 + 64 * k + j) 0)

/-- The `blocks_x` of the header of a container. -/
def container_blocks_x (bytes : List Nat) : Int :=
  int32_of_bytes (bytes.take 4)

/-- The `blocks_y` of the header of a container. -/
def container_blocks_y (bytes : List Nat) : Int :=
  int32_of_bytes ((bytes.drop 4).take 4)

/-- The pixel buffer after the first `n` records of a container have been decoded, in
row-major block order, starting from the buffer `pixels`. -/
def decoded_pixels {R : Type} [LinearOrderedField R] [FloorRing R] (env : decompress_env R)
    (cosf : R → R) (M_PI : R) (alpha : Nat → R) (zig_zag_index_matrix : Nat → Nat)
    (quant_matrix : Nat → Int) (bytes : List Nat) (blocks_x : Nat)
    (pixels : Nat → bitmap_pixel_rgb_t) : Nat → Nat → bitmap_pixel_rgb_t
  | 0 => pixels
  | k + 1 =>
    write_block
      (decoded_pixels env cosf M_PI alpha zig_zag_index_matrix quant_matrix bytes blocks_x
        pixels k)
      (k % blocks_x) (k / blocks_x) blocks_x
      (original_block env cosf M_PI alpha zig_zag_index_matrix quant_matrix
        (container_record bytes k))

/-- Whether one of the stores made while the first `n` records of a container are decoded
falls outside a pixel buffer of `size` bytes. -/
def decoded_fault (size blocks_x : Nat) : Nat → Bool
  | 0 => false
  | k + 1 =>
    decoded_fault size blocks_x k
      || write_block_outside size blocks_x (k % blocks_x) (k / blocks_x)

/-- Surroundings of `decompress` for the examples: every path opens the container `bytes`,
`malloc` succeeds, and the buffers start zeroed. -/
def sample_decompress_env {R : Type} [LinearOrderedField R] (bytes : List Nat) :
    decompress_env R :=
  { fopen := fun _ => some bytes,
    malloc_null := fun _ => false,
    malloc := fun _ => { r := 0, g := 0, b := 0 },
    input_block := fun _ => 0,
    un_zig_zagged_block := fun _ => 0,
    original_block := fun _ => 0,
    quantized_block := fun _ => 0 }

/-- A stand-in for `alpha` in the examples over `ℚ`. -/
def sample_alpha : Nat → ℚ := fun k => if k = 0 then 1 / 3 else 1 / 2

/-- A stand-in for `cosf` in the examples over `ℚ`. -/
def sample_cosf : ℚ → ℚ := fun x => 1 - x * x / 2

/-- Surroundings of `compress` for the examples: every path holds the bitmap `bmp`, every
library and file call succeeds, and the local arrays start zeroed. -/
def sample_compress_env {R : Type} [LinearOrderedField R] (bmp : bitmap_read_t) :
    compress_env R :=
  { bitmapReadPixels := fun _ => some bmp,
    bitmapWritePixels := fun _ => true,
    fopen := fun _ => true,
    fwrite := fun _ => true,
    input_block := fun _ => 0,
    dct_block := fun _ => 0,
    quantized_block := fun _ => 0,
    zig_zagged_block := fun _ => 0 }

/-- A bitmap of the given dimensions with every pixel `h = 0`, `s = 0`, `v = 200`. -/
def sample_bitmap (width_px height_px : Int) : bitmap_read_t :=
  { pixels := fun _ => { h := 0, s := 0, v := 200 }, width_px := width_px,
    height_px := height_px }

/-- Surroundings like `sample_compress_env`, with a bitmap library that refuses to write to
the `NULL` path. -/
def strict_compress_env {R : Type} [LinearOrderedField R] (bmp : bitmap_read_t) :
    compress_env R :=
  { bitmapReadPixels := fun _ => some bmp,
    bitmapWritePixels := fun path => path.isSome,
    fopen := fun _ => true,
    fwrite := fun _ => true,
    input_block := fun _ => 0,
    dct_block := fun _ => 0,
    quantized_block := fun _ => 0,
    zig_zagged_block := fun _ => 0 }

/-- A bitmap of the given dimensions with every pixel `h = 120`, `s = 50`, `v = 200`. -/
def sample_colour_bitmap (width_px height_px : Int) : bitmap_read_t :=
  { pixels := fun _ => { h := 120, s := 50, v := 200 }, width_px := width_px,
    height_px := height_px }

/-- Surroundings like `sample_compress_env`, holding one bitmap at `colour.bmp` and another
at every other path. -/
def sample_two_compress_env {R : Type} [LinearOrderedField R] (bmp bmp_colour : bitmap_read_t) :
    compress_env R :=
  { bitmapReadPixels := fun path => if path = "colour.bmp" then some bmp_colour else some bmp,
    bitmapWritePixels := fun _ => true,
    fopen := fun _ => true,
    fwrite := fun _ => true,
    input_block := fun _ => 0,
    dct_block := fun _ => 0,
    quantized_block := fun _ => 0,
    zig_zagged_block := fun _ => 0 }

/-! ## Lemmas on loops -/

theorem for_loop_zero {σ : Type} (body : Nat → σ → σ) (s : σ) : for_loop 0 body s = s := rfl

theorem for_loop_succ {σ : Type} (n : Nat) (body : Nat → σ → σ) (s : σ) :
    for_loop (n + 1) body s = body n (for_loop n body s) := by
  simp [for_loop, List.range_succ]

/-- A loop that stores `f i` in cell `i` for `i < n`. -/
theorem for_loop_fill {α : Type} (f : Nat → α) (n : Nat) (out : Nat → α) (j : Nat) :
    for_loop n (fun i o => Function.update o i (f i)) out j = if j < n then f j else out j := by
  induction n with
  | zero => simp [for_loop_zero]
  | succ n ih =>
    rw [for_loop_succ]
    by_cases hj : j = n
    · subst hj; simp
    · rw [Function.update_noteq hj, ih]
      by_cases h : j < n
      · simp [h, Nat.lt_succ_of_lt h]
      · have : ¬ j < n + 1 := by omega
        simp [h, this]

/-- A scatter through an index map that is injective on `[0, n)`. -/
theorem for_loop_scatter {α : Type} (zz : Nat → Nat) (f : Nat → α) (n : Nat)
    (hinj : ∀ i < n, ∀ j < n, zz i = zz j → i = j) (out : Nat → α) (i : Nat) (hi : i < n) :
    for_loop n (fun i o => Function.update o (zz i) (f i)) out (zz i) = f i := by
  induction n with
  | zero => omega
  | succ n ih =>
    rw [for_loop_succ]
    by_cases hin : i = n
    · subst hin; simp
    · have hne : zz i ≠ zz n := fun h => hin (hinj i hi n (Nat.lt_succ_self n) h)
      rw [Function.update_noteq hne]
      exact ih (fun a ha b hb => hinj a (Nat.lt_succ_of_lt ha) b (Nat.lt_succ_of_lt hb))
        (by omega)

/-- A loop that adds `f i` to an accumulator. -/
theorem for_loop_sum {R : Type} [AddCommMonoid R] (f : Nat → R) (n : Nat) (a : R) :
    for_loop n (fun i s => s + f i) a = a + ∑ i in Finset.range n, f i := by
  induction n with
  | zero => simp [for_loop_zero]
  | succ n ih => rw [for_loop_succ, ih, Finset.sum_range_succ, add_assoc]

/-- A loop that stores `g q` in cell `base + q` for `q < w`. -/
theorem for_loop_fill_row {α : Type} (g : Nat → α) (base w : Nat) (out : Nat → α) (j : Nat) :
    for_loop w (fun q o => Function.update o (base + q) (g q)) out j
      = if base ≤ j ∧ j < base + w then g (j - base) else out j := by
  induction w with
  | zero =>
    have : ¬ (base ≤ j ∧ j < base + 0) := by omega
    rw [for_loop_zero, if_neg this]
  | succ w ih =>
    rw [for_loop_succ]
    by_cases hj : j = base + w
    · subst hj; simp
    · rw [Function.update_noteq hj, ih]
      by_cases h : base ≤ j ∧ j < base + w
      · have h2 : base ≤ j ∧ j < base + (w + 1) := by omega
        rw [if_pos h, if_pos h2]
      · have h2 : ¬ (base ≤ j ∧ j < base + (w + 1)) := by omega
        rw [if_neg h, if_neg h2]

/-- Two nested loops that store `f p q` in cell `8 * p + q`. -/
theorem for_loop_fill_grid {α : Type} (f : Nat → Nat → α) (n : Nat) (out : Nat → α) (j : Nat) :
    for_loop n (fun p o => for_loop 8 (fun q o => Function.update o (8 * p + q) (f p q)) o) out j
      = if j < 8 * n then f (j / 8) (j % 8) else out j := by
  induction n with
  | zero => simp [for_loop_zero]
  | succ n ih =>
    rw [for_loop_succ, for_loop_fill_row (f n) (8 * n) 8, ih]
    by_cases h : 8 * n ≤ j ∧ j < 8 * n + 8
    · have h1 : j < 8 * (n + 1) := by omega
      have h2 : j / 8 = n := by omega
      have h3 : j % 8 = j - 8 * n := by omega
      rw [if_pos h, if_pos h1, h2, h3]
    · rw [if_neg h]
      by_cases h1 : j < 8 * n
      · have h2 : j < 8 * (n + 1) := by omega
        rw [if_pos h1, if_pos h2]
      · have h2 : ¬ j < 8 * (n + 1) := by omega
        rw [if_neg h1, if_neg h2]

theorem for_loop_congr {σ : Type} (n : Nat) (body body' : Nat → σ → σ)
    (h : ∀ i < n, ∀ s, body i s = body' i s) (s : σ) :
    for_loop n body s = for_loop n body' s := by
  induction n with
  | zero => rfl
  | succ n ih =>
    rw [for_loop_succ, for_loop_succ, ih (fun i hi => h i (Nat.lt_succ_of_lt hi)),
      h n (Nat.lt_succ_self n)]

theorem for_loop_add {σ : Type} (a b : Nat) (body : Nat → σ → σ) (s : σ) :
    for_loop (a + b) body s = for_loop b (fun i s => body (a + i) s) (for_loop a body s) := by
  induction b with
  | zero => rfl
  | succ b ih => rw [← Nat.add_assoc, for_loop_succ, ih, for_loop_succ]

/-- A state that the body leaves alone is left alone by the loop. -/
theorem for_loop_fixed {σ : Type} (n : Nat) (body : Nat → σ → σ) (s : σ)
    (h : ∀ i, body i s = s) : for_loop n body s = s := by
  induction n with
  | zero => rfl
  | succ n ih => rw [for_loop_succ, ih, h]

/-- Two nested loops are one loop over the row-major index `k`, with `x = k % nx` and
`y = k / nx`. -/
theorem for_loop_nested {σ : Type} (nx ny : Nat) (f : Nat → Nat → σ → σ) (s : σ) :
    for_loop ny (fun y s => for_loop nx (fun x s => f x y s) s) s
      = for_loop (nx * ny) (fun k s => f (k % nx) (k / nx) s) s := by
  induction ny with
  | zero => rfl
  | succ ny ih =>
    rw [for_loop_succ, ih, Nat.mul_succ, for_loop_add]
    apply for_loop_congr
    intro i hi s
    have hpos : 0 < nx := by omega
    have h1 : (nx * ny + i) % nx = i := by
      rw [Nat.mul_add_mod, Nat.mod_eq_of_lt hi]
    have h2 : (nx * ny + i) / nx = ny := by
      rw [Nat.mul_add_div hpos, Nat.div_eq_of_lt hi, Nat.add_zero]
    rw [h1, h2]

/-- A scatter leaves the cells alone that no index hits. -/
theorem for_loop_scatter_other {α : Type} (idx : Nat → Nat) (f : Nat → α) (n : Nat)
    (out : Nat → α) (o : Nat) (h : ∀ i < n, o ≠ idx i) :
    for_loop n (fun i out => Function.update out (idx i) (f i)) out o = out o := by
  induction n with
  | zero => rfl
  | succ n ih =>
    rw [for_loop_succ, Function.update_noteq (h n (Nat.lt_succ_self n)),
      ih (fun i hi => h i (Nat.lt_succ_of_lt hi))]

/-! ## Rounding and conversions -/

theorem int8_cast_of_mem {z : Int} (h1 : -128 ≤ z) (h2 : z ≤ 127) : int8_cast z = z := by
  unfold int8_cast
  omega

theorem int8_cast_mem (z : Int) : -128 ≤ int8_cast z ∧ int8_cast z ≤ 127 := by
  unfold int8_cast
  omega

theorem floor_intCast_add_half {R : Type} [LinearOrderedField R] [FloorRing R] (z : Int) :
    ⌊(z : R) + 1 / 2⌋ = z := by
  rw [Int.floor_eq_iff]
  constructor <;> linarith

theorem roundf_intCast {R : Type} [LinearOrderedField R] [FloorRing R] (z : Int) :
    roundf (z : R) = z := by
  unfold roundf
  split_ifs with h
  · exact floor_intCast_add_half z
  · have e : -(z : R) + 1 / 2 = ((-z : Int) : R) + 1 / 2 := by push_cast; ring
    rw [e, floor_intCast_add_half]
    ring

/-- `roundf` moves its argument by at most one half. -/
theorem abs_roundf_sub_le {R : Type} [LinearOrderedField R] [FloorRing R] (x : R) :
    |(roundf x : R) - x| ≤ 1 / 2 := by
  unfold roundf
  split_ifs with h
  · have h1 := Int.floor_le (x + 1 / 2)
    have h2 := Int.lt_floor_add_one (x + 1 / 2)
    rw [abs_le]
    constructor <;> linarith
  · have h1 := Int.floor_le (-x + 1 / 2)
    have h2 := Int.lt_floor_add_one (-x + 1 / 2)
    rw [abs_le]
    push_cast
    constructor <;> linarith

/-! ## Closed forms of the block operations -/

theorem read_block_apply {R : Type} [LinearOrderedField R] (pixels : Nat → bitmap_pixel_hsv_t)
    (index_x index_y blocks_x : Nat) (block : Nat → R) (j : Nat) :
    read_block pixels index_x index_y blocks_x block j
      = if j < 64 then
          ((pixels (pixel_offset blocks_x index_x index_y (j % 8) (j / 8))).v : R) - 128
        else block j := by
  unfold read_block
  exact for_loop_fill_grid
    (fun y x => ((pixels (pixel_offset blocks_x index_x index_y x y)).v : R) - 128) 8 block j

theorem compress_dct_sum_eq {R : Type} [LinearOrderedField R] (cosf : R → R) (M_PI : R)
    (block : Nat → R) (p q : Nat) :
    compress_c.dct_sum cosf M_PI block p q
      = ∑ m in Finset.range 8, ∑ n in Finset.range 8,
          block (8 * m + n) * cosf (dct_angle M_PI m p) * cosf (dct_angle M_PI n q) := by
  unfold compress_c.dct_sum
  simp only [for_loop_sum, zero_add]

theorem decompress_dct_sum_eq {R : Type} [LinearOrderedField R] (cosf : R → R) (M_PI : R)
    (alpha : Nat → R) (block : Nat → R) (m n : Nat) :
    decompress_c.dct_sum cosf M_PI alpha block m n
      = ∑ p in Finset.range 8, ∑ q in Finset.range 8,
          block (8 * p + q) * alpha p * alpha q * cosf (dct_angle M_PI m p)
            * cosf (dct_angle M_PI n q) := by
  unfold decompress_c.dct_sum
  simp only [for_loop_sum, zero_add]

theorem perform_dct_apply {R : Type} [LinearOrderedField R] (cosf : R → R) (M_PI : R)
    (alpha : Nat → R) (input_block output_block : Nat → R) (j : Nat) :
    perform_dct cosf M_PI alpha input_block output_block j
      = if j < 64 then
          alpha (j / 8) * alpha (j % 8) * compress_c.dct_sum cosf M_PI input_block (j / 8) (j % 8)
        else output_block j := by
  unfold perform_dct
  exact for_loop_fill_grid
    (fun p q => alpha p * alpha q * compress_c.dct_sum cosf M_PI input_block p q) 8
    output_block j

theorem perform_inverse_dct_apply {R : Type} [LinearOrderedField R] (cosf : R → R) (M_PI : R)
    (alpha : Nat → R) (input_block output_block : Nat → R) (j : Nat) :
    perform_inverse_dct cosf M_PI alpha input_block output_block j
      = if j < 64 then decompress_c.dct_sum cosf M_PI alpha input_block (j / 8) (j % 8)
        else output_block j := by
  unfold perform_inverse_dct
  exact for_loop_fill_grid
    (fun m n => decompress_c.dct_sum cosf M_PI alpha input_block m n) 8 output_block j

theorem quantize_apply {R : Type} [LinearOrderedField R] [FloorRing R] (input_block : Nat → R)
    (quant_matrix : Nat → Int) (output_block : Nat → Int) (j : Nat) :
    quantize input_block quant_matrix output_block j
      = if j < 64 then int8_cast (roundf (input_block j / (quant_matrix j : R)))
        else output_block j := by
  unfold quantize
  exact for_loop_fill
    (fun i => int8_cast (roundf (input_block i / (quant_matrix i : R)))) 64 output_block j

theorem int_cast_of_mem {z : Int} (h1 : -2147483648 ≤ z) (h2 : z ≤ 2147483647) :
    int_cast z = z := by
  unfold int_cast
  omega

theorem dequantize_apply {R : Type} [LinearOrderedField R] (input_block : Nat → Int)
    (quant_matrix : Nat → Int) (output_block : Nat → R) (j : Nat) :
    dequantize input_block quant_matrix output_block j
      = if j < 64 then ((int_cast (input_block j * quant_matrix j) : Int) : R)
        else output_block j := by
  unfold dequantize
  exact for_loop_fill (fun i => ((int_cast (input_block i * quant_matrix i) : Int) : R)) 64
    output_block j

/-- A rounded quotient that fits an `int8_t`, times its divisor, is within half the divisor
of the coefficient. -/
theorem quantize_mul_error {R : Type} [LinearOrderedField R] [FloorRing R] (c : Nat → R)
    (d : Nat → Int) (out1 : Nat → Int) (i : Nat) (hi : i < 64)
    (hd : 0 < d i) (hlo : -128 ≤ roundf (c i / (d i : R)))
    (hhi : roundf (c i / (d i : R)) ≤ 127) :
    |((quantize c d out1 i * d i : Int) : R) - c i| ≤ (d i : R) / 2 := by
  rw [quantize_apply, if_pos hi, int8_cast_of_mem hlo hhi]
  have hdR : (0 : R) < (d i : R) := by exact_mod_cast hd
  have h := abs_roundf_sub_le (c i / (d i : R))
  have e : ((roundf (c i / (d i : R)) * d i : Int) : R) - c i
      = ((roundf (c i / (d i : R)) : R) - c i / (d i : R)) * (d i : R) := by
    push_cast
    field_simp
  rw [e, abs_mul, abs_of_pos hdR]
  calc |(roundf (c i / (d i : R)) : R) - c i / (d i : R)| * (d i : R)
      ≤ 1 / 2 * (d i : R) := mul_le_mul_of_nonneg_right h hdR.le
    _ = (d i : R) / 2 := by ring

/-- A product that fits an `int` is what `dequantize` stores. -/
theorem dequantize_of_fits {R : Type} [LinearOrderedField R] (q : Nat → Int) (d : Nat → Int)
    (out : Nat → R) (i : Nat) (hi : i < 64) (h1 : -2147483648 ≤ q i * d i)
    (h2 : q i * d i ≤ 2147483647) :
    dequantize q d out i = ((q i * d i : Int) : R) := by
  rw [dequantize_apply, if_pos hi, int_cast_of_mem h1 h2]

/-- The rounded quotient of a coefficient below `2^30` in absolute value, times the divisor,
fits an `int`: it is `0`, or the divisor is at most twice the coefficient. -/
theorem roundf_mul_fits {R : Type} [LinearOrderedField R] [FloorRing R] (c : R) (d : Int)
    (hd : 0 < d) (hc : |c| < 1073741824) :
    -2147483648 ≤ roundf (c / (d : R)) * d ∧ roundf (c / (d : R)) * d ≤ 2147483647 := by
  by_cases h0 : roundf (c / (d : R)) = 0
  · rw [h0]
    omega
  · have hdR : (0 : R) < (d : R) := by exact_mod_cast hd
    have h := abs_roundf_sub_le (c / (d : R))
    have hq1 : (1 : R) ≤ |(roundf (c / (d : R)) : R)| := by
      have : 1 ≤ |roundf (c / (d : R))| := Int.one_le_abs h0
      exact_mod_cast this
    have hquot : 1 / 2 ≤ |c / (d : R)| := by
      have := abs_sub_abs_le_abs_sub ((roundf (c / (d : R)) : R)) (c / (d : R))
      linarith
    have hcd : (d : R) ≤ 2 * |c| := by
      rw [abs_div, abs_of_pos hdR, le_div_iff₀ hdR] at hquot
      linarith
    have herr : |((roundf (c / (d : R)) : R)) * (d : R) - c| ≤ (d : R) / 2 := by
      have e : ((roundf (c / (d : R)) : R)) * (d : R) - c
          = ((roundf (c / (d : R)) : R) - c / (d : R)) * (d : R) := by
        field_simp
      rw [e, abs_mul, abs_of_pos hdR]
      calc |(roundf (c / (d : R)) : R) - c / (d : R)| * (d : R)
          ≤ 1 / 2 * (d : R) := mul_le_mul_of_nonneg_right h hdR.le
        _ = (d : R) / 2 := by ring
    have hprod : |((roundf (c / (d : R)) * d : Int) : R)| < ((2147483648 : Int) : R) := by
      push_cast
      have := abs_sub_abs_le_abs_sub ((roundf (c / (d : R)) : R) * (d : R)) c
      linarith
    rw [← Int.cast_abs, Int.cast_lt] at hprod
    rw [abs_lt] at hprod
    constructor <;> omega

/-- A rounded quotient that fits an `int8_t`, with a product that fits an `int`, is within
half the divisor after `dequantize`. -/
theorem dequantize_quantize_error {R : Type} [LinearOrderedField R] [FloorRing R] (c : Nat → R)
    (d : Nat → Int) (out1 : Nat → Int) (out2 : Nat → R) (i : Nat) (hi : i < 64)
    (hd : 0 < d i) (hlo : -128 ≤ roundf (c i / (d i : R)))
    (hhi : roundf (c i / (d i : R)) ≤ 127)
    (h1 : -2147483648 ≤ quantize c d out1 i * d i)
    (h2 : quantize c d out1 i * d i ≤ 2147483647) :
    |dequantize (quantize c d out1) d out2 i - c i| ≤ (d i : R) / 2 := by
  rw [dequantize_of_fits _ d out2 i hi h1 h2]
  exact quantize_mul_error c d out1 i hi hd hlo hhi

/-- The same for a coefficient below `2^30` in absolute value. -/
theorem dequantize_quantize_error_of_lt {R : Type} [LinearOrderedField R] [FloorRing R]
    (c : Nat → R) (d : Nat → Int) (out1 : Nat → Int) (out2 : Nat → R) (i : Nat) (hi : i < 64)
    (hd : 0 < d i) (hlo : -128 ≤ roundf (c i / (d i : R)))
    (hhi : roundf (c i / (d i : R)) ≤ 127) (hc : |c i| < 1073741824) :
    |dequantize (quantize c d out1) d out2 i - c i| ≤ (d i : R) / 2 := by
  have hq : quantize c d out1 i = roundf (c i / (d i : R)) := by
    rw [quantize_apply, if_pos hi, int8_cast_of_mem hlo hhi]
  have hf := roundf_mul_fits (c i) (d i) hd hc
  exact dequantize_quantize_error c d out1 out2 i hi hd hlo hhi (by rw [hq]; exact hf.1)
    (by rw [hq]; exact hf.2)

/-! ## Lemmas on the coefficient reordering -/

theorem is_permutation_inj {zz : Nat → Nat} (h : is_permutation zz) :
    ∀ i < 64, ∀ j < 64, zz i = zz j → i = j := by
  have hnd : ((List.range 64).map zz).Nodup := h.nodup_iff.mpr (List.nodup_range 64)
  intro i hi j hj hij
  exact List.inj_on_of_nodup_map hnd (List.mem_range.mpr hi) (List.mem_range.mpr hj) hij

theorem is_permutation_surj {zz : Nat → Nat} (h : is_permutation zz) (j : Nat) (hj : j < 64) :
    ∃ i, i < 64 ∧ zz i = j := by
  have hm : j ∈ (List.range 64).map zz := h.mem_iff.mpr (List.mem_range.mpr hj)
  obtain ⟨i, hi, hij⟩ := List.mem_map.mp hm
  exact ⟨i, List.mem_range.mp hi, hij⟩

theorem is_permutation_lt {zz : Nat → Nat} (h : is_permutation zz) (i : Nat) (hi : i < 64) :
    zz i < 64 :=
  List.mem_range.mp (h.mem_iff.mp (List.mem_map.mpr ⟨i, List.mem_range.mpr hi, rfl⟩))

theorem un_zig_zag_apply (zz : Nat → Nat) (inp out : Nat → Int) (i : Nat) :
    un_zig_zag zz inp out i = if i < 64 then inp (zz i) else out i := by
  unfold un_zig_zag
  exact for_loop_fill (fun i => inp (zz i)) 64 out i

theorem zig_zag_apply {zz : Nat → Nat} (h : is_permutation zz) (inp out : Nat → Int) (i : Nat)
    (hi : i < 64) : zig_zag zz inp out (zz i) = inp i := by
  unfold zig_zag
  exact for_loop_scatter zz inp 64 (is_permutation_inj h) out i hi

theorem jpeg_zig_zag_order_is_permutation : is_permutation jpeg_zig_zag_order := by
  unfold is_permutation
  decide

/-! ## Pixel offsets -/

theorem pixel_offset_eq (blocks_x index_x index_y curr_x curr_y : Nat) :
    pixel_offset blocks_x index_x index_y curr_x curr_y
      = (index_x * 8 + curr_x) + (blocks_x * 8) * (index_y * 8 + curr_y) := by
  unfold pixel_offset
  ring

theorem pixel_offset_mod (blocks_x index_x index_y curr_x curr_y : Nat)
    (hx : index_x < blocks_x) (hcx : curr_x < 8) :
    pixel_offset blocks_x index_x index_y curr_x curr_y % (blocks_x * 8)
      = index_x * 8 + curr_x := by
  rw [pixel_offset_eq, Nat.add_mul_mod_self_left, Nat.mod_eq_of_lt (by omega)]

theorem pixel_offset_div (blocks_x index_x index_y curr_x curr_y : Nat)
    (hx : index_x < blocks_x) (hcx : curr_x < 8) :
    pixel_offset blocks_x index_x index_y curr_x curr_y / (blocks_x * 8)
      = index_y * 8 + curr_y := by
  rw [pixel_offset_eq, Nat.add_mul_div_left _ _ (by omega : 0 < blocks_x * 8),
    Nat.div_eq_of_lt (by omega), Nat.zero_add]

/-- Distinct positions of a plane have distinct offsets. -/
theorem pixel_offset_inj (blocks_x x y cx cy x' y' cx' cy' : Nat) (hx : x < blocks_x)
    (hx' : x' < blocks_x) (hcx : cx < 8) (hcy : cy < 8) (hcx' : cx' < 8) (hcy' : cy' < 8)
    (h : pixel_offset blocks_x x y cx cy = pixel_offset blocks_x x' y' cx' cy') :
    x = x' ∧ y = y' ∧ cx = cx' ∧ cy = cy' := by
  have hm := congrArg (fun o => o % (blocks_x * 8)) h
  have hd := congrArg (fun o => o / (blocks_x * 8)) h
  simp only at hm hd
  rw [pixel_offset_mod _ _ _ _ _ hx hcx, pixel_offset_mod _ _ _ _ _ hx' hcx'] at hm
  rw [pixel_offset_div _ _ _ _ _ hx hcx, pixel_offset_div _ _ _ _ _ hx' hcx'] at hd
  omega

/-! ## `write_block` -/

theorem write_block_flat {R : Type} [LinearOrderedField R] [FloorRing R]
    (pixels : Nat → bitmap_pixel_rgb_t) (index_x index_y blocks_x : Nat) (block : Nat → R) :
    write_block pixels index_x index_y blocks_x block
      = for_loop 64 (fun k pixels =>
          Function.update pixels (pixel_offset blocks_x index_x index_y (k % 8) (k / 8))
            { r := clamped_component (block (8 * (k / 8) + k % 8)),
              g := clamped_component (block (8 * (k / 8) + k % 8)),
              b := clamped_component (block (8 * (k / 8) + k % 8)) }) pixels := by
  have h := for_loop_nested 8 8 (fun curr_x curr_y pixels =>
    Function.update pixels (pixel_offset blocks_x index_x index_y curr_x curr_y)
      ({ r := clamped_component (block (8 * curr_y + curr_x)),
         g := clamped_component (block (8 * curr_y + curr_x)),
         b := clamped_component (block (8 * curr_y + curr_x)) } : bitmap_pixel_rgb_t)) pixels
  rw [show 8 * 8 = 64 from rfl] at h
  rw [← h]
  rfl

/-- Inside its block, `write_block` stores the clamped component of the sample in `r`, `g`
and `b`. -/
theorem write_block_at {R : Type} [LinearOrderedField R] [FloorRing R]
    (pixels : Nat → bitmap_pixel_rgb_t) (index_x index_y blocks_x : Nat) (block : Nat → R)
    (hx : index_x < blocks_x) (curr_x curr_y : Nat) (hcx : curr_x < 8) (hcy : curr_y < 8) :
    write_block pixels index_x index_y blocks_x block
        (pixel_offset blocks_x index_x index_y curr_x curr_y)
      = { r := clamped_component (block (8 * curr_y + curr_x)),
          g := clamped_component (block (8 * curr_y + curr_x)),
          b := clamped_component (block (8 * curr_y + curr_x)) } := by
  rw [write_block_flat]
  have h := for_loop_scatter
    (fun k => pixel_offset blocks_x index_x index_y (k % 8) (k / 8))
    (fun k => ({ r := clamped_component (block (8 * (k / 8) + k % 8)),
                 g := clamped_component (block (8 * (k / 8) + k % 8)),
                 b := clamped_component (block (8 * (k / 8) + k % 8)) } : bitmap_pixel_rgb_t))
    64 (by
      intro i hi j hj hij
      have := pixel_offset_inj blocks_x index_x index_y (i % 8) (i / 8) index_x index_y
        (j % 8) (j / 8) hx hx (Nat.mod_lt _ (by norm_num)) (by omega)
        (Nat.mod_lt _ (by norm_num)) (by omega) hij
      omega) pixels (8 * curr_y + curr_x) (by omega)
  have h1 : (8 * curr_y + curr_x) % 8 = curr_x := by omega
  have h2 : (8 * curr_y + curr_x) / 8 = curr_y := by omega
  simp only [h1, h2] at h
  exact h

/-- Outside its block, `write_block` leaves the pixel buffer alone. -/
theorem write_block_other {R : Type} [LinearOrderedField R] [FloorRing R]
    (pixels : Nat → bitmap_pixel_rgb_t) (index_x index_y blocks_x : Nat) (block : Nat → R)
    (o : Nat)
    (h : ∀ curr_x < 8, ∀ curr_y < 8, o ≠ pixel_offset blocks_x index_x index_y curr_x curr_y) :
    write_block pixels index_x index_y blocks_x block o = pixels o := by
  rw [write_block_flat]
  exact for_loop_scatter_other _ _ 64 pixels o
    (fun i hi => h (i % 8) (Nat.mod_lt _ (by norm_num)) (i / 8) (by omega))

/-! ## The component `write_block` stores -/

theorem MIN_intCast {R : Type} [LinearOrderedField R] (a b : Int) :
    MIN (a : R) (b : R) = ((min a b : Int) : R) := by
  unfold MIN
  by_cases h : a < b
  · rw [if_pos (by exact_mod_cast h), min_eq_left h.le]
  · rw [if_neg (by exact_mod_cast h), min_eq_right (by omega)]

theorem MAX_intCast {R : Type} [LinearOrderedField R] (a b : Int) :
    MAX (a : R) (b : R) = ((max a b : Int) : R) := by
  unfold MAX
  by_cases h : a > b
  · rw [if_pos (by exact_mod_cast h), max_eq_left h.le]
  · rw [if_neg (by exact_mod_cast h), max_eq_right (by omega)]

/-- The stored component is the rounded sample plus 128, clamped to `[0, 255]`. -/
theorem clamped_component_eq {R : Type} [LinearOrderedField R] [FloorRing R] (x : R) :
    clamped_component x = (max (min 255 (roundf x + 128)) 0).toNat := by
  unfold clamped_component
  have e1 : (roundf x : R) + 128 = ((roundf x + 128 : Int) : R) := by push_cast; ring
  have e2 : (255 : R) = ((255 : Int) : R) := by norm_num
  have e3 : (0 : R) = ((0 : Int) : R) := by norm_num
  simp only []
  rw [e1, e2, MIN_intCast, e3, MAX_intCast]
  unfold bitmap_component_cast
  rw [Int.floor_intCast]
  omega

theorem clamped_component_zero {R : Type} [LinearOrderedField R] [FloorRing R] :
    clamped_component (0 : R) = 128 := by
  rw [clamped_component_eq]
  have e : roundf (0 : R) = 0 := by
    have := roundf_intCast (R := R) 0
    simpa using this
  rw [e]
  decide

/-! ## The transform over the reals -/

theorem two_sin_mul_sum_cos (θ : ℝ) (n : ℕ) :
    2 * Real.sin θ * ∑ m in Finset.range n, Real.cos ((2 * (m : ℝ) + 1) * θ)
      = Real.sin (2 * n * θ) := by
  induction n with
  | zero => simp
  | succ n ih =>
    rw [Finset.sum_range_succ, mul_add, ih]
    have h1 : 2 * ((n + 1 : ℕ) : ℝ) * θ = (2 * (n : ℝ) + 1) * θ + θ := by push_cast; ring
    have h2 : 2 * (n : ℝ) * θ = (2 * (n : ℝ) + 1) * θ - θ := by ring
    rw [h1, h2, Real.sin_add, Real.sin_sub]
    ring

theorem sum_cos_odd_eq_zero (k : ℤ) (hk : k ≠ 0) (hlt : |k| < 16) :
    ∑ m in Finset.range 8, Real.cos ((2 * (m : ℝ) + 1) * ((k : ℝ) * Real.pi / 16)) = 0 := by
  have h := two_sin_mul_sum_cos ((k : ℝ) * Real.pi / 16) 8
  have h16 : 2 * ((8 : ℕ) : ℝ) * ((k : ℝ) * Real.pi / 16) = (k : ℝ) * Real.pi := by
    push_cast; ring
  rw [h16, Real.sin_int_mul_pi] at h
  have hsin : Real.sin ((k : ℝ) * Real.pi / 16) ≠ 0 := by
    intro h0
    obtain ⟨n, hn⟩ := Real.sin_eq_zero_iff.mp h0
    have hpi : Real.pi ≠ 0 := Real.pi_ne_zero
    have hk16 : (k : ℝ) = 16 * (n : ℝ) := by
      field_simp at hn
      have := mul_right_cancel₀ hpi (by linarith : (n : ℝ) * 16 * Real.pi = (k : ℝ) * Real.pi)
      linarith
    have hk16' : k = 16 * n := by exact_mod_cast hk16
    rw [abs_lt] at hlt
    omega
  rcases mul_eq_zero.mp h with h2 | h2
  · rcases mul_eq_zero.mp h2 with h3 | h3
    · norm_num at h3
    · exact absurd h3 hsin
  · exact h2

theorem cos_dct_angle (m p : ℕ) :
    Real.cos (dct_angle Real.pi m p) = Real.cos ((2 * (m : ℝ) + 1) * (((p : ℤ) : ℝ) * Real.pi / 16)) := by
  unfold dct_angle
  congr 1
  push_cast
  ring

theorem sum_cos_mul_cos (p q : ℕ) (hp : p < 8) (hq : q < 8) :
    ∑ m in Finset.range 8, Real.cos (dct_angle Real.pi m p) * Real.cos (dct_angle Real.pi m q)
      = if p = q then (if p = 0 then 8 else 4) else 0 := by
  have hprod : ∀ m : ℕ, Real.cos (dct_angle Real.pi m p) * Real.cos (dct_angle Real.pi m q)
      = (Real.cos ((2 * (m : ℝ) + 1) * ((((p : ℤ) + q : ℤ) : ℝ) * Real.pi / 16))
        + Real.cos ((2 * (m : ℝ) + 1) * ((((p : ℤ) - q : ℤ) : ℝ) * Real.pi / 16))) / 2 := by
    intro m
    rw [cos_dct_angle, cos_dct_angle]
    have e1 : (2 * (m : ℝ) + 1) * ((((p : ℤ) + q : ℤ) : ℝ) * Real.pi / 16)
        = (2 * (m : ℝ) + 1) * (((p : ℤ) : ℝ) * Real.pi / 16)
          + (2 * (m : ℝ) + 1) * (((q : ℤ) : ℝ) * Real.pi / 16) := by push_cast; ring
    have e2 : (2 * (m : ℝ) + 1) * ((((p : ℤ) - q : ℤ) : ℝ) * Real.pi / 16)
        = (2 * (m : ℝ) + 1) * (((p : ℤ) : ℝ) * Real.pi / 16)
          - (2 * (m : ℝ) + 1) * (((q : ℤ) : ℝ) * Real.pi / 16) := by push_cast; ring
    rw [e1, e2, Real.cos_add, Real.cos_sub]
    ring
  simp only [hprod]
  rw [← Finset.sum_div, Finset.sum_add_distrib]
  by_cases hpq : p = q
  · subst hpq
    rw [if_pos rfl]
    have hz : ∑ m in Finset.range 8,
        Real.cos ((2 * (m : ℝ) + 1) * ((((p : ℤ) - p : ℤ) : ℝ) * Real.pi / 16)) = 8 := by
      simp
    rw [hz]
    by_cases hp0 : p = 0
    · subst hp0
      simp
    · rw [if_neg hp0, sum_cos_odd_eq_zero _ (by omega) (by rw [abs_lt]; omega)]
      norm_num
  · rw [if_neg hpq, sum_cos_odd_eq_zero _ (by omega) (by rw [abs_lt]; omega),
      sum_cos_odd_eq_zero _ (by omega) (by rw [abs_lt]; omega)]
    norm_num

theorem sum_cos_dct_angle (p : ℕ) (hp : p < 8) :
    ∑ m in Finset.range 8, Real.cos (dct_angle Real.pi m p) = if p = 0 then 8 else 0 := by
  simp only [cos_dct_angle]
  by_cases hp0 : p = 0
  · subst hp0
    simp
  · rw [if_neg hp0]
    exact sum_cos_odd_eq_zero (p : ℤ) (by omega) (by rw [abs_lt]; omega)

theorem alpha_mul_self (alpha : ℕ → ℝ) (ha0 : alpha 0 = 1 / Real.sqrt 8)
    (hak : ∀ k, 1 ≤ k → k ≤ 7 → alpha k = Real.sqrt (2 / 8)) (p : ℕ) (hp : p < 8) :
    alpha p * alpha p = if p = 0 then 1 / 8 else 1 / 4 := by
  by_cases hp0 : p = 0
  · subst hp0
    rw [if_pos rfl, ha0, div_mul_div_comm, Real.mul_self_sqrt (by norm_num)]
    norm_num
  · rw [if_neg hp0, hak p (by omega) (by omega), Real.mul_self_sqrt (by norm_num)]
    norm_num

/-- The transform of a constant block: `8 * c` in the DC cell, `0` elsewhere. -/
theorem perform_dct_constant (alpha : ℕ → ℝ) (ha0 : alpha 0 = 1 / Real.sqrt 8)
    (hak : ∀ k, 1 ≤ k → k ≤ 7 → alpha k = Real.sqrt (2 / 8)) (c : ℝ) (b out : ℕ → ℝ)
    (hb : ∀ i < 64, b i = c) (i : ℕ) (hi : i < 64) :
    perform_dct Real.cos Real.pi alpha b out i = if i = 0 then 8 * c else 0 := by
  rw [perform_dct_apply, if_pos hi, compress_dct_sum_eq]
  have hsum : ∑ m in Finset.range 8, ∑ n in Finset.range 8,
      b (8 * m + n) * Real.cos (dct_angle Real.pi m (i / 8))
        * Real.cos (dct_angle Real.pi n (i % 8))
      = c * (∑ m in Finset.range 8, Real.cos (dct_angle Real.pi m (i / 8)))
          * (∑ n in Finset.range 8, Real.cos (dct_angle Real.pi n (i % 8))) := by
    simp only [Finset.mul_sum, Finset.sum_mul]
    rw [Finset.sum_comm]
    refine Finset.sum_congr rfl (fun n hn => Finset.sum_congr rfl (fun m hm => ?_))
    have hm' := Finset.mem_range.mp hm
    have hn' := Finset.mem_range.mp hn
    rw [hb (8 * m + n) (by omega)]
  rw [hsum, sum_cos_dct_angle (i / 8) (by omega),
    sum_cos_dct_angle (i % 8) (Nat.mod_lt _ (by norm_num))]
  by_cases h0 : i = 0
  · subst h0
    have ha := alpha_mul_self alpha ha0 hak 0 (by norm_num)
    simp only [Nat.zero_div, Nat.zero_mod, if_true] at ha ⊢
    calc alpha 0 * alpha 0 * (c * 8 * 8) = (alpha 0 * alpha 0) * (c * 64) := by ring
      _ = 8 * c := by rw [ha]; ring
  · rw [if_neg h0]
    by_cases hp : i / 8 = 0
    · have hq : i % 8 ≠ 0 := by omega
      rw [if_neg hq]
      ring
    · rw [if_neg hp]
      ring

theorem dct_rows_orthonormal (alpha : ℕ → ℝ) (ha0 : alpha 0 = 1 / Real.sqrt 8)
    (hak : ∀ k, 1 ≤ k → k ≤ 7 → alpha k = Real.sqrt (2 / 8)) (p q : ℕ) (hp : p < 8)
    (hq : q < 8) :
    ∑ m in Finset.range 8, (alpha p * Real.cos (dct_angle Real.pi m p))
        * (alpha q * Real.cos (dct_angle Real.pi m q))
      = if p = q then 1 else 0 := by
  have h : ∀ m : ℕ, (alpha p * Real.cos (dct_angle Real.pi m p))
        * (alpha q * Real.cos (dct_angle Real.pi m q))
      = (alpha p * alpha q)
        * (Real.cos (dct_angle Real.pi m p) * Real.cos (dct_angle Real.pi m q)) := by
    intro m; ring
  simp only [h]
  rw [← Finset.mul_sum, sum_cos_mul_cos p q hp hq]
  by_cases hpq : p = q
  · subst hpq
    rw [if_pos rfl, if_pos rfl, alpha_mul_self alpha ha0 hak p hp]
    by_cases hp0 : p = 0
    · rw [if_pos hp0, if_pos hp0]; norm_num
    · rw [if_neg hp0, if_neg hp0]; norm_num
  · rw [if_neg hpq, if_neg hpq, mul_zero]

theorem dct_columns_orthonormal (alpha : ℕ → ℝ) (ha0 : alpha 0 = 1 / Real.sqrt 8)
    (hak : ∀ k, 1 ≤ k → k ≤ 7 → alpha k = Real.sqrt (2 / 8)) (m n : ℕ) (hm : m < 8)
    (hn : n < 8) :
    ∑ p in Finset.range 8, (alpha p * Real.cos (dct_angle Real.pi m p))
        * (alpha p * Real.cos (dct_angle Real.pi n p))
      = if m = n then 1 else 0 := by
  let M : Matrix (Fin 8) (Fin 8) ℝ :=
    fun p m => alpha p.val * Real.cos (dct_angle Real.pi m.val p.val)
  have hrow : M * M.transpose = 1 := by
    ext p q
    rw [Matrix.mul_apply, Matrix.one_apply]
    have := dct_rows_orthonormal alpha ha0 hak p.val q.val p.isLt q.isLt
    rw [Finset.sum_range] at this
    simp only [Matrix.transpose_apply, M]
    rw [this]
    simp [Fin.ext_iff]
  have hcol : M.transpose * M = 1 := Matrix.mul_eq_one_comm.mp hrow
  have hmn := congrFun (congrFun hcol ⟨m, hm⟩) ⟨n, hn⟩
  rw [Matrix.mul_apply, Matrix.one_apply] at hmn
  simp only [Matrix.transpose_apply, M] at hmn
  rw [Finset.sum_range, hmn]
  simp [Fin.ext_iff]

theorem sum_sum_comm4 (F : ℕ → ℕ → ℕ → ℕ → ℝ) (s : Finset ℕ) :
    ∑ p in s, ∑ q in s, ∑ m in s, ∑ n in s, F p q m n
      = ∑ m in s, ∑ n in s, ∑ p in s, ∑ q in s, F p q m n := by
  calc ∑ p in s, ∑ q in s, ∑ m in s, ∑ n in s, F p q m n
      = ∑ p in s, ∑ m in s, ∑ q in s, ∑ n in s, F p q m n :=
        Finset.sum_congr rfl (fun p _ => Finset.sum_comm)
    _ = ∑ m in s, ∑ p in s, ∑ q in s, ∑ n in s, F p q m n := Finset.sum_comm
    _ = ∑ m in s, ∑ p in s, ∑ n in s, ∑ q in s, F p q m n :=
        Finset.sum_congr rfl (fun m _ => Finset.sum_congr rfl (fun p _ => Finset.sum_comm))
    _ = ∑ m in s, ∑ n in s, ∑ p in s, ∑ q in s, F p q m n :=
        Finset.sum_congr rfl (fun m _ => Finset.sum_comm)

theorem idct_dct_sum (alpha : ℕ → ℝ) (ha0 : alpha 0 = 1 / Real.sqrt 8)
    (hak : ∀ k, 1 ≤ k → k ≤ 7 → alpha k = Real.sqrt (2 / 8)) (b : ℕ → ℝ) (m n : ℕ)
    (hm : m < 8) (hn : n < 8) :
    ∑ p in Finset.range 8, ∑ q in Finset.range 8,
      (alpha p * alpha q * ∑ m' in Finset.range 8, ∑ n' in Finset.range 8,
          b (8 * m' + n') * Real.cos (dct_angle Real.pi m' p)
            * Real.cos (dct_angle Real.pi n' q))
        * alpha p * alpha q * Real.cos (dct_angle Real.pi m p)
        * Real.cos (dct_angle Real.pi n q)
      = b (8 * m + n) := by
  have step1 : ∀ p q : ℕ,
      (alpha p * alpha q * ∑ m' in Finset.range 8, ∑ n' in Finset.range 8,
          b (8 * m' + n') * Real.cos (dct_angle Real.pi m' p)
            * Real.cos (dct_angle Real.pi n' q))
        * alpha p * alpha q * Real.cos (dct_angle Real.pi m p)
        * Real.cos (dct_angle Real.pi n q)
      = ∑ m' in Finset.range 8, ∑ n' in Finset.range 8,
          b (8 * m' + n')
            * ((alpha p * Real.cos (dct_angle Real.pi m p))
                * (alpha p * Real.cos (dct_angle Real.pi m' p)))
            * ((alpha q * Real.cos (dct_angle Real.pi n q))
                * (alpha q * Real.cos (dct_angle Real.pi n' q))) := by
    intro p q
    simp only [Finset.mul_sum, Finset.sum_mul]
    refine Finset.sum_congr rfl (fun m' _ => Finset.sum_congr rfl (fun n' _ => ?_))
    ring
  simp only [step1]
  rw [sum_sum_comm4]
  have step2 : ∀ m' ∈ Finset.range 8, ∀ n' ∈ Finset.range 8,
      ∑ p in Finset.range 8, ∑ q in Finset.range 8,
          b (8 * m' + n')
            * ((alpha p * Real.cos (dct_angle Real.pi m p))
                * (alpha p * Real.cos (dct_angle Real.pi m' p)))
            * ((alpha q * Real.cos (dct_angle Real.pi n q))
                * (alpha q * Real.cos (dct_angle Real.pi n' q)))
        = b (8 * m' + n') * (if m = m' then 1 else 0) * (if n = n' then 1 else 0) := by
    intro m' hm' n' hn'
    rw [← dct_columns_orthonormal alpha ha0 hak m m' hm (Finset.mem_range.mp hm'),
      ← dct_columns_orthonormal alpha ha0 hak n n' hn (Finset.mem_range.mp hn')]
    simp only [Finset.mul_sum, Finset.sum_mul]
    exact Finset.sum_comm
  rw [Finset.sum_congr rfl (fun m' hm' => Finset.sum_congr rfl (fun n' hn' => step2 m' hm' n' hn'))]
  simp [Finset.sum_ite_eq, hm, hn]

theorem perform_dct_grid {R : Type} [LinearOrderedField R] (cosf : R → R) (M_PI : R)
    (alpha : Nat → R) (input_block output_block : Nat → R) (p q : Nat) (hp : p < 8)
    (hq : q < 8) :
    perform_dct cosf M_PI alpha input_block output_block (8 * p + q)
      = alpha p * alpha q * compress_c.dct_sum cosf M_PI input_block p q := by
  have h1 : 8 * p + q < 64 := by omega
  have h2 : (8 * p + q) / 8 = p := by omega
  have h3 : (8 * p + q) % 8 = q := by omega
  rw [perform_dct_apply, if_pos h1, h2, h3]

/-- Over the reals, `perform_inverse_dct` undoes `perform_dct`. -/
theorem inverse_dct_perform_dct (alpha : ℕ → ℝ) (ha0 : alpha 0 = 1 / Real.sqrt 8)
    (hak : ∀ k, 1 ≤ k → k ≤ 7 → alpha k = Real.sqrt (2 / 8)) (b out1 out2 : ℕ → ℝ) :
    ∀ i < 64, perform_inverse_dct Real.cos Real.pi alpha
      (perform_dct Real.cos Real.pi alpha b out1) out2 i = b i := by
  intro i hi
  rw [perform_inverse_dct_apply, if_pos hi, decompress_dct_sum_eq]
  have hgrid : ∀ p ∈ Finset.range 8, ∀ q ∈ Finset.range 8,
      perform_dct Real.cos Real.pi alpha b out1 (8 * p + q) * alpha p * alpha q
          * Real.cos (dct_angle Real.pi (i / 8) p) * Real.cos (dct_angle Real.pi (i % 8) q)
        = (alpha p * alpha q * ∑ m' in Finset.range 8, ∑ n' in Finset.range 8,
            b (8 * m' + n') * Real.cos (dct_angle Real.pi m' p)
              * Real.cos (dct_angle Real.pi n' q))
          * alpha p * alpha q * Real.cos (dct_angle Real.pi (i / 8) p)
          * Real.cos (dct_angle Real.pi (i % 8) q) := by
    intro p hp q hq
    rw [perform_dct_grid _ _ _ _ _ p q (Finset.mem_range.mp hp) (Finset.mem_range.mp hq),
      compress_dct_sum_eq]
  rw [Finset.sum_congr rfl (fun p hp => Finset.sum_congr rfl (fun q hq => hgrid p hp q hq)),
    idct_dct_sum alpha ha0 hak b (i / 8) (i % 8) (by omega) (Nat.mod_lt i (by norm_num)),
    Nat.div_add_mod]

/-! ## Bytes of the container -/

theorem int32_of_bytes_int32_bytes (z : Int) (h1 : -2147483648 ≤ z) (h2 : z < 2147483648) :
    int32_of_bytes (int32_bytes z) = z := by
  unfold int32_of_bytes int32_bytes
  simp only [List.getD_cons_zero, List.getD_cons_succ]
  split_ifs <;> omega

theorem int32_bytes_length (z : Int) : (int32_bytes z).length = 4 := rfl

theorem int8_of_byte_int8_byte (z : Int) (h1 : -128 ≤ z) (h2 : z ≤ 127) :
    int8_of_byte (int8_byte z) = z := by
  unfold int8_of_byte int8_byte int8_cast
  omega

theorem block_bytes_length (block : Nat → Int) : (block_bytes block).length = 64 := by
  unfold block_bytes
  simp

theorem block_bytes_getD (block : Nat → Int) (j : Nat) (hj : j < 64) :
    (block_bytes block).getD j 0 = int8_byte (block j) := by
  unfold block_bytes
  rw [List.getD_eq_getElem _ _ (by simp; exact hj)]
  simp

theorem flatMap_range_length (f : Nat → List Nat) (h : ∀ k, (f k).length = 64) (n : Nat) :
    ((List.range n).flatMap f).length = 64 * n := by
  induction n with
  | zero => rfl
  | succ n ih =>
    rw [List.range_succ, List.flatMap_append, List.length_append, ih]
    simp [h]
    omega

theorem flatMap_range_getD (f : Nat → List Nat) (h : ∀ k, (f k).length = 64) (n k j : Nat)
    (hk : k < n) (hj : j < 64) :
    ((List.range n).flatMap f).getD (64 * k + j) 0 = (f k).getD j 0 := by
  induction n with
  | zero => omega
  | succ n ih =>
    rw [List.range_succ, List.flatMap_append]
    by_cases hkn : k = n
    · subst hkn
      rw [List.getD_append_right _ _ _ _ (by rw [flatMap_range_length f h]; omega),
        flatMap_range_length f h]
      simp
    · rw [List.getD_append _ _ _ _ (by rw [flatMap_range_length f h]; omega)]
      exact ih (by omega)

/-! ## The loops of `compress` -/

theorem convert_to_grayscale_apply (n : Nat) (pixels : Nat → bitmap_pixel_hsv_t) (j : Nat) :
    convert_to_grayscale n pixels j = if j < n then { pixels j with s := 0 } else pixels j := by
  unfold convert_to_grayscale
  induction n with
  | zero => simp [for_loop_zero]
  | succ n ih =>
    rw [for_loop_succ]
    by_cases hj : j = n
    · subst hj
      simp only [Function.update_same]
      rw [ih, if_neg (by omega), if_pos (by omega)]
    · simp only [Function.update_noteq hj]
      rw [ih]
      by_cases h : j < n
      · rw [if_pos h, if_pos (by omega)]
      · rw [if_neg h, if_neg (by omega)]

theorem convert_to_grayscale_v (n : Nat) (pixels : Nat → bitmap_pixel_hsv_t) (j : Nat) :
    (convert_to_grayscale n pixels j).v = (pixels j).v := by
  rw [convert_to_grayscale_apply]
  split_ifs <;> rfl

theorem compress_step_failed {R : Type} [LinearOrderedField R] [FloorRing R]
    (env : compress_env R) (cosf : R → R) (M_PI : R) (alpha : Nat → R) (zz : Nat → Nat)
    (quant_matrix : Nat → Int) (pixels : Nat → bitmap_pixel_hsv_t)
    (blocks_x index_x index_y : Nat) (file : compress_state) (h : file.failed = true) :
    compress_step env cosf M_PI alpha zz quant_matrix pixels blocks_x index_x index_y file
      = file := by
  unfold compress_step
  rw [if_pos h]

/-- While no write has failed, the file holds the records of the blocks visited so far, in
row-major order. -/
theorem compress_loop_ok {R : Type} [LinearOrderedField R] [FloorRing R]
    (env : compress_env R) (cosf : R → R) (M_PI : R) (alpha : Nat → R) (zz : Nat → Nat)
    (quant_matrix : Nat → Int) (pixels : Nat → bitmap_pixel_hsv_t) (blocks_x : Nat)
    (file : compress_state) (n : Nat)
    (h : (for_loop n (fun k file => compress_step env cosf M_PI alpha zz quant_matrix pixels
        blocks_x (k % blocks_x) (k / blocks_x) file) file).failed = false) :
    (for_loop n (fun k file => compress_step env cosf M_PI alpha zz quant_matrix pixels
        blocks_x (k % blocks_x) (k / blocks_x) file) file).bytes
      = file.bytes ++ (List.range n).flatMap (fun k => block_bytes
          (compress_block env cosf M_PI alpha zz quant_matrix pixels blocks_x
            (k % blocks_x) (k / blocks_x))) ∧
    (for_loop n (fun k file => compress_step env cosf M_PI alpha zz quant_matrix pixels
        blocks_x (k % blocks_x) (k / blocks_x) file) file).blocks
      = file.blocks ++ (List.range n).map (fun k => (k % blocks_x, k / blocks_x)) := by
  induction n with
  | zero => simp [for_loop_zero]
  | succ n ih =>
    rw [for_loop_succ] at h ⊢
    generalize for_loop n (fun k file => compress_step env cosf M_PI alpha zz quant_matrix
      pixels blocks_x (k % blocks_x) (k / blocks_x) file) file = t at ih h ⊢
    by_cases ht : t.failed = true
    · rw [compress_step_failed _ _ _ _ _ _ _ _ _ _ _ ht] at h
      rw [ht] at h
      cases h
    · have ht' : t.failed = false := by simpa using ht
      obtain ⟨h1, h2⟩ := ih ht'
      unfold compress_step fwrite at h ⊢
      rw [if_neg ht] at h ⊢
      by_cases hw : env.fwrite t.calls = true
      · simp only [hw, if_true] at h ⊢
        rw [h1, h2, List.range_succ, List.flatMap_append, List.map_append]
        simp
      · simp only [hw] at h
        simp at h

/-- A run of `compress` that returns `0` has written the header and all the records. -/
theorem compress_of_status_zero {R : Type} [LinearOrderedField R] [FloorRing R]
    (env : compress_env R) (cosf : R → R) (M_PI : R) (alpha : Nat → R) (zz : Nat → Nat)
    (file_path : String) (quant_matrix : Nat → Int) (grayscale_path : Option String)
    (output_path : String) (bmp : bitmap_read_t)
    (hread : env.bitmapReadPixels file_path = some bmp)
    (hstatus : (compress env cosf M_PI alpha zz file_path quant_matrix grayscale_path
      output_path).status = 0) :
    Int.tmod bmp.width_px 8 = 0 ∧ Int.tmod bmp.height_px 8 = 0 ∧
    (compress env cosf M_PI alpha zz file_path quant_matrix grayscale_path
      output_path).output_file
      = some (int32_bytes (Int.tdiv bmp.width_px 8) ++ int32_bytes (Int.tdiv bmp.height_px 8)
          ++ (List.range ((Int.tdiv bmp.width_px 8).toNat * (Int.tdiv bmp.height_px 8).toNat)).flatMap
              (fun k => block_bytes (compress_block env cosf M_PI alpha zz quant_matrix
                (convert_to_grayscale (bmp.width_px * bmp.height_px).toNat bmp.pixels)
                (Int.tdiv bmp.width_px 8).toNat (k % (Int.tdiv bmp.width_px 8).toNat)
                (k / (Int.tdiv bmp.width_px 8).toNat)))) ∧
    (compress env cosf M_PI alpha zz file_path quant_matrix grayscale_path
      output_path).blocks
      = (List.range ((Int.tdiv bmp.width_px 8).toNat * (Int.tdiv bmp.height_px 8).toNat)).map
          (fun k => (k % (Int.tdiv bmp.width_px 8).toNat, k / (Int.tdiv bmp.width_px 8).toNat)) := by
  unfold compress at hstatus ⊢
  unfold create_grayscale_bitmap at hstatus ⊢
  rw [hread] at hstatus ⊢
  simp only [] at hstatus ⊢
  by_cases hdim : (Int.tmod bmp.width_px 8 ≠ 0) ∨ (Int.tmod bmp.height_px 8 ≠ 0)
  · rw [if_pos hdim] at hstatus
    simp at hstatus
  · rw [if_neg hdim] at hstatus ⊢
    by_cases hdump : env.bitmapWritePixels grayscale_path = true
    · rw [if_pos hdump] at hstatus ⊢
      simp only [] at hstatus ⊢
      by_cases hopen : env.fopen output_path = true
      · simp only [hopen, not_true_eq_false, if_false] at hstatus ⊢
        by_cases hw0 : env.fwrite 0 = true
        · have f0 : fwrite env (int32_bytes (Int.tdiv bmp.width_px 8))
              { bytes := [], calls := 0, blocks := [], failed := false }
              = { bytes := int32_bytes (Int.tdiv bmp.width_px 8), calls := 1, blocks := [],
                  failed := false } := by
            unfold fwrite
            simp [hw0]
          rw [f0] at hstatus ⊢
          simp only [Bool.false_eq_true, if_false] at hstatus ⊢
          by_cases hw1 : env.fwrite 1 = true
          · have f1 : fwrite env (int32_bytes (Int.tdiv bmp.height_px 8))
                { bytes := int32_bytes (Int.tdiv bmp.width_px 8), calls := 1, blocks := [],
                  failed := false }
                = { bytes := int32_bytes (Int.tdiv bmp.width_px 8)
                      ++ int32_bytes (Int.tdiv bmp.height_px 8),
                    calls := 2, blocks := [], failed := false } := by
              unfold fwrite
              simp [hw1]
            rw [f1] at hstatus ⊢
            simp only [Bool.false_eq_true, if_false, for_loop_nested] at hstatus ⊢
            have hfail : (for_loop
                ((Int.tdiv bmp.width_px 8).toNat * (Int.tdiv bmp.height_px 8).toNat)
                (fun k file => compress_step env cosf M_PI alpha zz quant_matrix
                  (convert_to_grayscale (bmp.width_px * bmp.height_px).toNat bmp.pixels)
                  (Int.tdiv bmp.width_px 8).toNat (k % (Int.tdiv bmp.width_px 8).toNat)
                  (k / (Int.tdiv bmp.width_px 8).toNat) file)
                { bytes := int32_bytes (Int.tdiv bmp.width_px 8)
                    ++ int32_bytes (Int.tdiv bmp.height_px 8),
                  calls := 2, blocks := [], failed := false }).failed = false := by
              by_contra hne
              rw [if_pos (by simpa using hne)] at hstatus
              simp at hstatus
            obtain ⟨h1, h2⟩ := compress_loop_ok env cosf M_PI alpha zz quant_matrix _ _ _ _ hfail
            rw [h1, h2]
            refine ⟨by tauto, by tauto, rfl, by simp⟩
          · have f1 : (fwrite env (int32_bytes (Int.tdiv bmp.height_px 8))
                { bytes := int32_bytes (Int.tdiv bmp.width_px 8), calls := 1, blocks := [],
                  failed := false }).failed = true := by
              unfold fwrite
              simp [hw1]
            rw [if_pos f1] at hstatus
            simp at hstatus
        · have f0 : (fwrite env (int32_bytes (Int.tdiv bmp.width_px 8))
              { bytes := [], calls := 0, blocks := [], failed := false }).failed = true := by
            unfold fwrite
            simp [hw0]
          rw [if_pos f0] at hstatus
          simp at hstatus
      · simp [hopen] at hstatus
    · rw [if_neg hdump] at hstatus
      simp at hstatus

/-! ## The container that `compress` writes -/

theorem compress_block_at {R : Type} [LinearOrderedField R] [FloorRing R]
    (env : compress_env R) (cosf : R → R) (M_PI : R) (alpha : Nat → R) {zz : Nat → Nat}
    (hzz : is_permutation zz) (quant_matrix : Nat → Int) (pixels : Nat → bitmap_pixel_hsv_t)
    (blocks_x index_x index_y : Nat) (i : Nat) (hi : i < 64) :
    compress_block env cosf M_PI alpha zz quant_matrix pixels blocks_x index_x index_y (zz i)
      = int8_cast (roundf (perform_dct cosf M_PI alpha
          (read_block pixels index_x index_y blocks_x env.input_block) env.dct_block i
            / (quant_matrix i : R))) := by
  unfold compress_block
  rw [zig_zag_apply hzz _ _ i hi, quantize_apply, if_pos hi]

theorem compress_block_mem {R : Type} [LinearOrderedField R] [FloorRing R]
    (env : compress_env R) (cosf : R → R) (M_PI : R) (alpha : Nat → R) {zz : Nat → Nat}
    (hzz : is_permutation zz) (quant_matrix : Nat → Int) (pixels : Nat → bitmap_pixel_hsv_t)
    (blocks_x index_x index_y : Nat) (j : Nat) (hj : j < 64) :
    -128 ≤ compress_block env cosf M_PI alpha zz quant_matrix pixels blocks_x index_x index_y j
    ∧ compress_block env cosf M_PI alpha zz quant_matrix pixels blocks_x index_x index_y j
      ≤ 127 := by
  obtain ⟨i, hi, rfl⟩ := is_permutation_surj hzz j hj
  rw [compress_block_at env cosf M_PI alpha hzz quant_matrix pixels blocks_x index_x index_y i hi]
  exact int8_cast_mem _

theorem container_length (x y : Int) (f : Nat → List Nat) (h : ∀ k, (f k).length = 64)
    (n : Nat) :
    (int32_bytes x ++ int32_bytes y ++ (List.range n).flatMap f).length = 8 + 64 * n := by
  rw [List.length_append, List.length_append, flatMap_range_length f h, int32_bytes_length,
    int32_bytes_length]

theorem container_blocks_x_eq (x y : Int) (l : List Nat) (h1 : -2147483648 ≤ x)
    (h2 : x < 2147483648) :
    container_blocks_x (int32_bytes x ++ int32_bytes y ++ l) = x := by
  unfold container_blocks_x
  rw [List.append_assoc, List.take_left' (int32_bytes_length x),
    int32_of_bytes_int32_bytes x h1 h2]

theorem container_blocks_y_eq (x y : Int) (l : List Nat) (h1 : -2147483648 ≤ y)
    (h2 : y < 2147483648) :
    container_blocks_y (int32_bytes x ++ int32_bytes y ++ l) = y := by
  unfold container_blocks_y
  rw [List.append_assoc, List.drop_left' (int32_bytes_length x),
    List.take_left' (int32_bytes_length y), int32_of_bytes_int32_bytes y h1 h2]

theorem container_record_eq (x y : Int) (f : Nat → List Nat) (h : ∀ k, (f k).length = 64)
    (n k j : Nat) (hk : k < n) (hj : j < 64) :
    container_record (int32_bytes x ++ int32_bytes y ++ (List.range n).flatMap f) k j
      = int8_of_byte ((f k).getD j 0) := by
  unfold container_record
  rw [List.getD_append_right _ _ _ _ (by
      rw [List.length_append, int32_bytes_length, int32_bytes_length]; omega),
    List.length_append, int32_bytes_length, int32_bytes_length]
  have e : 8 + 64 * k + j - (4 + 4) = 64 * k + j := by omega
  rw [e, flatMap_range_getD f h n k j hk hj]

/-! ## Reading a container -/

theorem fread_int8_cons (i : Nat) (s : decompress_state) (b : Nat) (rest : List Nat)
    (h : s.rest = b :: rest) :
    fread_int8 i s = { s with rest := rest, consumed := s.consumed + 1,
                              input_block := Function.update s.input_block i (int8_of_byte b) } := by
  unfold fread_int8
  rw [h]

theorem fread_int8_nil (i : Nat) (s : decompress_state) (h : s.rest = []) :
    fread_int8 i s = { s with failed := true } := by
  unfold fread_int8
  rw [h]

theorem fread_loop_ok (n : Nat) (s : decompress_state) (hs : s.failed = false)
    (hn : n ≤ s.rest.length) :
    (for_loop n (fun i s => if s.failed then s else fread_int8 i s) s).failed = false ∧
    (for_loop n (fun i s => if s.failed then s else fread_int8 i s) s).rest = s.rest.drop n ∧
    (for_loop n (fun i s => if s.failed then s else fread_int8 i s) s).consumed
      = s.consumed + n ∧
    (for_loop n (fun i s => if s.failed then s else fread_int8 i s) s).pixels = s.pixels ∧
    ∀ j < n, (for_loop n (fun i s => if s.failed then s else fread_int8 i s) s).input_block j
      = int8_of_byte (s.rest.getD j 0) := by
  induction n with
  | zero => simp [for_loop_zero, hs]
  | succ n ih =>
    have hlt : n < s.rest.length := by omega
    have ih' := ih (by omega)
    rw [for_loop_succ]
    generalize for_loop n (fun i s => if s.failed then s else fread_int8 i s) s = t at ih' ⊢
    obtain ⟨h1, h2, h3, h4, h5⟩ := ih'
    rw [List.drop_eq_getElem_cons hlt] at h2
    simp only [h1, Bool.false_eq_true, if_false]
    rw [fread_int8_cons n t _ _ h2]
    refine ⟨h1, rfl, by simp only [h3]; omega, h4, ?_⟩
    intro j hj
    by_cases hjn : j = n
    · subst hjn
      simp only [Function.update_same]
      rw [List.getD_eq_getElem _ _ hlt]
    · simp only [Function.update_noteq hjn]
      exact h5 j (by omega)

theorem fread_loop_fail (n : Nat) (s : decompress_state) (hs : s.failed = false)
    (hn : s.rest.length < n) :
    (for_loop n (fun i s => if s.failed then s else fread_int8 i s) s).failed = true ∧
    (for_loop n (fun i s => if s.failed then s else fread_int8 i s) s).pixels = s.pixels ∧
    (for_loop n (fun i s => if s.failed then s else fread_int8 i s) s).consumed
      = s.consumed + s.rest.length := by
  induction n with
  | zero => omega
  | succ n ih =>
    rw [for_loop_succ]
    by_cases hlt : s.rest.length < n
    · have ih' := ih hlt
      generalize for_loop n (fun i s => if s.failed then s else fread_int8 i s) s = t at ih' ⊢
      obtain ⟨h1, h2, h3⟩ := ih'
      rw [if_pos h1]
      exact ⟨h1, h2, h3⟩
    · have hle : n ≤ s.rest.length := by omega
      have hok := fread_loop_ok n s hs hle
      generalize for_loop n (fun i s => if s.failed then s else fread_int8 i s) s = t at hok ⊢
      obtain ⟨h1, h2, h3, h4, _⟩ := hok
      have hnil : s.rest.drop n = [] := List.drop_eq_nil_of_le (by omega)
      rw [hnil] at h2
      simp only [h1, Bool.false_eq_true, if_false]
      rw [fread_int8_nil n t h2]
      refine ⟨rfl, h4, ?_⟩
      simp only [h3]
      omega

theorem getD_drop (l : List Nat) (n j : Nat) : (l.drop n).getD j 0 = l.getD (n + j) 0 := by
  simp [List.getD_eq_getElem?_getD, List.getElem?_drop]

/-! ## The loops of `decompress` -/

theorem original_block_congr {R : Type} [LinearOrderedField R] (env : decompress_env R)
    (cosf : R → R) (M_PI : R) (alpha : Nat → R) (zz : Nat → Nat) (quant_matrix : Nat → Int)
    (hzz : ∀ i < 64, zz i < 64) (block block' : Nat → Int)
    (h : ∀ j < 64, block j = block' j) :
    original_block env cosf M_PI alpha zz quant_matrix block
      = original_block env cosf M_PI alpha zz quant_matrix block' := by
  have hu : un_zig_zag zz block env.un_zig_zagged_block
      = un_zig_zag zz block' env.un_zig_zagged_block := by
    funext i
    rw [un_zig_zag_apply, un_zig_zag_apply]
    by_cases hi : i < 64
    · rw [if_pos hi, if_pos hi, h (zz i) (hzz i hi)]
    · rw [if_neg hi, if_neg hi]
  unfold original_block
  simp only [hu]

theorem decompress_step_failed {R : Type} [LinearOrderedField R] [FloorRing R]
    (env : decompress_env R) (cosf : R → R) (M_PI : R) (alpha : Nat → R) (zz : Nat → Nat)
    (quant_matrix : Nat → Int) (blocks_x index_x index_y : Nat) (s : decompress_state)
    (hs : s.failed = true) :
    decompress_step env cosf M_PI alpha zz quant_matrix blocks_x index_x index_y s = s := by
  unfold decompress_step
  rw [if_pos hs]

theorem decompress_step_ok {R : Type} [LinearOrderedField R] [FloorRing R]
    (env : decompress_env R) (cosf : R → R) (M_PI : R) (alpha : Nat → R) (zz : Nat → Nat)
    (quant_matrix : Nat → Int) (blocks_x index_x index_y : Nat) (s : decompress_state)
    (hs : s.failed = false) (h64 : 64 ≤ s.rest.length) :
    (decompress_step env cosf M_PI alpha zz quant_matrix blocks_x index_x index_y s).failed
      = false ∧
    (decompress_step env cosf M_PI alpha zz quant_matrix blocks_x index_x index_y s).rest
      = s.rest.drop 64 ∧
    (decompress_step env cosf M_PI alpha zz quant_matrix blocks_x index_x index_y s).consumed
      = s.consumed + 64 ∧
    (decompress_step env cosf M_PI alpha zz quant_matrix blocks_x index_x index_y s).pixels
      = write_block s.pixels index_x index_y blocks_x
          (original_block env cosf M_PI alpha zz quant_matrix (fread_block s).input_block) ∧
    ∀ j < 64, (fread_block s).input_block j = int8_of_byte (s.rest.getD j 0) := by
  have hok := fread_loop_ok 64 s hs h64
  unfold decompress_step
  rw [if_neg (by simp [hs])]
  change _ ∧ _ ∧ _ ∧ _ ∧ ∀ j < 64, (fread_block s).input_block j = _
  have hfb : fread_block s
      = for_loop 64 (fun i s => if s.failed then s else fread_int8 i s) s := rfl
  rw [← hfb] at hok
  obtain ⟨h1, h2, h3, h4, h5⟩ := hok
  simp only [h1, Bool.false_eq_true, if_false]
  exact ⟨trivial, h2, h3, by rw [h4], h5⟩

theorem decompress_step_fail {R : Type} [LinearOrderedField R] [FloorRing R]
    (env : decompress_env R) (cosf : R → R) (M_PI : R) (alpha : Nat → R) (zz : Nat → Nat)
    (quant_matrix : Nat → Int) (blocks_x index_x index_y : Nat) (s : decompress_state)
    (hs : s.failed = false) (h64 : s.rest.length < 64) :
    (decompress_step env cosf M_PI alpha zz quant_matrix blocks_x index_x index_y s).failed
      = true ∧
    (decompress_step env cosf M_PI alpha zz quant_matrix blocks_x index_x index_y s).consumed
      = s.consumed + s.rest.length := by
  have hf := fread_loop_fail 64 s hs h64
  have hfb : fread_block s
      = for_loop 64 (fun i s => if s.failed then s else fread_int8 i s) s := rfl
  rw [← hfb] at hf
  obtain ⟨h1, _, h3⟩ := hf
  unfold decompress_step
  rw [if_neg (by simp [hs])]
  simp only [h1, if_true]
  exact ⟨trivial, h3⟩

theorem decompress_loop_ok {R : Type} [LinearOrderedField R] [FloorRing R]
    (env : decompress_env R) (cosf : R → R) (M_PI : R) (alpha : Nat → R) (zz : Nat → Nat)
    (quant_matrix : Nat → Int) (bytes : List Nat) (blocks_x : Nat) (s : decompress_state)
    (hs : s.failed = false) (hrest : s.rest = bytes.drop 8) (n : Nat)
    (hn : 8 + 64 * n ≤ bytes.length) :
    (for_loop n (fun k s => decompress_step env cosf M_PI alpha zz quant_matrix blocks_x
        (k % blocks_x) (k / blocks_x) s) s).failed = false ∧
    (for_loop n (fun k s => decompress_step env cosf M_PI alpha zz quant_matrix blocks_x
        (k % blocks_x) (k / blocks_x) s) s).rest = bytes.drop (8 + 64 * n) ∧
    (for_loop n (fun k s => decompress_step env cosf M_PI alpha zz quant_matrix blocks_x
        (k % blocks_x) (k / blocks_x) s) s).consumed = s.consumed + 64 * n := by
  induction n with
  | zero => exact ⟨hs, hrest, rfl⟩
  | succ n ih =>
    have ih' := ih (by omega)
    rw [for_loop_succ]
    generalize for_loop n (fun k s => decompress_step env cosf M_PI alpha zz quant_matrix
      blocks_x (k % blocks_x) (k / blocks_x) s) s = t at ih' ⊢
    obtain ⟨h1, h2, h3⟩ := ih'
    have hlen : 64 ≤ t.rest.length := by rw [h2, List.length_drop]; omega
    obtain ⟨g1, g2, g3, _, _⟩ := decompress_step_ok env cosf M_PI alpha zz quant_matrix
      blocks_x (n % blocks_x) (n / blocks_x) t h1 hlen
    refine ⟨g1, ?_, ?_⟩
    · have e : 8 + 64 * n + 64 = 8 + 64 * (n + 1) := by omega
      rw [g2, h2, List.drop_drop, e]
    · rw [g3, h3]
      omega

theorem decompress_loop_pixels {R : Type} [LinearOrderedField R] [FloorRing R]
    (env : decompress_env R) (cosf : R → R) (M_PI : R) (alpha : Nat → R) (zz : Nat → Nat)
    (quant_matrix : Nat → Int) (hzz : ∀ i < 64, zz i < 64) (bytes : List Nat)
    (blocks_x : Nat) (s : decompress_state)
    (hs : s.failed = false) (hrest : s.rest = bytes.drop 8) (n : Nat)
    (hn : 8 + 64 * n ≤ bytes.length) :
    (for_loop n (fun k s => decompress_step env cosf M_PI alpha zz quant_matrix blocks_x
        (k % blocks_x) (k / blocks_x) s) s).pixels
      = decoded_pixels env cosf M_PI alpha zz quant_matrix bytes blocks_x s.pixels n := by
  induction n with
  | zero => rfl
  | succ n ih =>
    have ih' := ih (by omega)
    have hok := decompress_loop_ok env cosf M_PI alpha zz quant_matrix bytes blocks_x s hs
      hrest n (by omega)
    rw [for_loop_succ]
    generalize for_loop n (fun k s => decompress_step env cosf M_PI alpha zz quant_matrix
      blocks_x (k % blocks_x) (k / blocks_x) s) s = t at ih' hok ⊢
    obtain ⟨h1, h2, _⟩ := hok
    have hlen : 64 ≤ t.rest.length := by rw [h2, List.length_drop]; omega
    obtain ⟨_, _, _, g4, g5⟩ := decompress_step_ok env cosf M_PI alpha zz quant_matrix
      blocks_x (n % blocks_x) (n / blocks_x) t h1 hlen
    rw [g4, ih']
    have hrec : original_block env cosf M_PI alpha zz quant_matrix (fread_block t).input_block
        = original_block env cosf M_PI alpha zz quant_matrix (container_record bytes n) := by
      apply original_block_congr _ _ _ _ _ _ hzz
      intro j hj
      rw [g5 j hj, h2, getD_drop]
      unfold container_record
      rfl
    rw [hrec]
    rfl

theorem decompress_loop_fail {R : Type} [LinearOrderedField R] [FloorRing R]
    (env : decompress_env R) (cosf : R → R) (M_PI : R) (alpha : Nat → R) (zz : Nat → Nat)
    (quant_matrix : Nat → Int) (bytes : List Nat) (blocks_x : Nat) (s : decompress_state)
    (hs : s.failed = false) (hrest : s.rest = bytes.drop 8) (h8 : 8 ≤ bytes.length) (n : Nat)
    (hn : bytes.length < 8 + 64 * n) :
    (for_loop n (fun k s => decompress_step env cosf M_PI alpha zz quant_matrix blocks_x
        (k % blocks_x) (k / blocks_x) s) s).failed = true ∧
    (for_loop n (fun k s => decompress_step env cosf M_PI alpha zz quant_matrix blocks_x
        (k % blocks_x) (k / blocks_x) s) s).consumed + 8 = s.consumed + bytes.length := by
  induction n with
  | zero => omega
  | succ n ih =>
    rw [for_loop_succ]
    by_cases hlt : bytes.length < 8 + 64 * n
    · have ih' := ih hlt
      generalize for_loop n (fun k s => decompress_step env cosf M_PI alpha zz quant_matrix
        blocks_x (k % blocks_x) (k / blocks_x) s) s = t at ih' ⊢
      rw [decompress_step_failed _ _ _ _ _ _ _ _ _ _ ih'.1]
      exact ih'
    · have hok := decompress_loop_ok env cosf M_PI alpha zz quant_matrix bytes blocks_x s hs
        hrest n (by omega)
      generalize for_loop n (fun k s => decompress_step env cosf M_PI alpha zz quant_matrix
        blocks_x (k % blocks_x) (k / blocks_x) s) s = t at hok ⊢
      obtain ⟨h1, h2, h3⟩ := hok
      have hlen : t.rest.length < 64 := by rw [h2, List.length_drop]; omega
      have hlen' : t.rest.length = bytes.length - (8 + 64 * n) := by
        rw [h2, List.length_drop]
      obtain ⟨g1, g2⟩ := decompress_step_fail env cosf M_PI alpha zz quant_matrix blocks_x
        (n % blocks_x) (n / blocks_x) t h1 hlen
      refine ⟨g1, ?_⟩
      rw [g2, h3, hlen']
      omega

/-- A pixel of block number `k` keeps, through the decoding of the later records, the
component that record `k` gives it. -/
theorem decoded_pixels_at {R : Type} [LinearOrderedField R] [FloorRing R]
    (env : decompress_env R) (cosf : R → R) (M_PI : R) (alpha : Nat → R) (zz : Nat → Nat)
    (quant_matrix : Nat → Int) (bytes : List Nat) (blocks_x : Nat)
    (pixels : Nat → bitmap_pixel_rgb_t) (n k : Nat) (hk : k < n) (hbx : 0 < blocks_x)
    (curr_x curr_y : Nat) (hcx : curr_x < 8) (hcy : curr_y < 8) :
    decoded_pixels env cosf M_PI alpha zz quant_matrix bytes blocks_x pixels n
        (pixel_offset blocks_x (k % blocks_x) (k / blocks_x) curr_x curr_y)
      = { r := clamped_component (original_block env cosf M_PI alpha zz quant_matrix
                (container_record bytes k) (8 * curr_y + curr_x)),
          g := clamped_component (original_block env cosf M_PI alpha zz quant_matrix
                (container_record bytes k) (8 * curr_y + curr_x)),
          b := clamped_component (original_block env cosf M_PI alpha zz quant_matrix
                (container_record bytes k) (8 * curr_y + curr_x)) } := by
  induction n with
  | zero => omega
  | succ n ih =>
    rw [decoded_pixels]
    by_cases hkn : k = n
    · subst hkn
      exact write_block_at _ _ _ _ _ (Nat.mod_lt _ hbx) curr_x curr_y hcx hcy
    · rw [write_block_other, ih (by omega)]
      intro cx hcx' cy hcy' heq
      have := pixel_offset_inj blocks_x (k % blocks_x) (k / blocks_x) curr_x curr_y
        (n % blocks_x) (n / blocks_x) cx cy (Nat.mod_lt _ hbx) (Nat.mod_lt _ hbx) hcx hcy
        hcx' hcy' heq
      have e1 := Nat.div_add_mod k blocks_x
      have e2 := Nat.div_add_mod n blocks_x
      rw [this.1, this.2.1] at e1
      omega

/-- An all-zero record is reconstructed as an all-zero block of samples. -/
theorem original_block_zero {R : Type} [LinearOrderedField R] (env : decompress_env R)
    (cosf : R → R) (M_PI : R) (alpha : Nat → R) (zz : Nat → Nat) (quant_matrix : Nat → Int)
    (hzz : ∀ i < 64, zz i < 64) (block : Nat → Int) (h : ∀ j < 64, block j = 0)
    (j : Nat) (hj : j < 64) :
    original_block env cosf M_PI alpha zz quant_matrix block j = 0 := by
  unfold original_block
  rw [perform_inverse_dct_apply, if_pos hj, decompress_dct_sum_eq]
  apply Finset.sum_eq_zero
  intro p hp
  apply Finset.sum_eq_zero
  intro q hq
  have hpq : 8 * p + q < 64 := by
    have := Finset.mem_range.mp hp
    have := Finset.mem_range.mp hq
    omega
  rw [dequantize_apply, if_pos hpq, un_zig_zag_apply, if_pos hpq, h _ (hzz _ hpq),
    Int.zero_mul, int_cast_of_mem (by norm_num) (by norm_num)]
  simp

/-! ## The bounds of the pixel buffer -/

theorem fread_loop_buffer (n : Nat) (s : decompress_state) :
    (for_loop n (fun i s => if s.failed then s else fread_int8 i s) s).pixels_size
      = s.pixels_size ∧
    (for_loop n (fun i s => if s.failed then s else fread_int8 i s) s).fault = s.fault := by
  induction n with
  | zero => exact ⟨rfl, rfl⟩
  | succ n ih =>
    rw [for_loop_succ]
    generalize for_loop n (fun i s => if s.failed then s else fread_int8 i s) s = t at ih ⊢
    by_cases hf : t.failed = true
    · rw [if_pos hf]
      exact ih
    · rw [if_neg hf]
      unfold fread_int8
      split <;> exact ih

theorem decompress_step_pixels_size {R : Type} [LinearOrderedField R] [FloorRing R]
    (env : decompress_env R) (cosf : R → R) (M_PI : R) (alpha : Nat → R) (zz : Nat → Nat)
    (quant_matrix : Nat → Int) (blocks_x index_x index_y : Nat) (s : decompress_state) :
    (decompress_step env cosf M_PI alpha zz quant_matrix blocks_x index_x index_y s).pixels_size
      = s.pixels_size := by
  have hb : (fread_block s).pixels_size = s.pixels_size := (fread_loop_buffer 64 s).1
  unfold decompress_step
  by_cases hs : s.failed = true
  · rw [if_pos hs]
  · rw [if_neg hs]
    by_cases hf : (fread_block s).failed = true
    · simp only [hf, if_true]
      exact hb
    · simp only [hf, Bool.false_eq_true, if_false]
      exact hb

/-- A block that is read in full is written, inside the buffer or not. -/
theorem decompress_step_ok_fault {R : Type} [LinearOrderedField R] [FloorRing R]
    (env : decompress_env R) (cosf : R → R) (M_PI : R) (alpha : Nat → R) (zz : Nat → Nat)
    (quant_matrix : Nat → Int) (blocks_x index_x index_y : Nat) (s : decompress_state)
    (hs : s.failed = false) (h64 : 64 ≤ s.rest.length) :
    (decompress_step env cosf M_PI alpha zz quant_matrix blocks_x index_x index_y s).fault
      = (s.fault || write_block_outside s.pixels_size blocks_x index_x index_y) := by
  have hok := fread_loop_ok 64 s hs h64
  have hb := fread_loop_buffer 64 s
  have hfb : fread_block s
      = for_loop 64 (fun i s => if s.failed then s else fread_int8 i s) s := rfl
  rw [← hfb] at hok hb
  unfold decompress_step
  rw [if_neg (by simp [hs])]
  simp only [hok.1, Bool.false_eq_true, if_false, hb.1, hb.2]

/-- A block whose record is cut short is not written. -/
theorem decompress_step_fail_fault {R : Type} [LinearOrderedField R] [FloorRing R]
    (env : decompress_env R) (cosf : R → R) (M_PI : R) (alpha : Nat → R) (zz : Nat → Nat)
    (quant_matrix : Nat → Int) (blocks_x index_x index_y : Nat) (s : decompress_state)
    (hs : s.failed = false) (h64 : s.rest.length < 64) :
    (decompress_step env cosf M_PI alpha zz quant_matrix blocks_x index_x index_y s).fault
      = s.fault := by
  have hf := fread_loop_fail 64 s hs h64
  have hb := fread_loop_buffer 64 s
  have hfb : fread_block s
      = for_loop 64 (fun i s => if s.failed then s else fread_int8 i s) s := rfl
  rw [← hfb] at hf hb
  unfold decompress_step
  rw [if_neg (by simp [hs])]
  simp only [hf.1, if_true]
  exact hb.2

theorem decompress_loop_pixels_size {R : Type} [LinearOrderedField R] [FloorRing R]
    (env : decompress_env R) (cosf : R → R) (M_PI : R) (alpha : Nat → R) (zz : Nat → Nat)
    (quant_matrix : Nat → Int) (blocks_x : Nat) (s : decompress_state) (n : Nat) :
    (for_loop n (fun k s => decompress_step env cosf M_PI alpha zz quant_matrix blocks_x
        (k % blocks_x) (k / blocks_x) s) s).pixels_size = s.pixels_size := by
  induction n with
  | zero => rfl
  | succ n ih =>
    rw [for_loop_succ, decompress_step_pixels_size, ih]

/-- While the records are complete, the stores that fall outside the buffer are those of
`decoded_fault`. -/
theorem decompress_loop_ok_fault {R : Type} [LinearOrderedField R] [FloorRing R]
    (env : decompress_env R) (cosf : R → R) (M_PI : R) (alpha : Nat → R) (zz : Nat → Nat)
    (quant_matrix : Nat → Int) (bytes : List Nat) (blocks_x : Nat) (s : decompress_state)
    (hs : s.failed = false) (hrest : s.rest = bytes.drop 8) (n : Nat)
    (hn : 8 + 64 * n ≤ bytes.length) :
    (for_loop n (fun k s => decompress_step env cosf M_PI alpha zz quant_matrix blocks_x
        (k % blocks_x) (k / blocks_x) s) s).fault
      = (s.fault || decoded_fault s.pixels_size blocks_x n) := by
  induction n with
  | zero => simp [for_loop_zero, decoded_fault]
  | succ n ih =>
    have ih' := ih (by omega)
    have hok := decompress_loop_ok env cosf M_PI alpha zz quant_matrix bytes blocks_x s hs
      hrest n (by omega)
    have hsz := decompress_loop_pixels_size env cosf M_PI alpha zz quant_matrix blocks_x s n
    rw [for_loop_succ]
    generalize for_loop n (fun k s => decompress_step env cosf M_PI alpha zz quant_matrix
      blocks_x (k % blocks_x) (k / blocks_x) s) s = t at ih' hok hsz ⊢
    obtain ⟨h1, h2, _⟩ := hok
    have hlen : 64 ≤ t.rest.length := by rw [h2, List.length_drop]; omega
    rw [decompress_step_ok_fault env cosf M_PI alpha zz quant_matrix blocks_x (n % blocks_x)
      (n / blocks_x) t h1 hlen, ih', hsz, decoded_fault, Bool.or_assoc]

/-- When the container ends before the records do, the blocks written are those of the
complete records. -/
theorem decompress_loop_fail_fault {R : Type} [LinearOrderedField R] [FloorRing R]
    (env : decompress_env R) (cosf : R → R) (M_PI : R) (alpha : Nat → R) (zz : Nat → Nat)
    (quant_matrix : Nat → Int) (bytes : List Nat) (blocks_x : Nat) (s : decompress_state)
    (hs : s.failed = false) (hrest : s.rest = bytes.drop 8) (h8 : 8 ≤ bytes.length) (n : Nat)
    (hn : bytes.length < 8 + 64 * n) :
    (for_loop n (fun k s => decompress_step env cosf M_PI alpha zz quant_matrix blocks_x
        (k % blocks_x) (k / blocks_x) s) s).fault
      = (s.fault || decoded_fault s.pixels_size blocks_x ((bytes.length - 8) / 64)) := by
  induction n with
  | zero => omega
  | succ n ih =>
    rw [for_loop_succ]
    by_cases hlt : bytes.length < 8 + 64 * n
    · have ih' := ih hlt
      have hf := decompress_loop_fail env cosf M_PI alpha zz quant_matrix bytes blocks_x s hs
        hrest h8 n hlt
      generalize for_loop n (fun k s => decompress_step env cosf M_PI alpha zz quant_matrix
        blocks_x (k % blocks_x) (k / blocks_x) s) s = t at ih' hf ⊢
      rw [decompress_step_failed _ _ _ _ _ _ _ _ _ _ hf.1]
      exact ih'
    · have hok := decompress_loop_ok env cosf M_PI alpha zz quant_matrix bytes blocks_x s hs
        hrest n (by omega)
      have hfault := decompress_loop_ok_fault env cosf M_PI alpha zz quant_matrix bytes
        blocks_x s hs hrest n (by omega)
      generalize for_loop n (fun k s => decompress_step env cosf M_PI alpha zz quant_matrix
        blocks_x (k % blocks_x) (k / blocks_x) s) s = t at hok hfault ⊢
      obtain ⟨h1, h2, _⟩ := hok
      have hlen : t.rest.length < 64 := by rw [h2, List.length_drop]; omega
      have e : (bytes.length - 8) / 64 = n := by omega
      rw [decompress_step_fail_fault env cosf M_PI alpha zz quant_matrix blocks_x
        (n % blocks_x) (n / blocks_x) t h1 hlen, hfault, e]

/-! ## `decompress` as one loop over the records -/

theorem fread_int_ok (s : decompress_state) (h : 4 ≤ s.rest.length) :
    fread_int s = (some (int32_of_bytes (s.rest.take 4)),
      { s with rest := s.rest.drop 4, consumed := s.consumed + 4 }) := by
  unfold fread_int
  rw [if_pos h]

theorem fread_int_fail (s : decompress_state) (h : s.rest.length < 4) :
    fread_int s = (none,
      { s with rest := [], consumed := s.consumed + s.rest.length, failed := true }) := by
  unfold fread_int
  rw [if_neg (by omega)]

theorem decompress_eq {R : Type} [LinearOrderedField R] [FloorRing R]
    (env : decompress_env R) (cosf : R → R) (M_PI : R) (alpha : Nat → R) (zz : Nat → Nat)
    (file_path : String) (quant_matrix : Nat → Int) (output_path : String)
    (bytes : List Nat) (hopen : env.fopen file_path = some bytes) (h8 : 8 ≤ bytes.length) :
    decompress env cosf M_PI alpha zz file_path quant_matrix output_path
      = if (for_loop ((container_blocks_x bytes).toNat * (container_blocks_y bytes).toNat)
              (fun k s => decompress_step env cosf M_PI alpha zz quant_matrix
                (container_blocks_x bytes).toNat (k % (container_blocks_x bytes).toNat)
                (k / (container_blocks_x bytes).toNat) s)
              { rest := bytes.drop 8, consumed := 8, input_block := env.input_block,
                pixels := env.malloc, failed := false,
                pixels_size := malloc_bytes env (container_blocks_x bytes)
                  (container_blocks_y bytes),
                fault := false }).failed
        then
          { status := -1,
            consumed :=
              (for_loop ((container_blocks_x bytes).toNat * (container_blocks_y bytes).toNat)
              (fun k s => decompress_step env cosf M_PI alpha zz quant_matrix
                (container_blocks_x bytes).toNat (k % (container_blocks_x bytes).toNat)
                (k / (container_blocks_x bytes).toNat) s)
              { rest := bytes.drop 8, consumed := 8, input_block := env.input_block,
                pixels := env.malloc, failed := false,
                pixels_size := malloc_bytes env (container_blocks_x bytes)
                  (container_blocks_y bytes),
                fault := false }).consumed,
            image := none,
            fault :=
              (for_loop ((container_blocks_x bytes).toNat * (container_blocks_y bytes).toNat)
              (fun k s => decompress_step env cosf M_PI alpha zz quant_matrix
                (container_blocks_x bytes).toNat (k % (container_blocks_x bytes).toNat)
                (k / (container_blocks_x bytes).toNat) s)
              { rest := bytes.drop 8, consumed := 8, input_block := env.input_block,
                pixels := env.malloc, failed := false,
                pixels_size := malloc_bytes env (container_blocks_x bytes)
                  (container_blocks_y bytes),
                fault := false }).fault }
        else
          { status := -1,
            consumed :=
              (for_loop ((container_blocks_x bytes).toNat * (container_blocks_y bytes).toNat)
              (fun k s => decompress_step env cosf M_PI alpha zz quant_matrix
                (container_blocks_x bytes).toNat (k % (container_blocks_x bytes).toNat)
                (k / (container_blocks_x bytes).toNat) s)
              { rest := bytes.drop 8, consumed := 8, input_block := env.input_block,
                pixels := env.malloc, failed := false,
                pixels_size := malloc_bytes env (container_blocks_x bytes)
                  (container_blocks_y bytes),
                fault := false }).consumed,
            image := some
              { path := some output_path,
                params :=
                  { bottomUp := true, widthPx := container_blocks_x bytes * 8,
                    heightPx := container_blocks_y bytes * 8, colorDepth := 24,
                    colorSpace := bitmap_color_space_t.BITMAP_COLOR_SPACE_RGB },
                pixels :=
                  (for_loop ((container_blocks_x bytes).toNat * (container_blocks_y bytes).toNat)
              (fun k s => decompress_step env cosf M_PI alpha zz quant_matrix
                (container_blocks_x bytes).toNat (k % (container_blocks_x bytes).toNat)
                (k / (container_blocks_x bytes).toNat) s)
              { rest := bytes.drop 8, consumed := 8, input_block := env.input_block,
                pixels := env.malloc, failed := false,
                pixels_size := malloc_bytes env (container_blocks_x bytes)
                  (container_blocks_y bytes),
                fault := false }).pixels },
            fault :=
              (for_loop ((container_blocks_x bytes).toNat * (container_blocks_y bytes).toNat)
              (fun k s => decompress_step env cosf M_PI alpha zz quant_matrix
                (container_blocks_x bytes).toNat (k % (container_blocks_x bytes).toNat)
                (k / (container_blocks_x bytes).toNat) s)
              { rest := bytes.drop 8, consumed := 8, input_block := env.input_block,
                pixels := env.malloc, failed := false,
                pixels_size := malloc_bytes env (container_blocks_x bytes)
                  (container_blocks_y bytes),
                fault := false }).fault } := by
  unfold decompress
  rw [hopen]
  simp only
  rw [fread_int_ok _ (by simp only; omega)]
  simp only
  rw [fread_int_ok _ (by simp only [List.length_drop]; omega)]
  simp only [for_loop_nested, List.drop_drop, Nat.zero_add, Nat.reduceAdd]
  rfl

/-- Every path through `decompress` ends in a `return -1`. -/
theorem decompress_status {R : Type} [LinearOrderedField R] [FloorRing R]
    (env : decompress_env R) (cosf : R → R) (M_PI : R) (alpha : Nat → R) (zz : Nat → Nat)
    (file_path : String) (quant_matrix : Nat → Int) (output_path : String) :
    (decompress env cosf M_PI alpha zz file_path quant_matrix output_path).status = -1 := by
  unfold decompress
  split
  · rfl
  · simp only []
    split
    · rfl
    · split
      · rfl
      · split <;> rfl

/-- On a container that holds all the records its header announces, `decompress` reads
them all, hands the decoded plane to `bitmapWritePixels`, and returns `-1`. -/
theorem decompress_ok {R : Type} [LinearOrderedField R] [FloorRing R]
    (env : decompress_env R) (cosf : R → R) (M_PI : R) (alpha : Nat → R) (zz : Nat → Nat)
    (file_path : String) (quant_matrix : Nat → Int) (output_path : String)
    (bytes : List Nat) (hopen : env.fopen file_path = some bytes)
    (hzz : ∀ i < 64, zz i < 64)
    (hlen : 8 + 64 * ((container_blocks_x bytes).toNat * (container_blocks_y bytes).toNat)
      ≤ bytes.length) :
    decompress env cosf M_PI alpha zz file_path quant_matrix output_path
      = { status := -1,
          consumed :=
            8 + 64 * ((container_blocks_x bytes).toNat * (container_blocks_y bytes).toNat),
          image := some
            { path := some output_path,
              params :=
                { bottomUp := true, widthPx := container_blocks_x bytes * 8,
                  heightPx := container_blocks_y bytes * 8, colorDepth := 24,
                  colorSpace := bitmap_color_space_t.BITMAP_COLOR_SPACE_RGB },
              pixels := decoded_pixels env cosf M_PI alpha zz quant_matrix bytes
                (container_blocks_x bytes).toNat env.malloc
                ((container_blocks_x bytes).toNat * (container_blocks_y bytes).toNat) },
          fault := decoded_fault
            (malloc_bytes env (container_blocks_x bytes) (container_blocks_y bytes))
            (container_blocks_x bytes).toNat
            ((container_blocks_x bytes).toNat * (container_blocks_y bytes).toNat) } := by
  rw [decompress_eq env cosf M_PI alpha zz file_path quant_matrix output_path bytes hopen
    (by omega)]
  have hok := decompress_loop_ok env cosf M_PI alpha zz quant_matrix bytes
    (container_blocks_x bytes).toNat
    { rest := bytes.drop 8, consumed := 8, input_block := env.input_block,
      pixels := env.malloc, failed := false,
                pixels_size := malloc_bytes env (container_blocks_x bytes)
                  (container_blocks_y bytes),
                fault := false } rfl rfl
    ((container_blocks_x bytes).toNat * (container_blocks_y bytes).toNat) hlen
  have hpx := decompress_loop_pixels env cosf M_PI alpha zz quant_matrix hzz bytes
    (container_blocks_x bytes).toNat
    { rest := bytes.drop 8, consumed := 8, input_block := env.input_block,
      pixels := env.malloc, failed := false,
                pixels_size := malloc_bytes env (container_blocks_x bytes)
                  (container_blocks_y bytes),
                fault := false } rfl rfl
    ((container_blocks_x bytes).toNat * (container_blocks_y bytes).toNat) hlen
  have hfault := decompress_loop_ok_fault env cosf M_PI alpha zz quant_matrix bytes
    (container_blocks_x bytes).toNat
    { rest := bytes.drop 8, consumed := 8, input_block := env.input_block,
      pixels := env.malloc, failed := false,
      pixels_size := malloc_bytes env (container_blocks_x bytes) (container_blocks_y bytes),
      fault := false } rfl rfl
    ((container_blocks_x bytes).toNat * (container_blocks_y bytes).toNat) hlen
  obtain ⟨h1, _, h3⟩ := hok
  rw [if_neg (by rw [h1]; simp), h3, hpx, hfault, Bool.false_or]

/-- On a container that is shorter than its header announces, with positive block counts,
or shorter than the header, `decompress` fails before `bitmapWritePixels`. -/
theorem decompress_truncated {R : Type} [LinearOrderedField R] [FloorRing R]
    (env : decompress_env R) (cosf : R → R) (M_PI : R) (alpha : Nat → R) (zz : Nat → Nat)
    (file_path : String) (quant_matrix : Nat → Int) (output_path : String)
    (bytes : List Nat) (hopen : env.fopen file_path = some bytes)
    (hlen : bytes.length
      < 8 + 64 * ((container_blocks_x bytes).toNat * (container_blocks_y bytes).toNat)
      ∨ bytes.length < 8) :
    (decompress env cosf M_PI alpha zz file_path quant_matrix output_path).status = -1 ∧
    (decompress env cosf M_PI alpha zz file_path quant_matrix output_path).consumed
      ≤ bytes.length ∧
    (decompress env cosf M_PI alpha zz file_path quant_matrix output_path).image = none := by
  by_cases h8 : 8 ≤ bytes.length
  · have hlen' : bytes.length
        < 8 + 64 * ((container_blocks_x bytes).toNat * (container_blocks_y bytes).toNat) := by
      rcases hlen with h | h
      · exact h
      · omega
    rw [decompress_eq env cosf M_PI alpha zz file_path quant_matrix output_path bytes hopen h8]
    have hf := decompress_loop_fail env cosf M_PI alpha zz quant_matrix bytes
      (container_blocks_x bytes).toNat
      { rest := bytes.drop 8, consumed := 8, input_block := env.input_block,
        pixels := env.malloc, failed := false,
                pixels_size := malloc_bytes env (container_blocks_x bytes)
                  (container_blocks_y bytes),
                fault := false } rfl rfl h8
      ((container_blocks_x bytes).toNat * (container_blocks_y bytes).toNat) hlen'
    obtain ⟨h1, h2⟩ := hf
    rw [if_pos h1]
    simp only at h2 ⊢
    exact ⟨trivial, by omega, trivial⟩
  · unfold decompress
    rw [hopen]
    simp only
    by_cases h4 : 4 ≤ bytes.length
    · rw [fread_int_ok _ (by simp only; omega)]
      simp only
      rw [fread_int_fail _ (by simp only [List.length_drop]; omega)]
      simp only [List.length_drop]
      exact ⟨trivial, by omega, trivial⟩
    · rw [fread_int_fail _ (by simp only; omega)]
      simp only
      exact ⟨trivial, by omega, trivial⟩

/-- On a container that is shorter than its header announces, the blocks written before
the failing read are those of the complete records. -/
theorem decompress_truncated_fault {R : Type} [LinearOrderedField R] [FloorRing R]
    (env : decompress_env R) (cosf : R → R) (M_PI : R) (alpha : Nat → R) (zz : Nat → Nat)
    (file_path : String) (quant_matrix : Nat → Int) (output_path : String)
    (bytes : List Nat) (hopen : env.fopen file_path = some bytes)
    (hlen : bytes.length
      < 8 + 64 * ((container_blocks_x bytes).toNat * (container_blocks_y bytes).toNat)
      ∨ bytes.length < 8) :
    (decompress env cosf M_PI alpha zz file_path quant_matrix output_path).fault
      = decoded_fault (malloc_bytes env (container_blocks_x bytes) (container_blocks_y bytes))
          (container_blocks_x bytes).toNat ((bytes.length - 8) / 64) := by
  by_cases h8 : 8 ≤ bytes.length
  · have hlen' : bytes.length
        < 8 + 64 * ((container_blocks_x bytes).toNat * (container_blocks_y bytes).toNat) := by
      rcases hlen with h | h
      · exact h
      · omega
    rw [decompress_eq env cosf M_PI alpha zz file_path quant_matrix output_path bytes hopen h8]
    have hf := decompress_loop_fail env cosf M_PI alpha zz quant_matrix bytes
      (container_blocks_x bytes).toNat
      { rest := bytes.drop 8, consumed := 8, input_block := env.input_block,
        pixels := env.malloc, failed := false,
        pixels_size := malloc_bytes env (container_blocks_x bytes) (container_blocks_y bytes),
        fault := false } rfl rfl h8
      ((container_blocks_x bytes).toNat * (container_blocks_y bytes).toNat) hlen'
    have hfault := decompress_loop_fail_fault env cosf M_PI alpha zz quant_matrix bytes
      (container_blocks_x bytes).toNat
      { rest := bytes.drop 8, consumed := 8, input_block := env.input_block,
        pixels := env.malloc, failed := false,
        pixels_size := malloc_bytes env (container_blocks_x bytes) (container_blocks_y bytes),
        fault := false } rfl rfl h8
      ((container_blocks_x bytes).toNat * (container_blocks_y bytes).toNat) hlen'
    rw [if_pos hf.1]
    simp only at hfault ⊢
    rw [hfault, Bool.false_or]
  · have e : (bytes.length - 8) / 64 = 0 := by omega
    rw [e, decoded_fault]
    unfold decompress
    rw [hopen]
    simp only
    by_cases h4 : 4 ≤ bytes.length
    · rw [fread_int_ok _ (by simp only; omega)]
      simp only
      rw [fread_int_fail _ (by simp only [List.length_drop]; omega)]
    · rw [fread_int_fail _ (by simp only; omega)]

/-! ## From `compress` to `decompress` -/

/-- The container of a run of `compress` that returns `0`, and what `decompress` makes of
it. -/
theorem compress_container_layout {R : Type} [LinearOrderedField R] [FloorRing R]
    (env : compress_env R) (denv : decompress_env R) (cosf : R → R) (M_PI : R)
    (alpha : Nat → R) (zz : Nat → Nat) (hzz : is_permutation zz) (file_path : String)
    (quant_matrix : Nat → Int) (grayscale_path : Option String) (output_path : String)
    (image_path : String) (bmp : bitmap_read_t) (blocks_x blocks_y : Nat)
    (hread : env.bitmapReadPixels file_path = some bmp)
    (hw : bmp.width_px = 8 * blocks_x) (hh : bmp.height_px = 8 * blocks_y)
    (hbx : 8 * blocks_x < 2147483648) (hby : 8 * blocks_y < 2147483648)
    (hstatus : (compress env cosf M_PI alpha zz file_path quant_matrix grayscale_path
      output_path).status = 0) :
    ∃ bytes : List Nat,
      (compress env cosf M_PI alpha zz file_path quant_matrix grayscale_path
        output_path).output_file = some bytes ∧
      bytes.length = 8 + 64 * blocks_x * blocks_y ∧
      bytes = int32_bytes blocks_x ++ int32_bytes blocks_y ++
        (List.range (blocks_x * blocks_y)).flatMap (fun k => block_bytes
          (compress_block env cosf M_PI alpha zz quant_matrix
            (convert_to_grayscale (bmp.width_px * bmp.height_px).toNat bmp.pixels)
            blocks_x (k % blocks_x) (k / blocks_x))) ∧
      (compress env cosf M_PI alpha zz file_path quant_matrix grayscale_path
        output_path).blocks = (List.range (blocks_x * blocks_y)).map (fun k => (k % blocks_x, k / blocks_x)) ∧
      (denv.fopen output_path = some bytes →
        container_blocks_x bytes = blocks_x ∧ container_blocks_y bytes = blocks_y ∧
        ∃ img, (decompress denv cosf M_PI alpha zz output_path quant_matrix
            image_path).image = some img ∧
          img.params.widthPx = bmp.width_px ∧ img.params.heightPx = bmp.height_px ∧
          ∀ k < blocks_x * blocks_y, ∀ curr_x < 8, ∀ curr_y < 8,
            img.pixels (pixel_offset blocks_x (k % blocks_x) (k / blocks_x) curr_x curr_y)
              = { r := clamped_component (original_block denv cosf M_PI alpha zz quant_matrix
                    (compress_block env cosf M_PI alpha zz quant_matrix
                      (convert_to_grayscale (bmp.width_px * bmp.height_px).toNat bmp.pixels)
                      blocks_x (k % blocks_x) (k / blocks_x)) (8 * curr_y + curr_x)),
                  g := clamped_component (original_block denv cosf M_PI alpha zz quant_matrix
                    (compress_block env cosf M_PI alpha zz quant_matrix
                      (convert_to_grayscale (bmp.width_px * bmp.height_px).toNat bmp.pixels)
                      blocks_x (k % blocks_x) (k / blocks_x)) (8 * curr_y + curr_x)),
                  b := clamped_component (original_block denv cosf M_PI alpha zz quant_matrix
                    (compress_block env cosf M_PI alpha zz quant_matrix
                      (convert_to_grayscale (bmp.width_px * bmp.height_px).toNat bmp.pixels)
                      blocks_x (k % blocks_x) (k / blocks_x)) (8 * curr_y + curr_x)) }) := by
  obtain ⟨_, _, hout, hblocks⟩ := compress_of_status_zero env cosf M_PI alpha zz file_path
    quant_matrix grayscale_path output_path bmp hread hstatus
  have etx : Int.tdiv bmp.width_px 8 = (blocks_x : Int) := by
    rw [hw, Int.mul_tdiv_cancel_left _ (by norm_num)]
  have ety : Int.tdiv bmp.height_px 8 = (blocks_y : Int) := by
    rw [hh, Int.mul_tdiv_cancel_left _ (by norm_num)]
  rw [etx, ety] at hout hblocks
  simp only [Int.toNat_natCast] at hout hblocks
  have hlen64 : ∀ k, (block_bytes (compress_block env cosf M_PI alpha zz quant_matrix
      (convert_to_grayscale (bmp.width_px * bmp.height_px).toNat bmp.pixels)
      blocks_x (k % blocks_x) (k / blocks_x))).length = 64 := fun k => block_bytes_length _
  have hlen := container_length (blocks_x : Int) (blocks_y : Int) _ hlen64 (blocks_x * blocks_y)
  refine ⟨_, hout, by rw [hlen, Nat.mul_assoc], rfl, hblocks, ?_⟩
  intro hopen
  have hx := container_blocks_x_eq (blocks_x : Int) (blocks_y : Int)
    ((List.range (blocks_x * blocks_y)).flatMap (fun k => block_bytes
      (compress_block env cosf M_PI alpha zz quant_matrix
        (convert_to_grayscale (bmp.width_px * bmp.height_px).toNat bmp.pixels)
        blocks_x (k % blocks_x) (k / blocks_x)))) (by omega) (by omega)
  have hy := container_blocks_y_eq (blocks_x : Int) (blocks_y : Int)
    ((List.range (blocks_x * blocks_y)).flatMap (fun k => block_bytes
      (compress_block env cosf M_PI alpha zz quant_matrix
        (convert_to_grayscale (bmp.width_px * bmp.height_px).toNat bmp.pixels)
        blocks_x (k % blocks_x) (k / blocks_x)))) (by omega) (by omega)
  rw [decompress_ok denv cosf M_PI alpha zz output_path quant_matrix image_path _ hopen
    (is_permutation_lt hzz) (by rw [hx, hy, Int.toNat_natCast, Int.toNat_natCast, hlen])]
  refine ⟨hx, hy, _, rfl, ?_, ?_, ?_⟩
  · simp only []
    rw [hx, hw, mul_comm]
  · simp only []
    rw [hy, hh, mul_comm]
  · intro k hk curr_x hcx curr_y hcy
    simp only []
    rw [hx, hy, Int.toNat_natCast, Int.toNat_natCast]
    have hbx0 : 0 < blocks_x := by
      rcases Nat.eq_zero_or_pos blocks_x with h | h
      · rw [h, Nat.zero_mul] at hk
        omega
      · exact h
    rw [decoded_pixels_at denv cosf M_PI alpha zz quant_matrix _ blocks_x denv.malloc _ k hk hbx0
      curr_x curr_y hcx hcy]
    have hrec : original_block denv cosf M_PI alpha zz quant_matrix
        (container_record (int32_bytes blocks_x ++ int32_bytes blocks_y ++
          (List.range (blocks_x * blocks_y)).flatMap (fun k => block_bytes
            (compress_block env cosf M_PI alpha zz quant_matrix
              (convert_to_grayscale (bmp.width_px * bmp.height_px).toNat bmp.pixels)
              blocks_x (k % blocks_x) (k / blocks_x)))) k)
        = original_block denv cosf M_PI alpha zz quant_matrix
            (compress_block env cosf M_PI alpha zz quant_matrix
              (convert_to_grayscale (bmp.width_px * bmp.height_px).toNat bmp.pixels)
              blocks_x (k % blocks_x) (k / blocks_x)) := by
      apply original_block_congr _ _ _ _ _ _ (is_permutation_lt hzz)
      intro j hj
      rw [container_record_eq (blocks_x : Int) (blocks_y : Int) _ hlen64 (blocks_x * blocks_y) k j hk hj,
        block_bytes_getD _ j hj]
      obtain ⟨h1, h2⟩ := compress_block_mem env cosf M_PI alpha hzz quant_matrix
        (convert_to_grayscale (bmp.width_px * bmp.height_px).toNat bmp.pixels)
        blocks_x (k % blocks_x) (k / blocks_x) j hj
      exact int8_of_byte_int8_byte _ h1 h2
    rw [hrec]

/-! ## The error of a round trip -/

theorem sum_grid (f : ℕ → ℝ) :
    ∑ p in Finset.range 8, ∑ q in Finset.range 8, f (8 * p + q) = ∑ i in Finset.range 64, f i := by
  have h : ∀ n : ℕ, ∑ p in Finset.range n, ∑ q in Finset.range 8, f (8 * p + q)
      = ∑ i in Finset.range (8 * n), f i := by
    intro n
    induction n with
    | zero => simp
    | succ n ih =>
      rw [Finset.sum_range_succ, ih, Nat.mul_succ, Finset.sum_range_add]
  exact h 8

theorem round_quotient_error {R : Type} [LinearOrderedField R] [FloorRing R] (c : R) (d : Int)
    (hd : 0 < d) : |((roundf (c / (d : R)) * d : Int) : R) - c| ≤ (d : R) / 2 := by
  have hdR : (0 : R) < (d : R) := by exact_mod_cast hd
  have h := abs_roundf_sub_le (c / (d : R))
  have e : ((roundf (c / (d : R)) * d : Int) : R) - c
      = ((roundf (c / (d : R)) : R) - c / (d : R)) * (d : R) := by
    push_cast
    field_simp
  rw [e, abs_mul, abs_of_pos hdR]
  calc |(roundf (c / (d : R)) : R) - c / (d : R)| * (d : R)
      ≤ 1 / 2 * (d : R) := mul_le_mul_of_nonneg_right h hdR.le
    _ = (d : R) / 2 := by ring

/-- Clamping to `[0, 255]` does not move a value away from an 8-bit component. -/
theorem clamp_error (z : Int) (v : Nat) (hv : v ≤ 255) :
    |(((max (min 255 z) 0).toNat : Nat) : ℝ) - (v : ℝ)| ≤ |(z : ℝ) - (v : ℝ)| := by
  have hc : (((max (min 255 z) 0).toNat : Nat) : Int) = max (min 255 z) 0 :=
    Int.toNat_of_nonneg (le_max_right _ _)
  have e1 : (((max (min 255 z) 0).toNat : Nat) : ℝ) = ((max (min 255 z) 0 : Int) : ℝ) := by
    rw [← hc]
    push_cast
    rfl
  have hZ : |max (min 255 z) 0 - (v : Int)| ≤ |z - (v : Int)| := by
    rw [abs_le]
    have h1 := le_abs_self (z - (v : Int))
    have h2 := neg_abs_le (z - (v : Int))
    constructor <;> omega
  rw [e1]
  have := (Int.cast_le (R := ℝ)).mpr hZ
  simpa using this

/-- Every offset of the plane is the offset of a pixel of one of its blocks. -/
theorem pixel_offset_surj (blocks_x blocks_y o : Nat) (ho : o < 64 * blocks_x * blocks_y) :
    ∃ k < blocks_x * blocks_y, ∃ curr_x < 8, ∃ curr_y < 8,
      pixel_offset blocks_x (k % blocks_x) (k / blocks_x) curr_x curr_y = o := by
  have hbx : 0 < blocks_x := by
    rcases Nat.eq_zero_or_pos blocks_x with h | h
    · rw [h] at ho
      simp at ho
    · exact h
  have hW : 0 < blocks_x * 8 := by omega
  have hrow : o / (blocks_x * 8) < 8 * blocks_y := by
    apply Nat.div_lt_of_lt_mul
    calc o < 64 * blocks_x * blocks_y := ho
      _ = blocks_x * 8 * (8 * blocks_y) := by ring
  have hcol : o % (blocks_x * 8) < blocks_x * 8 := Nat.mod_lt _ hW
  have hx : o % (blocks_x * 8) / 8 < blocks_x := by omega
  have hy : o / (blocks_x * 8) / 8 < blocks_y := by omega
  have hk1 : (o / (blocks_x * 8) / 8 * blocks_x + o % (blocks_x * 8) / 8) % blocks_x
      = o % (blocks_x * 8) / 8 := by
    rw [Nat.add_comm, Nat.add_mul_mod_self_right, Nat.mod_eq_of_lt hx]
  have hk2 : (o / (blocks_x * 8) / 8 * blocks_x + o % (blocks_x * 8) / 8) / blocks_x
      = o / (blocks_x * 8) / 8 := by
    rw [Nat.add_comm, Nat.add_mul_div_right _ _ hbx, Nat.div_eq_of_lt hx, Nat.zero_add]
  refine ⟨o / (blocks_x * 8) / 8 * blocks_x + o % (blocks_x * 8) / 8, ?_,
    o % (blocks_x * 8) % 8, Nat.mod_lt _ (by norm_num),
    o / (blocks_x * 8) % 8, Nat.mod_lt _ (by norm_num), ?_⟩
  · calc o / (blocks_x * 8) / 8 * blocks_x + o % (blocks_x * 8) / 8
        < o / (blocks_x * 8) / 8 * blocks_x + blocks_x := by omega
      _ = (o / (blocks_x * 8) / 8 + 1) * blocks_x := by ring
      _ ≤ blocks_y * blocks_x := Nat.mul_le_mul_right _ hy
      _ = blocks_x * blocks_y := Nat.mul_comm _ _
  · rw [hk1, hk2, pixel_offset_eq]
    have e1 : o % (blocks_x * 8) / 8 * 8 + o % (blocks_x * 8) % 8 = o % (blocks_x * 8) := by
      omega
    have e2 : o / (blocks_x * 8) / 8 * 8 + o / (blocks_x * 8) % 8 = o / (blocks_x * 8) := by
      omega
    rw [e1, e2]
    exact Nat.mod_add_div o (blocks_x * 8)

theorem perform_inverse_dct_congr {R : Type} [LinearOrderedField R] (cosf : R → R) (M_PI : R)
    (alpha : Nat → R) (X Y out : Nat → R) (h : ∀ i < 64, X i = Y i) (j : Nat) :
    perform_inverse_dct cosf M_PI alpha X out j = perform_inverse_dct cosf M_PI alpha Y out j := by
  rw [perform_inverse_dct_apply, perform_inverse_dct_apply]
  by_cases hj : j < 64
  · rw [if_pos hj, if_pos hj, decompress_dct_sum_eq, decompress_dct_sum_eq]
    refine Finset.sum_congr rfl (fun p hp => Finset.sum_congr rfl (fun q hq => ?_))
    have hp' := Finset.mem_range.mp hp
    have hq' := Finset.mem_range.mp hq
    rw [h (8 * p + q) (by omega)]
  · rw [if_neg hj, if_neg hj]

theorem alpha_zero : alpha Real.sqrt 0 = 1 / Real.sqrt 8 := by
  simp [alpha]

theorem alpha_pos (k : ℕ) (h1 : 1 ≤ k) (_h7 : k ≤ 7) : alpha Real.sqrt k = Real.sqrt (2 / 8) := by
  have : k ≠ 0 := by omega
  simp [alpha, this]

/-- A block of value 200 through `compress` and `decompress`: each reconstructed sample is
the stored DC coefficient times its divisor, over 8. -/
theorem uniform_200_sample (env : compress_env ℝ) (denv : decompress_env ℝ)
    (alpha : ℕ → ℝ) (ha0 : alpha 0 = 1 / Real.sqrt 8)
    (hak : ∀ k, 1 ≤ k → k ≤ 7 → alpha k = Real.sqrt (2 / 8)) (zz : Nat → Nat)
    (hzz : is_permutation zz) (quant_matrix : Nat → Int)
    (pixels : Nat → bitmap_pixel_hsv_t) (blocks_x index_x index_y : Nat)
    (hv : ∀ curr_x < 8, ∀ curr_y < 8,
      (pixels (pixel_offset blocks_x index_x index_y curr_x curr_y)).v = 200)
    (j : Nat) (hj : j < 64) :
    original_block denv Real.cos Real.pi alpha zz quant_matrix
        (compress_block env Real.cos Real.pi alpha zz quant_matrix pixels blocks_x
          index_x index_y) j
      = ((int_cast (int8_cast (roundf ((576 : ℝ) / (quant_matrix 0 : ℝ))) * quant_matrix 0) : Int) : ℝ)
          / 8 := by
  have hs : ∀ i < 64,
      read_block pixels index_x index_y blocks_x env.input_block i = (72 : ℝ) := by
    intro i hi
    rw [read_block_apply, if_pos hi, hv (i % 8) (Nat.mod_lt _ (by norm_num)) (i / 8) (by omega)]
    norm_num
  have hX : ∀ i < 64,
      dequantize (un_zig_zag zz (compress_block env Real.cos Real.pi alpha zz quant_matrix
          pixels blocks_x index_x index_y) denv.un_zig_zagged_block) quant_matrix
          denv.quantized_block i
        = perform_dct Real.cos Real.pi alpha
            (fun _ => ((int_cast (int8_cast (roundf ((576 : ℝ) / (quant_matrix 0 : ℝ)))
              * quant_matrix 0) : Int) : ℝ) / 8) (fun _ => 0) i := by
    intro i hi
    rw [dequantize_apply, if_pos hi, un_zig_zag_apply, if_pos hi,
      compress_block_at env Real.cos Real.pi alpha hzz quant_matrix pixels blocks_x index_x
        index_y i hi,
      perform_dct_constant alpha ha0 hak 72 _ env.dct_block hs i hi,
      perform_dct_constant alpha ha0 hak _ _ (fun _ => 0) (fun _ _ => rfl) i hi]
    by_cases h0 : i = 0
    · subst h0
      rw [if_pos rfl, if_pos rfl]
      have e : (8 : ℝ) * 72 = 576 := by norm_num
      rw [e]
      ring
    · rw [if_neg h0, if_neg h0, zero_div]
      have e : roundf (0 : ℝ) = 0 := by
        have := roundf_intCast (R := ℝ) 0
        simpa using this
      rw [e]
      have e0 : int8_cast 0 = 0 := by decide
      rw [e0, Int.zero_mul, int_cast_of_mem (by norm_num) (by norm_num)]
      simp
  unfold original_block
  rw [perform_inverse_dct_congr Real.cos Real.pi alpha _ _ denv.original_block hX j]
  exact inverse_dct_perform_dct alpha ha0 hak _ (fun _ => 0) denv.original_block j hj

theorem clamped_component_intCast (z : Int) :
    clamped_component ((z : Int) : ℝ) = (max (min 255 (z + 128)) 0).toNat := by
  rw [clamped_component_eq, roundf_intCast]

/-! ## A block of value 200 through the pipeline -/

/-- The pixel that `write_block` stores for a block of value 200 after `compress_block` and
`original_block`: gray, with the clamped component of the stored DC coefficient times its
divisor, over 8. -/
theorem uniform_200_pixel (env : compress_env ℝ) (denv : decompress_env ℝ)
    (alpha : ℕ → ℝ) (ha0 : alpha 0 = 1 / Real.sqrt 8)
    (hak : ∀ k, 1 ≤ k → k ≤ 7 → alpha k = Real.sqrt (2 / 8)) (zz : Nat → Nat)
    (hzz : is_permutation zz) (quant_matrix : Nat → Int)
    (hsv_pixels : Nat → bitmap_pixel_hsv_t) (rgb_pixels : Nat → bitmap_pixel_rgb_t)
    (blocks_x index_x index_y : Nat) (hx : index_x < blocks_x)
    (hv : ∀ curr_x < 8, ∀ curr_y < 8,
      (hsv_pixels (pixel_offset blocks_x index_x index_y curr_x curr_y)).v = 200)
    (curr_x curr_y : Nat) (hcx : curr_x < 8) (hcy : curr_y < 8) :
    write_block rgb_pixels index_x index_y blocks_x
        (original_block denv Real.cos Real.pi alpha zz quant_matrix
          (compress_block env Real.cos Real.pi alpha zz quant_matrix hsv_pixels blocks_x
            index_x index_y))
        (pixel_offset blocks_x index_x index_y curr_x curr_y)
      = { r := clamped_component (((int_cast (int8_cast (roundf ((576 : ℝ) / (quant_matrix 0 : ℝ)))
                * quant_matrix 0) : Int) : ℝ) / 8),
          g := clamped_component (((int_cast (int8_cast (roundf ((576 : ℝ) / (quant_matrix 0 : ℝ)))
                * quant_matrix 0) : Int) : ℝ) / 8),
          b := clamped_component (((int_cast (int8_cast (roundf ((576 : ℝ) / (quant_matrix 0 : ℝ)))
                * quant_matrix 0) : Int) : ℝ) / 8) } := by
  rw [write_block_at _ _ _ _ _ hx curr_x curr_y hcx hcy,
    uniform_200_sample env denv alpha ha0 hak zz hzz quant_matrix hsv_pixels blocks_x index_x
      index_y hv (8 * curr_y + curr_x) (by omega)]

/-- With a DC divisor of at least 5 the rounded DC quotient of a block of value 200 fits an
`int8_t`. -/
theorem roundf_576_mem (d : Int) (hd : 5 ≤ d) :
    -128 ≤ roundf ((576 : ℝ) / (d : ℝ)) ∧ roundf ((576 : ℝ) / (d : ℝ)) ≤ 127 := by
  have hdR : (5 : ℝ) ≤ (d : ℝ) := by exact_mod_cast hd
  have hpos : (0 : ℝ) < (d : ℝ) := by linarith
  have h0 : (0 : ℝ) < 576 / (d : ℝ) := div_pos (by norm_num) hpos
  have h1 : (576 : ℝ) / (d : ℝ) ≤ 116 := by
    rw [div_le_iff₀ hpos]
    linarith
  have h := abs_roundf_sub_le ((576 : ℝ) / (d : ℝ))
  rw [abs_le] at h
  have hlo : ((-1 : Int) : ℝ) < (roundf ((576 : ℝ) / (d : ℝ)) : ℝ) := by
    push_cast
    linarith [h.1]
  have hhi : (roundf ((576 : ℝ) / (d : ℝ)) : ℝ) < ((128 : Int) : ℝ) := by
    push_cast
    linarith [h.2]
  have hlo' := Int.cast_lt.mp hlo
  have hhi' := Int.cast_lt.mp hhi
  constructor <;> omega

/-- The component of a block of value 200 is within `d0 / 16 + 1/2` of `200` when the DC
divisor `d0` is at least 5, and is `200` when `d0` also divides `576`. -/
theorem uniform_200_component (d : Int) (hd : 5 ≤ d) :
    |((clamped_component (((int_cast (int8_cast (roundf ((576 : ℝ) / (d : ℝ))) * d) : Int) : ℝ) / 8)
        : Nat) : ℝ) - 200| ≤ (d : ℝ) / 16 + 1 / 2 ∧
    (d ∣ 576 →
      clamped_component (((int_cast (int8_cast (roundf ((576 : ℝ) / (d : ℝ))) * d) : Int) : ℝ) / 8)
        = 200) := by
  obtain ⟨hlo, hhi⟩ := roundf_576_mem d hd
  have hf := roundf_mul_fits (576 : ℝ) d (by omega) (by norm_num)
  rw [int8_cast_of_mem hlo hhi, int_cast_of_mem hf.1 hf.2]
  constructor
  · have herr := round_quotient_error (576 : ℝ) d (by omega)
    generalize ((roundf ((576 : ℝ) / (d : ℝ)) * d : Int) : ℝ) = w at herr ⊢
    rw [clamped_component_eq]
    have hround := abs_roundf_sub_le (w / 8)
    have hclamp := clamp_error (roundf (w / 8) + 128) 200 (by norm_num)
    refine le_trans (by simpa using hclamp) ?_
    rw [abs_le] at herr hround ⊢
    constructor <;> linarith [herr.1, herr.2, hround.1, hround.2]
  · rintro ⟨m, hm⟩
    have hdR : (d : ℝ) ≠ 0 := by
      have : (5 : ℝ) ≤ (d : ℝ) := by exact_mod_cast hd
      linarith
    have e : (576 : ℝ) / (d : ℝ) = ((m : Int) : ℝ) := by
      have : (576 : ℝ) = (d : ℝ) * (m : ℝ) := by exact_mod_cast hm
      rw [this]
      field_simp
    rw [e, roundf_intCast]
    have e2 : (((m * d : Int) : ℝ)) / 8 = ((72 : Int) : ℝ) := by
      have : m * d = 576 := by rw [hm]; ring
      rw [this]
      norm_num
    rw [e2, clamped_component_intCast]
    decide

/-! ## `create_grayscale_bitmap` -/

/-- With dimensions that are multiples of 8, `create_grayscale_bitmap` calls
`bitmapWritePixels` with the path it was given, `NULL` included, and returns the converted
buffer exactly when that call succeeds. -/
theorem create_grayscale_bitmap_eq {R : Type} (env : compress_env R) (input_path : String)
    (output_path : Option String) (bmp : bitmap_read_t)
    (hread : env.bitmapReadPixels input_path = some bmp)
    (hw : Int.tmod bmp.width_px 8 = 0) (hh : Int.tmod bmp.height_px 8 = 0) :
    create_grayscale_bitmap env input_path output_path
      = { pixels :=
            if env.bitmapWritePixels output_path then
              some (convert_to_grayscale (bmp.width_px * bmp.height_px).toNat bmp.pixels,
                Int.tdiv bmp.width_px 8, Int.tdiv bmp.height_px 8)
            else none,
          dump := some
            { path := output_path,
              params :=
                { bottomUp := true, widthPx := bmp.width_px, heightPx := bmp.height_px,
                  colorDepth := 24,
                  colorSpace := bitmap_color_space_t.BITMAP_COLOR_SPACE_HSV },
              pixels := convert_to_grayscale (bmp.width_px * bmp.height_px).toNat
                bmp.pixels } } := by
  unfold create_grayscale_bitmap
  rw [hread]
  simp only []
  rw [if_neg (by rw [hw, hh]; simp)]
  split <;> rfl

/-- Without dimensions that are multiples of 8, `create_grayscale_bitmap` returns `NULL`. -/
theorem create_grayscale_bitmap_bad {R : Type} (env : compress_env R) (input_path : String)
    (output_path : Option String) (bmp : bitmap_read_t)
    (hread : env.bitmapReadPixels input_path = some bmp)
    (hdim : (Int.tmod bmp.width_px 8 ≠ 0) ∨ (Int.tmod bmp.height_px 8 ≠ 0)) :
    create_grayscale_bitmap env input_path output_path = { pixels := none, dump := none } := by
  unfold create_grayscale_bitmap
  rw [hread]
  simp only []
  rw [if_pos hdim]

/-- What a successful `create_grayscale_bitmap` returns. -/
theorem create_grayscale_bitmap_success {R : Type} (env : compress_env R)
    (input_path : String) (output_path : Option String) (bmp : bitmap_read_t)
    (hread : env.bitmapReadPixels input_path = some bmp)
    (pixels : Nat → bitmap_pixel_hsv_t) (blocks_x blocks_y : Int)
    (hok : (create_grayscale_bitmap env input_path output_path).pixels
      = some (pixels, blocks_x, blocks_y)) :
    Int.tmod bmp.width_px 8 = 0 ∧ Int.tmod bmp.height_px 8 = 0 ∧
    pixels = convert_to_grayscale (bmp.width_px * bmp.height_px).toNat bmp.pixels ∧
    blocks_x = Int.tdiv bmp.width_px 8 ∧ blocks_y = Int.tdiv bmp.height_px 8 := by
  by_cases hdim : (Int.tmod bmp.width_px 8 ≠ 0) ∨ (Int.tmod bmp.height_px 8 ≠ 0)
  · rw [create_grayscale_bitmap_bad env input_path output_path bmp hread hdim] at hok
    cases hok
  · have hw : Int.tmod bmp.width_px 8 = 0 := by
      by_contra h
      exact hdim (Or.inl h)
    have hh : Int.tmod bmp.height_px 8 = 0 := by
      by_contra h
      exact hdim (Or.inr h)
    rw [create_grayscale_bitmap_eq env input_path output_path bmp hread hw hh] at hok
    simp only [] at hok
    by_cases hwrite : env.bitmapWritePixels output_path = true
    · rw [if_pos hwrite] at hok
      cases hok
      exact ⟨hw, hh, rfl, rfl, rfl⟩
    · rw [if_neg hwrite] at hok
      cases hok

/-- The dump that `compress` reports is the call that `create_grayscale_bitmap` made. -/
theorem compress_grayscale_dump {R : Type} [LinearOrderedField R] [FloorRing R]
    (env : compress_env R) (cosf : R → R) (M_PI : R) (alpha : Nat → R) (zz : Nat → Nat)
    (file_path : String) (quant_matrix : Nat → Int) (grayscale_path : Option String)
    (output_path : String) :
    (compress env cosf M_PI alpha zz file_path quant_matrix grayscale_path
      output_path).grayscale_dump
      = (create_grayscale_bitmap env file_path grayscale_path).dump := by
  unfold compress
  simp only []
  split
  · rfl
  · split
    · rfl
    · split
      · rfl
      · split <;> rfl

/-- A scatter leaves a cell alone or stores in it the value of one of the indices that hit
it. -/
theorem for_loop_scatter_cases {α : Type} (idx : Nat → Nat) (f : Nat → α) (n : Nat)
    (out : Nat → α) (o : Nat) :
    for_loop n (fun i out => Function.update out (idx i) (f i)) out o = out o ∨
    ∃ i < n, idx i = o ∧
      for_loop n (fun i out => Function.update out (idx i) (f i)) out o = f i := by
  induction n with
  | zero => exact Or.inl rfl
  | succ n ih =>
    rw [for_loop_succ]
    by_cases h : o = idx n
    · right
      refine ⟨n, Nat.lt_succ_self n, h.symm, ?_⟩
      rw [h, Function.update_same]
    · rw [Function.update_noteq h]
      rcases ih with h0 | ⟨i, hi, hidx, hval⟩
      · exact Or.inl h0
      · exact Or.inr ⟨i, Nat.lt_succ_of_lt hi, hidx, hval⟩

/-- The offsets of a plane of `blocks_x` by `blocks_y` blocks stay inside the plane. -/
theorem pixel_offset_lt (blocks_x blocks_y index_x index_y curr_x curr_y : Nat)
    (hx : index_x < blocks_x) (hy : index_y < blocks_y) (hcx : curr_x < 8)
    (hcy : curr_y < 8) :
    pixel_offset blocks_x index_x index_y curr_x curr_y < 64 * blocks_x * blocks_y := by
  rw [pixel_offset_eq]
  calc index_x * 8 + curr_x + blocks_x * 8 * (index_y * 8 + curr_y)
      < blocks_x * 8 + blocks_x * 8 * (index_y * 8 + curr_y) := by omega
    _ = blocks_x * 8 * (index_y * 8 + curr_y + 1) := by ring
    _ ≤ blocks_x * 8 * (8 * blocks_y) := Nat.mul_le_mul_left _ (by omega)
    _ = 64 * blocks_x * blocks_y := by ring

/-! ## Rounding of quotients -/

theorem roundf_add_half {R : Type} [LinearOrderedField R] [FloorRing R] (k : Int)
    (hk : 0 ≤ k) : roundf ((k : R) + 1 / 2) = k + 1 := by
  unfold roundf
  have h0 : (0 : R) ≤ (k : R) + 1 / 2 := by
    have : (0 : R) ≤ (k : R) := by exact_mod_cast hk
    linarith
  rw [if_pos h0]
  have e : (k : R) + 1 / 2 + 1 / 2 = ((k + 1 : Int) : R) := by push_cast; ring
  rw [e, Int.floor_intCast]

theorem roundf_neg_add_half {R : Type} [LinearOrderedField R] [FloorRing R] (k : Int)
    (hk : 0 ≤ k) : roundf (-((k : R) + 1 / 2)) = -(k + 1) := by
  unfold roundf
  have h0 : ¬ (0 : R) ≤ -((k : R) + 1 / 2) := by
    have : (0 : R) ≤ (k : R) := by exact_mod_cast hk
    intro h
    linarith
  rw [if_neg h0]
  have e : -(-((k : R) + 1 / 2)) + 1 / 2 = ((k + 1 : Int) : R) := by push_cast; ring
  rw [e, Int.floor_intCast]

/-- A value strictly within one half of an integer is rounded to that integer. -/
theorem roundf_of_abs_sub_lt {R : Type} [LinearOrderedField R] [FloorRing R] (x : R)
    (n : Int) (h : |x - (n : R)| < 1 / 2) : roundf x = n := by
  rw [abs_lt] at h
  unfold roundf
  split_ifs with h0
  · rw [Int.floor_eq_iff]
    constructor <;> linarith [h.1, h.2]
  · have e : ⌊-x + 1 / 2⌋ = -n := by
      rw [Int.floor_eq_iff]
      push_cast
      constructor <;> linarith [h.1, h.2]
    rw [e]
    ring

theorem dct_angle_zero (m : ℕ) : dct_angle Real.pi m 0 = 0 := by
  unfold dct_angle
  simp

/-- The DC coefficient is the sum of the 64 samples over 8. -/
theorem perform_dct_dc (alpha : ℕ → ℝ) (ha0 : alpha 0 = 1 / Real.sqrt 8)
    (hak : ∀ k, 1 ≤ k → k ≤ 7 → alpha k = Real.sqrt (2 / 8)) (b out : ℕ → ℝ) :
    perform_dct Real.cos Real.pi alpha b out 0 = (∑ i in Finset.range 64, b i) / 8 := by
  rw [perform_dct_apply, if_pos (by norm_num), compress_dct_sum_eq]
  simp only [Nat.zero_div, Nat.zero_mod, dct_angle_zero, Real.cos_zero, mul_one]
  rw [sum_grid b]
  have ha := alpha_mul_self alpha ha0 hak 0 (by norm_num)
  rw [if_pos rfl] at ha
  rw [ha]
  ring

/-- A signed 8-bit value whose product with the divisor fits an `int` passes through
`dequantize` and `quantize` unchanged. -/
theorem quantize_dequantize {R : Type} [LinearOrderedField R] [FloorRing R]
    (q : Nat → Int) (d : Nat → Int) (out1 : Nat → R) (out2 : Nat → Int) (i : Nat)
    (hi : i < 64) (hq1 : -128 ≤ q i) (hq2 : q i ≤ 127) (hd : 0 < d i)
    (h1 : -2147483648 ≤ q i * d i) (h2 : q i * d i ≤ 2147483647) :
    quantize (dequantize q d out1) d out2 i = q i := by
  rw [quantize_apply, if_pos hi, dequantize_apply, if_pos hi, int_cast_of_mem h1 h2]
  have hdR : (d i : R) ≠ 0 := by
    have : (0 : R) < (d i : R) := by exact_mod_cast hd
    exact ne_of_gt this
  have e : ((q i * d i : Int) : R) / (d i : R) = ((q i : Int) : R) := by
    push_cast
    field_simp
  rw [e, roundf_intCast, int8_cast_of_mem hq1 hq2]

/-- The product of a signed 8-bit value and a positive divisor of at most `2^24` fits an
`int`. -/
theorem int8_mul_fits (q d : Int) (hq1 : -128 ≤ q) (hq2 : q ≤ 127) (hd : 0 < d)
    (hd24 : d ≤ 16777216) : -2147483648 ≤ q * d ∧ q * d ≤ 2147483647 := by
  constructor <;> nlinarith

/-! ## The container depends on the value channel only -/

/-- The record of a block depends only on the 64 value components of that block. -/
theorem compress_block_congr {R : Type} [LinearOrderedField R] [FloorRing R]
    (env : compress_env R) (cosf : R → R) (M_PI : R) (alpha : Nat → R) (zz : Nat → Nat)
    (quant_matrix : Nat → Int) (pixels pixels' : Nat → bitmap_pixel_hsv_t)
    (blocks_x index_x index_y : Nat)
    (h : ∀ curr_x < 8, ∀ curr_y < 8,
      (pixels (pixel_offset blocks_x index_x index_y curr_x curr_y)).v
        = (pixels' (pixel_offset blocks_x index_x index_y curr_x curr_y)).v) :
    compress_block env cosf M_PI alpha zz quant_matrix pixels blocks_x index_x index_y
      = compress_block env cosf M_PI alpha zz quant_matrix pixels' blocks_x index_x
          index_y := by
  have hr : read_block pixels index_x index_y blocks_x env.input_block
      = read_block pixels' index_x index_y blocks_x env.input_block := by
    funext j
    rw [read_block_apply, read_block_apply]
    by_cases hj : j < 64
    · rw [if_pos hj, if_pos hj, h (j % 8) (Nat.mod_lt _ (by norm_num)) (j / 8) (by omega)]
    · rw [if_neg hj, if_neg hj]
  unfold compress_block
  simp only [hr]

/-- What `compress` returns and writes, the grayscale dump apart, is determined by the
block counts and by the value components of the pixels inside the blocks. -/
theorem compress_congr {R : Type} [LinearOrderedField R] [FloorRing R]
    (env : compress_env R) (cosf : R → R) (M_PI : R) (alpha : Nat → R) (zz : Nat → Nat)
    (quant_matrix : Nat → Int) (grayscale_path : Option String) (output_path : String)
    (path1 path2 : String)
    (h : ((create_grayscale_bitmap env path1 grayscale_path).pixels = none ∧
          (create_grayscale_bitmap env path2 grayscale_path).pixels = none) ∨
      ∃ (pixels pixels' : Nat → bitmap_pixel_hsv_t) (blocks_x blocks_y : Int),
        (create_grayscale_bitmap env path1 grayscale_path).pixels
          = some (pixels, blocks_x, blocks_y) ∧
        (create_grayscale_bitmap env path2 grayscale_path).pixels
          = some (pixels', blocks_x, blocks_y) ∧
        ∀ index_x < blocks_x.toNat, ∀ index_y < blocks_y.toNat, ∀ curr_x < 8, ∀ curr_y < 8,
          (pixels (pixel_offset blocks_x.toNat index_x index_y curr_x curr_y)).v
            = (pixels' (pixel_offset blocks_x.toNat index_x index_y curr_x curr_y)).v) :
    (compress env cosf M_PI alpha zz path1 quant_matrix grayscale_path output_path).status
      = (compress env cosf M_PI alpha zz path2 quant_matrix grayscale_path
          output_path).status ∧
    (compress env cosf M_PI alpha zz path1 quant_matrix grayscale_path
        output_path).output_file
      = (compress env cosf M_PI alpha zz path2 quant_matrix grayscale_path
          output_path).output_file ∧
    (compress env cosf M_PI alpha zz path1 quant_matrix grayscale_path output_path).blocks
      = (compress env cosf M_PI alpha zz path2 quant_matrix grayscale_path
          output_path).blocks := by
  unfold compress
  simp only []
  rcases h with ⟨h1, h2⟩ | ⟨pixels, pixels', blocks_x, blocks_y, h1, h2, hv⟩
  · rw [h1, h2]
    exact ⟨rfl, rfl, rfl⟩
  · rw [h1, h2]
    simp only []
    have hloop : ∀ file : compress_state,
        for_loop blocks_y.toNat (fun index_y file =>
          for_loop blocks_x.toNat (fun index_x file =>
            compress_step env cosf M_PI alpha zz quant_matrix pixels
              blocks_x.toNat index_x index_y file) file) file
        = for_loop blocks_y.toNat (fun index_y file =>
          for_loop blocks_x.toNat (fun index_x file =>
            compress_step env cosf M_PI alpha zz quant_matrix pixels'
              blocks_x.toNat index_x index_y file) file) file := by
      intro file
      apply for_loop_congr
      intro index_y hy file
      apply for_loop_congr
      intro index_x hx file
      unfold compress_step
      rw [compress_block_congr env cosf M_PI alpha zz quant_matrix pixels pixels'
        blocks_x.toNat index_x index_y (hv index_x hx index_y hy)]
    rw [hloop]
    split_ifs <;> exact ⟨rfl, rfl, rfl⟩

/-- Two images of the same valid dimensions with the same value components give the same
status, the same output file and the same sequence of blocks. -/
theorem compress_value_only {R : Type} [LinearOrderedField R] [FloorRing R]
    (env : compress_env R) (cosf : R → R) (M_PI : R) (alpha : Nat → R) (zz : Nat → Nat)
    (quant_matrix : Nat → Int) (grayscale_path : Option String) (output_path : String)
    (path1 path2 : String) (bmp1 bmp2 : bitmap_read_t) (blocks_x blocks_y : Nat)
    (h1 : env.bitmapReadPixels path1 = some bmp1)
    (h2 : env.bitmapReadPixels path2 = some bmp2)
    (hw1 : bmp1.width_px = 8 * blocks_x) (hh1 : bmp1.height_px = 8 * blocks_y)
    (hw2 : bmp2.width_px = 8 * blocks_x) (hh2 : bmp2.height_px = 8 * blocks_y)
    (hv : ∀ o < 64 * blocks_x * blocks_y, (bmp1.pixels o).v = (bmp2.pixels o).v) :
    (compress env cosf M_PI alpha zz path1 quant_matrix grayscale_path output_path).status
      = (compress env cosf M_PI alpha zz path2 quant_matrix grayscale_path
          output_path).status ∧
    (compress env cosf M_PI alpha zz path1 quant_matrix grayscale_path
        output_path).output_file
      = (compress env cosf M_PI alpha zz path2 quant_matrix grayscale_path
          output_path).output_file ∧
    (compress env cosf M_PI alpha zz path1 quant_matrix grayscale_path output_path).blocks
      = (compress env cosf M_PI alpha zz path2 quant_matrix grayscale_path
          output_path).blocks := by
  have tm : ∀ n : Nat, Int.tmod (8 * (n : Int)) 8 = 0 := fun n => by
    rw [Int.tmod_eq_emod (by positivity) (by norm_num)]; omega
  have td : ∀ n : Nat, Int.tdiv (8 * (n : Int)) 8 = n := fun n => by
    rw [Int.tdiv_eq_ediv (by positivity) (by norm_num)]; omega
  apply compress_congr
  rw [create_grayscale_bitmap_eq env path1 grayscale_path bmp1 h1 (by rw [hw1]; exact tm _)
      (by rw [hh1]; exact tm _),
    create_grayscale_bitmap_eq env path2 grayscale_path bmp2 h2 (by rw [hw2]; exact tm _)
      (by rw [hh2]; exact tm _)]
  simp only []
  by_cases hwr : env.bitmapWritePixels grayscale_path = true
  · right
    rw [if_pos hwr, if_pos hwr, hw1, hh1, hw2, hh2, td, td]
    refine ⟨_, _, _, _, rfl, rfl, ?_⟩
    intro index_x hx index_y hy curr_x hcx curr_y hcy
    rw [convert_to_grayscale_v, convert_to_grayscale_v]
    rw [Int.toNat_natCast] at hx hy ⊢
    exact hv _ (pixel_offset_lt blocks_x blocks_y index_x index_y curr_x curr_y hx hy hcx hcy)
  · left
    rw [if_neg hwr, if_neg hwr]
    exact ⟨rfl, rfl⟩

theorem container_byte_eq (x y : Int) (f : Nat → List Nat) (h : ∀ k, (f k).length = 64)
    (n k j : Nat) (hk : k < n) (hj : j < 64) :
    (int32_bytes x ++ int32_bytes y ++ (List.range n).flatMap f).getD (8 + 64 * k + j) 0
      = (f k).getD j 0 := by
  rw [List.getD_append_right _ _ _ _ (by
      rw [List.length_append, int32_bytes_length, int32_bytes_length]; omega),
    List.length_append, int32_bytes_length, int32_bytes_length]
  have e : 8 + 64 * k + j - (4 + 4) = 64 * k + j := by omega
  rw [e, flatMap_range_getD f h n k j hk hj]

/-- Byte `j` of record `k` of the container of a successful run is the byte of entry `j` of
the block computed from block `(k mod blocks_x, k div blocks_x)` of the image. -/
theorem compress_record {R : Type} [LinearOrderedField R] [FloorRing R]
    (env : compress_env R) (cosf : R → R) (M_PI : R) (alpha : Nat → R) (zz : Nat → Nat)
    (file_path : String) (quant_matrix : Nat → Int) (grayscale_path : Option String)
    (output_path : String) (bmp : bitmap_read_t) (blocks_x blocks_y : Nat)
    (hread : env.bitmapReadPixels file_path = some bmp)
    (hw : bmp.width_px = 8 * blocks_x) (hh : bmp.height_px = 8 * blocks_y)
    (hstatus : (compress env cosf M_PI alpha zz file_path quant_matrix grayscale_path
      output_path).status = 0)
    (bytes : List Nat)
    (hbytes : (compress env cosf M_PI alpha zz file_path quant_matrix grayscale_path
      output_path).output_file = some bytes)
    (k : Nat) (hk : k < blocks_x * blocks_y) (j : Nat) (hj : j < 64) :
    bytes.getD (8 + 64 * k + j) 0
      = int8_byte (compress_block env cosf M_PI alpha zz quant_matrix
          bmp.pixels blocks_x (k % blocks_x) (k / blocks_x) j) := by
  have td : ∀ n : Nat, Int.tdiv (8 * (n : Int)) 8 = n := fun n => by
    rw [Int.tdiv_eq_ediv (by positivity) (by norm_num)]; omega
  obtain ⟨-, -, hout, -⟩ := compress_of_status_zero env cosf M_PI alpha zz file_path
    quant_matrix grayscale_path output_path bmp hread hstatus
  rw [hout, hw, hh, td, td, Int.toNat_natCast, Int.toNat_natCast] at hbytes
  rw [← Option.some.inj hbytes,
    container_byte_eq _ _ _ (fun _ => block_bytes_length _) _ k j hk hj,
    block_bytes_getD _ j hj]
  rw [compress_block_congr env cosf M_PI alpha zz quant_matrix _ bmp.pixels blocks_x
    (k % blocks_x) (k / blocks_x) (fun _ _ _ _ => convert_to_grayscale_v _ _ _)]

/-! ## The decoded plane -/

theorem decoded_pixels_outside {R : Type} [LinearOrderedField R] [FloorRing R]
    (env : decompress_env R) (cosf : R → R) (M_PI : R) (alpha : Nat → R) (zz : Nat → Nat)
    (quant_matrix : Nat → Int) (bytes : List Nat) (blocks_x blocks_y : Nat)
    (pixels : Nat → bitmap_pixel_rgb_t) (n : Nat) (hn : n ≤ blocks_x * blocks_y)
    (o : Nat) (ho : 64 * blocks_x * blocks_y ≤ o) :
    decoded_pixels env cosf M_PI alpha zz quant_matrix bytes blocks_x pixels n o
      = pixels o := by
  induction n with
  | zero => rfl
  | succ n ih =>
    rw [decoded_pixels, write_block_other, ih (by omega)]
    intro curr_x hcx curr_y hcy heq
    have hbx : 0 < blocks_x := by
      rcases Nat.eq_zero_or_pos blocks_x with h0 | h0
      · rw [h0, Nat.zero_mul] at hn
        omega
      · exact h0
    have hlt := pixel_offset_lt blocks_x blocks_y (n % blocks_x) (n / blocks_x) curr_x curr_y
      (Nat.mod_lt _ hbx) (Nat.div_lt_of_lt_mul (by omega)) hcx hcy
    omega

/-- The plane written by `decompress` for a complete container: every pixel of the plane
belongs to one block and holds the gray decoded from that block's record; the buffer behind
the plane is not written. -/
theorem decompress_plane {R : Type} [LinearOrderedField R] [FloorRing R]
    (env : decompress_env R) (cosf : R → R) (M_PI : R) (alpha : Nat → R) (zz : Nat → Nat)
    (file_path : String) (quant_matrix : Nat → Int) (output_path : String)
    (bytes : List Nat) (blocks_x blocks_y : Nat) (hopen : env.fopen file_path = some bytes)
    (hzz : ∀ i < 64, zz i < 64)
    (hx : container_blocks_x bytes = blocks_x) (hy : container_blocks_y bytes = blocks_y)
    (hlen : 8 + 64 * (blocks_x * blocks_y) ≤ bytes.length) :
    ∃ img, (decompress env cosf M_PI alpha zz file_path quant_matrix output_path).image
        = some img ∧
      (∀ o < 64 * blocks_x * blocks_y,
        ∃ k < blocks_x * blocks_y, ∃ curr_x < 8, ∃ curr_y < 8,
          pixel_offset blocks_x (k % blocks_x) (k / blocks_x) curr_x curr_y = o ∧
          img.pixels o
            = { r := clamped_component (original_block env cosf M_PI alpha zz quant_matrix
                      (container_record bytes k) (8 * curr_y + curr_x)),
                g := clamped_component (original_block env cosf M_PI alpha zz quant_matrix
                      (container_record bytes k) (8 * curr_y + curr_x)),
                b := clamped_component (original_block env cosf M_PI alpha zz quant_matrix
                      (container_record bytes k) (8 * curr_y + curr_x)) }) ∧
      (∀ o, 64 * blocks_x * blocks_y ≤ o → img.pixels o = env.malloc o) := by
  have ex : (container_blocks_x bytes).toNat = blocks_x := by rw [hx, Int.toNat_natCast]
  have ey : (container_blocks_y bytes).toNat = blocks_y := by rw [hy, Int.toNat_natCast]
  rw [decompress_ok env cosf M_PI alpha zz file_path quant_matrix output_path bytes hopen hzz
    (by rw [ex, ey]; exact hlen), ex, ey]
  refine ⟨_, rfl, ?_, ?_⟩
  · intro o ho
    obtain ⟨k, hk, curr_x, hcx, curr_y, hcy, h⟩ := pixel_offset_surj blocks_x blocks_y o ho
    have hbx : 0 < blocks_x := by
      rcases Nat.eq_zero_or_pos blocks_x with h0 | h0
      · rw [h0, Nat.zero_mul] at hk
        omega
      · exact h0
    refine ⟨k, hk, curr_x, hcx, curr_y, hcy, h, ?_⟩
    rw [← h]
    exact decoded_pixels_at env cosf M_PI alpha zz quant_matrix bytes blocks_x env.malloc
      (blocks_x * blocks_y) k hk hbx curr_x curr_y hcx hcy
  · intro o ho
    exact decoded_pixels_outside env cosf M_PI alpha zz quant_matrix bytes blocks_x blocks_y
      env.malloc (blocks_x * blocks_y) (Nat.le_refl _) o ho

/-! ## Stores inside the pixel buffer -/

/-- The stores of the blocks of a plane of `blocks_x` by `blocks_y` blocks stay inside a
buffer of `192 * blocks_x * blocks_y` bytes. -/
theorem decoded_fault_eq_false (size blocks_x blocks_y : Nat)
    (hsize : 192 * blocks_x * blocks_y ≤ size) (n : Nat) (hn : n ≤ blocks_x * blocks_y) :
    decoded_fault size blocks_x n = false := by
  induction n with
  | zero => rfl
  | succ n ih =>
    rw [decoded_fault, ih (by omega), Bool.false_or]
    have hbx : 0 < blocks_x := by
      rcases Nat.eq_zero_or_pos blocks_x with h0 | h0
      · rw [h0, Nat.zero_mul] at hn
        omega
      · exact h0
    have hlt := pixel_offset_lt blocks_x blocks_y (n % blocks_x) (n / blocks_x) 7 7
      (Nat.mod_lt _ hbx) (Nat.div_lt_of_lt_mul (by omega)) (by norm_num) (by norm_num)
    unfold write_block_outside
    rw [decide_eq_false_iff_not]
    have e : 192 * blocks_x * blocks_y = 3 * (64 * blocks_x * blocks_y) := by ring
    omega

/-- A store outside the buffer, once made, is not undone. -/
theorem decoded_fault_of_outside (size blocks_x : Nat) (k n : Nat) (hk : k < n)
    (h : write_block_outside size blocks_x (k % blocks_x) (k / blocks_x) = true) :
    decoded_fault size blocks_x n = true := by
  induction n with
  | zero => omega
  | succ n ih =>
    rw [decoded_fault]
    by_cases hkn : k = n
    · subst hkn
      rw [h, Bool.or_true]
    · rw [ih (by omega), Bool.true_or]

/-- The store at `(7, 7)` is the farthest of a block: a block is outside the buffer exactly
when one of its 64 stores is. -/
theorem write_block_outside_iff (size blocks_x index_x index_y : Nat) :
    write_block_outside size blocks_x index_x index_y = true
      ↔ ∃ curr_x < 8, ∃ curr_y < 8,
          size < 3 * (pixel_offset blocks_x index_x index_y curr_x curr_y + 1) := by
  unfold write_block_outside
  rw [decide_eq_true_iff]
  constructor
  · intro h
    exact ⟨7, by norm_num, 7, by norm_num, h⟩
  · rintro ⟨curr_x, hcx, curr_y, hcy, h⟩
    have hle : pixel_offset blocks_x index_x index_y curr_x curr_y
        ≤ pixel_offset blocks_x index_x index_y 7 7 := by
      rw [pixel_offset_eq, pixel_offset_eq]
      have h1 : blocks_x * 8 * (index_y * 8 + curr_y) ≤ blocks_x * 8 * (index_y * 8 + 7) :=
        Nat.mul_le_mul_left _ (by omega)
      omega
    omega

/-- The buffer of a plane whose size in bytes fits an `int`, when `malloc` succeeds. -/
theorem malloc_bytes_eq {R : Type} (env : decompress_env R) (blocks_x blocks_y : Nat)
    (hsize : ((blocks_x : Int) * 8 * (blocks_y : Int) * 8) * 3 < 2147483648)
    (hmalloc : env.malloc_null (malloc_size blocks_x blocks_y) = false) :
    malloc_bytes env blocks_x blocks_y = 192 * blocks_x * blocks_y := by
  unfold malloc_bytes
  rw [hmalloc]
  simp only [Bool.false_eq_true, if_false]
  unfold malloc_size
  have h0 : (0 : Int) ≤ ((blocks_x : Int) * 8 * (blocks_y : Int) * 8) * 3 := by positivity
  rw [int_cast_of_mem (by omega) (by omega)]
  have e : ((blocks_x : Int) * 8 * (blocks_y : Int) * 8) * 3
      = ((192 * blocks_x * blocks_y : Nat) : Int) := by
    push_cast
    ring
  rw [e, Int.toNat_natCast]

/-- A container shorter than its header announces, with positive block counts, a plane
whose size in bytes fits an `int` and a successful `malloc`: every block written before the
failing read lies inside the buffer. -/
theorem decompress_truncated_no_fault {R : Type} [LinearOrderedField R] [FloorRing R]
    (env : decompress_env R) (cosf : R → R) (M_PI : R) (alpha : Nat → R) (zz : Nat → Nat)
    (file_path : String) (quant_matrix : Nat → Int) (output_path : String)
    (bytes : List Nat) (blocks_x blocks_y : Nat) (hopen : env.fopen file_path = some bytes)
    (hx : container_blocks_x bytes = blocks_x) (hy : container_blocks_y bytes = blocks_y)
    (hsize : ((blocks_x : Int) * 8 * (blocks_y : Int) * 8) * 3 < 2147483648)
    (hmalloc : env.malloc_null (malloc_size blocks_x blocks_y) = false)
    (hlen : bytes.length < 8 + 64 * (blocks_x * blocks_y)) :
    (decompress env cosf M_PI alpha zz file_path quant_matrix output_path).fault = false := by
  rw [decompress_truncated_fault env cosf M_PI alpha zz file_path quant_matrix output_path
    bytes hopen (by rw [hx, hy, Int.toNat_natCast, Int.toNat_natCast]; exact Or.inl hlen),
    hx, hy, Int.toNat_natCast, malloc_bytes_eq env blocks_x blocks_y hsize hmalloc]
  exact decoded_fault_eq_false _ blocks_x blocks_y (Nat.le_refl _) _ (by omega)

/-- A container with all the records its header announces, a plane whose size in bytes fits
an `int` and a successful `malloc`: every block is written inside the buffer. -/
theorem decompress_ok_no_fault {R : Type} [LinearOrderedField R] [FloorRing R]
    (env : decompress_env R) (cosf : R → R) (M_PI : R) (alpha : Nat → R) (zz : Nat → Nat)
    (file_path : String) (quant_matrix : Nat → Int) (output_path : String)
    (bytes : List Nat) (blocks_x blocks_y : Nat) (hopen : env.fopen file_path = some bytes)
    (hzz : ∀ i < 64, zz i < 64)
    (hx : container_blocks_x bytes = blocks_x) (hy : container_blocks_y bytes = blocks_y)
    (hsize : ((blocks_x : Int) * 8 * (blocks_y : Int) * 8) * 3 < 2147483648)
    (hmalloc : env.malloc_null (malloc_size blocks_x blocks_y) = false)
    (hlen : 8 + 64 * (blocks_x * blocks_y) ≤ bytes.length) :
    (decompress env cosf M_PI alpha zz file_path quant_matrix output_path).fault = false := by
  rw [decompress_ok env cosf M_PI alpha zz file_path quant_matrix output_path bytes hopen hzz
    (by rw [hx, hy, Int.toNat_natCast, Int.toNat_natCast]; exact hlen)]
  simp only []
  rw [hx, hy, Int.toNat_natCast, Int.toNat_natCast,
    malloc_bytes_eq env blocks_x blocks_y hsize hmalloc]
  exact decoded_fault_eq_false _ blocks_x blocks_y (Nat.le_refl _) _ (Nat.le_refl _)

/-! ## Claims -/

/-- C1: when `zig_zag_index_matrix` is a permutation of `[0, 64)`, `un_zig_zag` after `zig_zag`
gives back every cell of a 64-element block `b`, and `zig_zag` after `un_zig_zag` gives back
every cell of a 64-element block `c`, whatever the output arrays held before: the scatter
writes each output position exactly once. -/
theorem C1_zig_zag_round_trip (zz : Nat → Nat) (hzz : is_permutation zz)
    (b c out1 out2 : Nat → Int) :
    (∀ i < 64, un_zig_zag zz (zig_zag zz b out1) out2 i = b i) ∧
    (∀ j < 64, zig_zag zz (un_zig_zag zz c out1) out2 j = c j) := by
  constructor
  · intro i hi
    rw [un_zig_zag_apply, if_pos hi, zig_zag_apply hzz b out1 i hi]
  · intro j hj
    obtain ⟨i, hi, rfl⟩ := is_permutation_surj hzz j hj
    rw [zig_zag_apply hzz _ out2 i hi, un_zig_zag_apply, if_pos hi]

/-- C1 at the JPEG zigzag order and the blocks `b i = i - 32`, `c i = 2 * i - 64`. -/
theorem C1_zig_zag_round_trip_witness :
    is_permutation jpeg_zig_zag_order ∧
    ((∀ i < 64, un_zig_zag jpeg_zig_zag_order
        (zig_zag jpeg_zig_zag_order (fun i => (i : Int) - 32) (fun _ => 0)) (fun _ => 0) i
          = (i : Int) - 32) ∧
     (∀ j < 64, zig_zag jpeg_zig_zag_order
        (un_zig_zag jpeg_zig_zag_order (fun i => 2 * (i : Int) - 64) (fun _ => 0)) (fun _ => 0) j
          = 2 * (j : Int) - 64)) :=
  ⟨jpeg_zig_zag_order_is_permutation,
   C1_zig_zag_round_trip jpeg_zig_zag_order jpeg_zig_zag_order_is_permutation
     (fun i => (i : Int) - 32) (fun i => 2 * (i : Int) - 64) (fun _ => 0) (fun _ => 0)⟩

/-- C2: with `alpha 0 = 1/√8` and `alpha k = √(2/8)` for `k` in `1..7`, over the reals,
`perform_inverse_dct` after `perform_dct` gives back the block `b` at all 64 positions; no
quantization matrix is involved. -/
theorem C2_inverse_dct_perform_dct (alpha : ℕ → ℝ) (ha0 : alpha 0 = 1 / Real.sqrt 8)
    (hak : ∀ k, 1 ≤ k → k ≤ 7 → alpha k = Real.sqrt (2 / 8)) (b out1 out2 : ℕ → ℝ) :
    ∀ i < 64, perform_inverse_dct Real.cos Real.pi alpha
      (perform_dct Real.cos Real.pi alpha b out1) out2 i = b i :=
  inverse_dct_perform_dct alpha ha0 hak b out1 out2

/-- C2 at the spec's `alpha` and the block `b i = i`. -/
theorem C2_inverse_dct_perform_dct_witness :
    (alpha Real.sqrt 0 = 1 / Real.sqrt 8 ∧
      (∀ k, 1 ≤ k → k ≤ 7 → alpha Real.sqrt k = Real.sqrt (2 / 8))) ∧
    ∀ i < 64, perform_inverse_dct Real.cos Real.pi (alpha Real.sqrt)
      (perform_dct Real.cos Real.pi (alpha Real.sqrt) (fun i => (i : ℝ)) (fun _ => 0))
      (fun _ => 0) i = (i : ℝ) :=
  ⟨⟨alpha_zero, alpha_pos⟩,
   C2_inverse_dct_perform_dct (alpha Real.sqrt) alpha_zero alpha_pos (fun i => (i : ℝ))
     (fun _ => 0) (fun _ => 0)⟩

/-- C3 as stated fails: the coefficient `1000` with divisor `1` is quantized to `-24` (the
rounded quotient `1000` does not fit the `int8_t`), and `-24 * 1` is `1024` away from `1000`,
more than half the divisor. -/
theorem C3_quantize_error_counterexample :
    quantize (fun _ => (1000 : ℝ)) (fun _ => 1) (fun _ => 0) 0 = -24 ∧
    ¬ |dequantize (quantize (fun _ => (1000 : ℝ)) (fun _ => 1) (fun _ => 0)) (fun _ => 1)
          (fun _ => (0 : ℝ)) 0 - 1000| ≤ ((1 : Int) : ℝ) / 2 := by
  have hq : quantize (fun _ => (1000 : ℝ)) (fun _ => 1) (fun _ => 0) 0 = -24 := by
    rw [quantize_apply, if_pos (by norm_num)]
    have e : (1000 : ℝ) / ((1 : Int) : ℝ) = ((1000 : Int) : ℝ) := by norm_num
    rw [e, roundf_intCast]
    decide
  refine ⟨hq, ?_⟩
  have e : int_cast (-24 * (fun _ => 1 : Nat → Int) 0) = -24 := by decide
  rw [dequantize_apply, if_pos (by norm_num), hq, e]
  norm_num

/-- C3, amended: for every coefficient block `c`, every quantization matrix `d` of positive
divisors and every position `i < 64` whose rounded quotient `roundf (c i / d i)` fits a signed
8-bit value, the value `quantize` stores, times `d i`, differs from `c i` by at most
`d i / 2`.  That product is what `dequantize` gives back whenever it fits an `int`, as it
does for every coefficient below `2^30` in absolute value: then
`dequantize (quantize c d) d` differs from `c` at `i` by at most `d i / 2`. -/
theorem C3_quantize_error {R : Type} [LinearOrderedField R] [FloorRing R] (c : Nat → R)
    (d : Nat → Int) (out1 : Nat → Int) (out2 : Nat → R) (i : Nat) (hi : i < 64)
    (hd : 0 < d i) (hlo : -128 ≤ roundf (c i / (d i : R)))
    (hhi : roundf (c i / (d i : R)) ≤ 127) :
    |((quantize c d out1 i * d i : Int) : R) - c i| ≤ (d i : R) / 2 ∧
    (-2147483648 ≤ quantize c d out1 i * d i → quantize c d out1 i * d i ≤ 2147483647 →
      |dequantize (quantize c d out1) d out2 i - c i| ≤ (d i : R) / 2) ∧
    (|c i| < 1073741824 →
      |dequantize (quantize c d out1) d out2 i - c i| ≤ (d i : R) / 2) :=
  ⟨quantize_mul_error c d out1 i hi hd hlo hhi,
   dequantize_quantize_error c d out1 out2 i hi hd hlo hhi,
   dequantize_quantize_error_of_lt c d out1 out2 i hi hd hlo hhi⟩

/-- C3, amended, at the coefficients `96`, the divisors `16` and position `5`. -/
theorem C3_quantize_error_witness :
    (5 < 64 ∧ (0 : Int) < 16 ∧ -128 ≤ roundf ((96 : ℝ) / ((16 : Int) : ℝ)) ∧
      roundf ((96 : ℝ) / ((16 : Int) : ℝ)) ≤ 127) ∧
    |dequantize (quantize (fun _ => (96 : ℝ)) (fun _ => 16) (fun _ => 0)) (fun _ => 16)
        (fun _ => (0 : ℝ)) 5 - 96| ≤ ((16 : Int) : ℝ) / 2 := by
  have e : (96 : ℝ) / ((16 : Int) : ℝ) = ((6 : Int) : ℝ) := by norm_num
  have hr : roundf ((96 : ℝ) / ((16 : Int) : ℝ)) = 6 := by rw [e, roundf_intCast]
  exact ⟨⟨by norm_num, by norm_num, by rw [hr]; norm_num, by rw [hr]; norm_num⟩,
    (C3_quantize_error (fun _ => (96 : ℝ)) (fun _ => 16) (fun _ => 0) (fun _ => 0) 5
      (by norm_num) (by norm_num) (by rw [hr]; norm_num) (by rw [hr]; norm_num)).2.2
      (by norm_num)⟩

/-- C5: for an image of width `8 * bx` and height `8 * by`, a run of `compress` that returns
`0` has written exactly `8 + 64 * bx * by` bytes: the `int` `bx`, the `int` `by`, then for
`k = 0, 1, …` the 64 bytes of the zigzagged quantized DCT of block `(k % bx, k / bx)`; and
`decompress` of these bytes reads the same `bx` and `by`, hands an image of width `8 * bx`
and height `8 * by` to `bitmapWritePixels`, and fills block `(k % bx, k / bx)` of it from
record `k`. -/
theorem C5_container_layout {R : Type} [LinearOrderedField R] [FloorRing R]
    (env : compress_env R) (denv : decompress_env R) (cosf : R → R) (M_PI : R)
    (alpha : Nat → R) (zz : Nat → Nat) (hzz : is_permutation zz) (file_path : String)
    (quant_matrix : Nat → Int) (grayscale_path : Option String) (output_path : String)
    (image_path : String) (bmp : bitmap_read_t) (blocks_x blocks_y : Nat)
    (hread : env.bitmapReadPixels file_path = some bmp)
    (hw : bmp.width_px = 8 * blocks_x) (hh : bmp.height_px = 8 * blocks_y)
    (hbx : 8 * blocks_x < 2147483648) (hby : 8 * blocks_y < 2147483648)
    (hstatus : (compress env cosf M_PI alpha zz file_path quant_matrix grayscale_path
      output_path).status = 0) :
    ∃ bytes : List Nat,
      (compress env cosf M_PI alpha zz file_path quant_matrix grayscale_path
        output_path).output_file = some bytes ∧
      bytes.length = 8 + 64 * blocks_x * blocks_y ∧
      bytes = int32_bytes blocks_x ++ int32_bytes blocks_y ++
        (List.range (blocks_x * blocks_y)).flatMap (fun k => block_bytes
          (compress_block env cosf M_PI alpha zz quant_matrix
            (convert_to_grayscale (bmp.width_px * bmp.height_px).toNat bmp.pixels)
            blocks_x (k % blocks_x) (k / blocks_x))) ∧
      (compress env cosf M_PI alpha zz file_path quant_matrix grayscale_path
        output_path).blocks = (List.range (blocks_x * blocks_y)).map (fun k => (k % blocks_x, k / blocks_x)) ∧
      (denv.fopen output_path = some bytes →
        container_blocks_x bytes = blocks_x ∧ container_blocks_y bytes = blocks_y ∧
        ∃ img, (decompress denv cosf M_PI alpha zz output_path quant_matrix
            image_path).image = some img ∧
          img.params.widthPx = bmp.width_px ∧ img.params.heightPx = bmp.height_px ∧
          ∀ k < blocks_x * blocks_y, ∀ curr_x < 8, ∀ curr_y < 8,
            img.pixels (pixel_offset blocks_x (k % blocks_x) (k / blocks_x) curr_x curr_y)
              = { r := clamped_component (original_block denv cosf M_PI alpha zz quant_matrix
                    (compress_block env cosf M_PI alpha zz quant_matrix
                      (convert_to_grayscale (bmp.width_px * bmp.height_px).toNat bmp.pixels)
                      blocks_x (k % blocks_x) (k / blocks_x)) (8 * curr_y + curr_x)),
                  g := clamped_component (original_block denv cosf M_PI alpha zz quant_matrix
                    (compress_block env cosf M_PI alpha zz quant_matrix
                      (convert_to_grayscale (bmp.width_px * bmp.height_px).toNat bmp.pixels)
                      blocks_x (k % blocks_x) (k / blocks_x)) (8 * curr_y + curr_x)),
                  b := clamped_component (original_block denv cosf M_PI alpha zz quant_matrix
                    (compress_block env cosf M_PI alpha zz quant_matrix
                      (convert_to_grayscale (bmp.width_px * bmp.height_px).toNat bmp.pixels)
                      blocks_x (k % blocks_x) (k / blocks_x)) (8 * curr_y + curr_x)) }) :=
  compress_container_layout env denv cosf M_PI alpha zz hzz file_path quant_matrix
    grayscale_path output_path image_path bmp blocks_x blocks_y hread hw hh hbx hby hstatus

/-- C5 at a 16×8 image of value 200, the JPEG zigzag order and the divisors `16`. -/
theorem C5_container_layout_witness :
    (is_permutation jpeg_zig_zag_order ∧
      (sample_compress_env (sample_bitmap 16 8) : compress_env ℚ).bitmapReadPixels "in.bmp"
        = some (sample_bitmap 16 8) ∧
      (sample_bitmap 16 8).width_px = 8 * (2 : Nat) ∧
      (sample_bitmap 16 8).height_px = 8 * (1 : Nat) ∧
      8 * 2 < 2147483648 ∧ 8 * 1 < 2147483648 ∧
      (compress (sample_compress_env (sample_bitmap 16 8)) sample_cosf 3 sample_alpha
        jpeg_zig_zag_order "in.bmp" (fun _ => 16) (some "gray.bmp") "out.dct").status = 0) ∧
    ∃ bytes : List Nat,
      (compress (sample_compress_env (sample_bitmap 16 8)) sample_cosf 3 sample_alpha
        jpeg_zig_zag_order "in.bmp" (fun _ => 16) (some "gray.bmp") "out.dct").output_file
        = some bytes ∧
      bytes.length = 8 + 64 * 2 * 1 := by
  have hst : (compress (sample_compress_env (sample_bitmap 16 8)) sample_cosf 3 sample_alpha
      jpeg_zig_zag_order "in.bmp" (fun _ => 16) (some "gray.bmp") "out.dct").status = 0 := by
    decide
  refine ⟨⟨jpeg_zig_zag_order_is_permutation, rfl, rfl, rfl, by decide, by decide, hst⟩, ?_⟩
  obtain ⟨bytes, h1, h2, _⟩ := C5_container_layout (sample_compress_env (sample_bitmap 16 8))
    (sample_decompress_env []) sample_cosf 3 sample_alpha jpeg_zig_zag_order
    jpeg_zig_zag_order_is_permutation "in.bmp" (fun _ => 16) (some "gray.bmp") "out.dct"
    "out.bmp" (sample_bitmap 16 8) 2 1 rfl rfl rfl (by decide) (by decide) hst
  exact ⟨bytes, h1, h2⟩

/-- C6: on the well-formed container with header `blocks_x = 1`, `blocks_y = 1` and one
all-zero record, `decompress` reads all 72 bytes, hands the image to `bitmapWritePixels`,
and returns `-1`, not the `0` that `compress` returns on success. -/
theorem C6_decompress_returns_failure_on_valid_container :
    (decompress (sample_decompress_env ([1, 0, 0, 0, 1, 0, 0, 0] ++ List.replicate 64 0))
      sample_cosf 3 sample_alpha jpeg_zig_zag_order "in.dct" (fun _ => 16) "out.bmp").status
      = -1 ∧
    (decompress (sample_decompress_env ([1, 0, 0, 0, 1, 0, 0, 0] ++ List.replicate 64 0))
      sample_cosf 3 sample_alpha jpeg_zig_zag_order "in.dct" (fun _ => 16) "out.bmp").consumed
      = 72 ∧
    (decompress (sample_decompress_env ([1, 0, 0, 0, 1, 0, 0, 0] ++ List.replicate 64 0))
      sample_cosf 3 sample_alpha jpeg_zig_zag_order "in.dct" (fun _ => 16)
      "out.bmp").image.isSome = true := by
  have hx : container_blocks_x ([1, 0, 0, 0, 1, 0, 0, 0] ++ List.replicate 64 0) = 1 := by
    decide
  have hy : container_blocks_y ([1, 0, 0, 0, 1, 0, 0, 0] ++ List.replicate 64 0) = 1 := by
    decide
  rw [decompress_ok (sample_decompress_env ([1, 0, 0, 0, 1, 0, 0, 0] ++ List.replicate 64 0))
    sample_cosf 3 sample_alpha jpeg_zig_zag_order "in.dct" (fun _ => 16) "out.bmp"
    ([1, 0, 0, 0, 1, 0, 0, 0] ++ List.replicate 64 0) rfl
    (is_permutation_lt jpeg_zig_zag_order_is_permutation) (by rw [hx, hy]; decide)]
  rw [hx, hy]
  exact ⟨rfl, rfl, rfl⟩

/-- C7 as stated fails, in two ways.  The 8-byte container whose header declares
`blocks_x = -1` and `blocks_y = -1` is shorter than `8 + 64 * blocks_x * blocks_y = 72`
bytes, yet no block is read and `decompress` goes on to call `bitmapWritePixels`.  The
72-byte container whose header declares `blocks_x = 16384` and `blocks_y = 16384` holds one
record of the `16384 * 16384` announced: the size handed to `malloc` is `0` (the `int`
expression `(blocks_x*8 * blocks_y*8)*3` has the exact value `3 * 2^34`), and the block of
the one complete record is stored outside the buffer before the read that fails. -/
theorem C7_truncated_container_counterexample :
    (container_blocks_x (List.replicate 8 255) = -1 ∧
      container_blocks_y (List.replicate 8 255) = -1 ∧
      (((List.replicate 8 255).length : Int)
        < 8 + 64 * container_blocks_x (List.replicate 8 255)
            * container_blocks_y (List.replicate 8 255)) ∧
      (decompress (sample_decompress_env (List.replicate 8 255))
        sample_cosf 3 sample_alpha jpeg_zig_zag_order "in.dct" (fun _ => 16)
        "out.bmp").image.isSome = true) ∧
    (container_blocks_x ([0, 64, 0, 0, 0, 64, 0, 0] ++ List.replicate 64 0) = 16384 ∧
      container_blocks_y ([0, 64, 0, 0, 0, 64, 0, 0] ++ List.replicate 64 0) = 16384 ∧
      ((([0, 64, 0, 0, 0, 64, 0, 0] ++ List.replicate 64 0).length : Int)
        < 8 + 64 * container_blocks_x ([0, 64, 0, 0, 0, 64, 0, 0] ++ List.replicate 64 0)
            * container_blocks_y ([0, 64, 0, 0, 0, 64, 0, 0] ++ List.replicate 64 0)) ∧
      malloc_size 16384 16384 = 0 ∧
      (decompress (sample_decompress_env ([0, 64, 0, 0, 0, 64, 0, 0] ++ List.replicate 64 0))
        sample_cosf 3 sample_alpha jpeg_zig_zag_order "in.dct" (fun _ => 16)
        "out.bmp").fault = true) := by
  constructor
  · have hx : container_blocks_x (List.replicate 8 255) = -1 := by decide
    have hy : container_blocks_y (List.replicate 8 255) = -1 := by decide
    refine ⟨hx, hy, by rw [hx, hy]; decide, ?_⟩
    rw [decompress_ok (sample_decompress_env (List.replicate 8 255))
      sample_cosf 3 sample_alpha jpeg_zig_zag_order "in.dct" (fun _ => 16) "out.bmp"
      (List.replicate 8 255) rfl
      (is_permutation_lt jpeg_zig_zag_order_is_permutation) (by rw [hx, hy]; decide)]
    rfl
  · have hx : container_blocks_x ([0, 64, 0, 0, 0, 64, 0, 0] ++ List.replicate 64 0)
        = 16384 := by decide
    have hy : container_blocks_y ([0, 64, 0, 0, 0, 64, 0, 0] ++ List.replicate 64 0)
        = 16384 := by decide
    refine ⟨hx, hy, by rw [hx, hy]; decide, by decide, ?_⟩
    rw [decompress_truncated_fault
      (sample_decompress_env ([0, 64, 0, 0, 0, 64, 0, 0] ++ List.replicate 64 0))
      sample_cosf 3 sample_alpha jpeg_zig_zag_order "in.dct" (fun _ => 16) "out.bmp"
      ([0, 64, 0, 0, 0, 64, 0, 0] ++ List.replicate 64 0) rfl
      (by rw [hx, hy]; decide), hx, hy]
    decide

/-- C7, amended: for every container that is shorter than the 8-byte header, or whose header
declares `blocks_x` and `blocks_y` that are not both negative, with a plane whose size in
bytes `(blocks_x*8 * blocks_y*8)*3` is below `2^31` and for which `malloc` succeeds, and
whose length is less than `8 + 64 * blocks_x * blocks_y`, `decompress` returns `-1`, consumes
no more bytes than the container has, does not call `bitmapWritePixels`, and stores nothing
outside the pixel buffer. -/
theorem C7_truncated_container {R : Type} [LinearOrderedField R] [FloorRing R]
    (env : decompress_env R) (cosf : R → R) (M_PI : R) (alpha : Nat → R) (zz : Nat → Nat)
    (file_path : String) (quant_matrix : Nat → Int) (output_path : String)
    (bytes : List Nat) (hopen : env.fopen file_path = some bytes)
    (hshort : bytes.length < 8 ∨
      (¬ (container_blocks_x bytes < 0 ∧ container_blocks_y bytes < 0) ∧
        (container_blocks_x bytes * 8 * container_blocks_y bytes * 8) * 3 < 2147483648 ∧
        env.malloc_null (malloc_size (container_blocks_x bytes) (container_blocks_y bytes))
          = false ∧
        (bytes.length : Int) < 8 + 64 * container_blocks_x bytes * container_blocks_y bytes)) :
    (decompress env cosf M_PI alpha zz file_path quant_matrix output_path).status = -1 ∧
    (decompress env cosf M_PI alpha zz file_path quant_matrix output_path).consumed
      ≤ bytes.length ∧
    (decompress env cosf M_PI alpha zz file_path quant_matrix output_path).image = none ∧
    (decompress env cosf M_PI alpha zz file_path quant_matrix output_path).fault = false := by
  by_cases h8 : bytes.length < 8
  · obtain ⟨h1, h2, h3⟩ := decompress_truncated env cosf M_PI alpha zz file_path quant_matrix
      output_path bytes hopen (Or.inr h8)
    refine ⟨h1, h2, h3, ?_⟩
    rw [decompress_truncated_fault env cosf M_PI alpha zz file_path quant_matrix output_path
      bytes hopen (Or.inr h8)]
    have e : (bytes.length - 8) / 64 = 0 := by omega
    rw [e, decoded_fault]
  · rcases hshort with h | ⟨hsign, hsize, hmalloc, h⟩
    · exact absurd h h8
    · have hprod : 0 < container_blocks_x bytes * container_blocks_y bytes := by
        have h8' : (8 : Int) ≤ (bytes.length : Int) := by omega
        have h64 : (0 : Int) < 64 * (container_blocks_x bytes * container_blocks_y bytes) := by
          linarith
        linarith
      have hpos : 0 < container_blocks_x bytes ∧ 0 < container_blocks_y bytes := by
        rcases pos_and_pos_or_neg_and_neg_of_mul_pos hprod with hp | hn
        · exact hp
        · exact absurd hn hsign
      have ex : ((container_blocks_x bytes).toNat : Int) = container_blocks_x bytes :=
        Int.toNat_of_nonneg hpos.1.le
      have ey : ((container_blocks_y bytes).toNat : Int) = container_blocks_y bytes :=
        Int.toNat_of_nonneg hpos.2.le
      have e : (((container_blocks_x bytes).toNat * (container_blocks_y bytes).toNat : Nat)
          : Int) = container_blocks_x bytes * container_blocks_y bytes := by
        push_cast
        rw [ex, ey]
      have h' : (bytes.length : Int)
          < 8 + 64 * (((container_blocks_x bytes).toNat * (container_blocks_y bytes).toNat
              : Nat) : Int) := by
        rw [e]
        linarith
      have hlen : bytes.length
          < 8 + 64 * ((container_blocks_x bytes).toNat * (container_blocks_y bytes).toNat) := by
        exact_mod_cast h'
      obtain ⟨h1, h2, h3⟩ := decompress_truncated env cosf M_PI alpha zz file_path
        quant_matrix output_path bytes hopen (Or.inl hlen)
      refine ⟨h1, h2, h3, ?_⟩
      exact decompress_truncated_no_fault env cosf M_PI alpha zz file_path quant_matrix
        output_path bytes (container_blocks_x bytes).toNat (container_blocks_y bytes).toNat
        hopen ex.symm ey.symm (by rw [ex, ey]; exact hsize) (by rw [ex, ey]; exact hmalloc)
        hlen

/-- C7, amended, at the container with header `blocks_x = 2`, `blocks_y = 1` and only 70 of
the 128 record bytes. -/
theorem C7_truncated_container_witness :
    ((sample_decompress_env ([2, 0, 0, 0, 1, 0, 0, 0] ++ List.replicate 70 0) :
          decompress_env ℚ).fopen "in.dct"
        = some ([2, 0, 0, 0, 1, 0, 0, 0] ++ List.replicate 70 0) ∧
      (([2, 0, 0, 0, 1, 0, 0, 0] ++ List.replicate 70 0).length < 8 ∨
        (¬ (container_blocks_x ([2, 0, 0, 0, 1, 0, 0, 0] ++ List.replicate 70 0) < 0 ∧
            container_blocks_y ([2, 0, 0, 0, 1, 0, 0, 0] ++ List.replicate 70 0) < 0) ∧
         (container_blocks_x ([2, 0, 0, 0, 1, 0, 0, 0] ++ List.replicate 70 0) * 8
            * container_blocks_y ([2, 0, 0, 0, 1, 0, 0, 0] ++ List.replicate 70 0) * 8) * 3
           < 2147483648 ∧
         (sample_decompress_env ([2, 0, 0, 0, 1, 0, 0, 0] ++ List.replicate 70 0) :
            decompress_env ℚ).malloc_null
           (malloc_size (container_blocks_x ([2, 0, 0, 0, 1, 0, 0, 0] ++ List.replicate 70 0))
             (container_blocks_y ([2, 0, 0, 0, 1, 0, 0, 0] ++ List.replicate 70 0)))
           = false ∧
         ((([2, 0, 0, 0, 1, 0, 0, 0] ++ List.replicate 70 0).length : Nat) : Int)
           < 8 + 64 * container_blocks_x ([2, 0, 0, 0, 1, 0, 0, 0] ++ List.replicate 70 0)
               * container_blocks_y ([2, 0, 0, 0, 1, 0, 0, 0] ++ List.replicate 70 0)))) ∧
    ((decompress (sample_decompress_env ([2, 0, 0, 0, 1, 0, 0, 0] ++ List.replicate 70 0))
        sample_cosf 3 sample_alpha jpeg_zig_zag_order "in.dct" (fun _ => 16)
        "out.bmp").status = -1 ∧
     (decompress (sample_decompress_env ([2, 0, 0, 0, 1, 0, 0, 0] ++ List.replicate 70 0))
        sample_cosf 3 sample_alpha jpeg_zig_zag_order "in.dct" (fun _ => 16)
        "out.bmp").consumed ≤ ([2, 0, 0, 0, 1, 0, 0, 0] ++ List.replicate 70 0).length ∧
     (decompress (sample_decompress_env ([2, 0, 0, 0, 1, 0, 0, 0] ++ List.replicate 70 0))
        sample_cosf 3 sample_alpha jpeg_zig_zag_order "in.dct" (fun _ => 16)
        "out.bmp").image = none ∧
     (decompress (sample_decompress_env ([2, 0, 0, 0, 1, 0, 0, 0] ++ List.replicate 70 0))
        sample_cosf 3 sample_alpha jpeg_zig_zag_order "in.dct" (fun _ => 16)
        "out.bmp").fault = false) :=
  ⟨⟨rfl, Or.inr ⟨by decide, by decide, rfl, by decide⟩⟩,
   C7_truncated_container (sample_decompress_env ([2, 0, 0, 0, 1, 0, 0, 0] ++ List.replicate 70 0))
     sample_cosf 3 sample_alpha jpeg_zig_zag_order "in.dct" (fun _ => 16) "out.bmp"
     ([2, 0, 0, 0, 1, 0, 0, 0] ++ List.replicate 70 0) rfl
     (Or.inr ⟨by decide, by decide, rfl, by decide⟩)⟩

/-- C8: when the decoded source image has a width or a height that is not a multiple of 8,
`compress` returns `-1` without handing any block to `read_block`, without creating the
destination file and without calling `bitmapWritePixels` for the grayscale dump. -/
theorem C8_compress_rejects_bad_dimensions {R : Type} [LinearOrderedField R] [FloorRing R]
    (env : compress_env R) (cosf : R → R) (M_PI : R) (alpha : Nat → R) (zz : Nat → Nat)
    (file_path : String) (quant_matrix : Nat → Int) (grayscale_path : Option String)
    (output_path : String) (bmp : bitmap_read_t)
    (hread : env.bitmapReadPixels file_path = some bmp)
    (hdim : ¬ (8 ∣ bmp.width_px) ∨ ¬ (8 ∣ bmp.height_px)) :
    compress env cosf M_PI alpha zz file_path quant_matrix grayscale_path output_path
      = { status := -1, grayscale_dump := none, output_file := none, blocks := [] } := by
  have hmod : (Int.tmod bmp.width_px 8 ≠ 0) ∨ (Int.tmod bmp.height_px 8 ≠ 0) := by
    rcases hdim with h | h
    · exact Or.inl (fun h0 => h (Int.dvd_of_tmod_eq_zero h0))
    · exact Or.inr (fun h0 => h (Int.dvd_of_tmod_eq_zero h0))
  have hgray : create_grayscale_bitmap env file_path grayscale_path
      = { pixels := none, dump := none } := by
    unfold create_grayscale_bitmap
    rw [hread]
    simp only []
    rw [if_pos hmod]
  unfold compress
  rw [hgray]

/-- C8 at a 10×8 image. -/
theorem C8_compress_rejects_bad_dimensions_witness :
    ((sample_compress_env (sample_bitmap 10 8) : compress_env ℚ).bitmapReadPixels "in.bmp"
        = some (sample_bitmap 10 8) ∧
      (¬ (8 ∣ (sample_bitmap 10 8).width_px) ∨ ¬ (8 ∣ (sample_bitmap 10 8).height_px))) ∧
    compress (sample_compress_env (sample_bitmap 10 8)) sample_cosf 3 sample_alpha
        jpeg_zig_zag_order "in.bmp" (fun _ => 16) (some "gray.bmp") "out.dct"
      = { status := -1, grayscale_dump := none, output_file := none, blocks := [] } :=
  ⟨⟨rfl, Or.inl (by decide)⟩,
   C8_compress_rejects_bad_dimensions (sample_compress_env (sample_bitmap 10 8)) sample_cosf 3
     sample_alpha jpeg_zig_zag_order "in.bmp" (fun _ => 16) (some "gray.bmp") "out.dct"
     (sample_bitmap 10 8) rfl (Or.inl (by decide))⟩

/-- C9: for every quantization matrix (and every `alpha`, with the index matrix a
permutation), the container with header `blocks_x = 2`, `blocks_y = 1` and two all-zero
records decompresses to a 16×8 plane whose 128 pixels all have `r = g = b = 128`; and in any
container that holds all its records, with `blocks_x, blocks_y ≥ 1`, a block whose record is
all zeros is reconstructed as 64 pixels with `r = g = b = 128`. -/
theorem C9_zero_records_decode_to_128 {R : Type} [LinearOrderedField R] [FloorRing R]
    (env : decompress_env R) (cosf : R → R) (M_PI : R) (alpha : Nat → R) (zz : Nat → Nat)
    (hzz : is_permutation zz) (file_path : String) (quant_matrix : Nat → Int)
    (output_path : String) :
    (env.fopen file_path = some (int32_bytes 2 ++ int32_bytes 1 ++ List.replicate 128 0) →
      ∃ img, (decompress env cosf M_PI alpha zz file_path quant_matrix output_path).image
          = some img ∧
        img.params.widthPx = 16 ∧ img.params.heightPx = 8 ∧
        ∀ o < 128, img.pixels o = { r := 128, g := 128, b := 128 }) ∧
    (∀ bytes : List Nat, env.fopen file_path = some bytes →
      1 ≤ container_blocks_x bytes → 1 ≤ container_blocks_y bytes →
      8 + 64 * ((container_blocks_x bytes).toNat * (container_blocks_y bytes).toNat)
        ≤ bytes.length →
      ∀ k < (container_blocks_x bytes).toNat * (container_blocks_y bytes).toNat,
      (∀ j < 64, bytes.getD (8 + 64 * k + j) 0 = 0) →
      ∃ img, (decompress env cosf M_PI alpha zz file_path quant_matrix output_path).image
          = some img ∧
        ∀ curr_x < 8, ∀ curr_y < 8,
          img.pixels (pixel_offset (container_blocks_x bytes).toNat
              (k % (container_blocks_x bytes).toNat) (k / (container_blocks_x bytes).toNat)
              curr_x curr_y)
            = { r := 128, g := 128, b := 128 }) := by
  have general : ∀ bytes : List Nat, env.fopen file_path = some bytes →
      1 ≤ container_blocks_x bytes → 1 ≤ container_blocks_y bytes →
      8 + 64 * ((container_blocks_x bytes).toNat * (container_blocks_y bytes).toNat)
        ≤ bytes.length →
      ∀ k < (container_blocks_x bytes).toNat * (container_blocks_y bytes).toNat,
      (∀ j < 64, bytes.getD (8 + 64 * k + j) 0 = 0) →
      ∃ img, (decompress env cosf M_PI alpha zz file_path quant_matrix output_path).image
          = some img ∧
        img.params.widthPx = container_blocks_x bytes * 8 ∧
        img.params.heightPx = container_blocks_y bytes * 8 ∧
        ∀ curr_x < 8, ∀ curr_y < 8,
          img.pixels (pixel_offset (container_blocks_x bytes).toNat
              (k % (container_blocks_x bytes).toNat) (k / (container_blocks_x bytes).toNat)
              curr_x curr_y)
            = { r := 128, g := 128, b := 128 } := by
    intro bytes hopen hx hy hlen k hk hzero
    rw [decompress_ok env cosf M_PI alpha zz file_path quant_matrix output_path bytes hopen
      (is_permutation_lt hzz) hlen]
    refine ⟨_, rfl, rfl, rfl, ?_⟩
    intro curr_x hcx curr_y hcy
    simp only []
    rw [decoded_pixels_at env cosf M_PI alpha zz quant_matrix bytes _ env.malloc _ k hk
      (by omega) curr_x curr_y hcx hcy]
    have hrec : ∀ j < 64, container_record bytes k j = 0 := by
      intro j hj
      unfold container_record
      rw [hzero j hj]
      decide
    rw [original_block_zero env cosf M_PI alpha zz quant_matrix (is_permutation_lt hzz)
      (container_record bytes k) hrec (8 * curr_y + curr_x) (by omega),
      clamped_component_zero]
  constructor
  · intro hopen
    have hx : container_blocks_x (int32_bytes 2 ++ int32_bytes 1 ++ List.replicate 128 0)
        = 2 := by decide
    have hy : container_blocks_y (int32_bytes 2 ++ int32_bytes 1 ++ List.replicate 128 0)
        = 1 := by decide
    have hz : ∀ k < 2, ∀ j < 64,
        (int32_bytes 2 ++ int32_bytes 1 ++ List.replicate 128 0).getD (8 + 64 * k + j) 0
          = 0 := by decide
    have hl : 8 + 64 * ((2 : Int).toNat * (1 : Int).toNat)
        ≤ (int32_bytes 2 ++ int32_bytes 1 ++ List.replicate 128 0).length := by
      simp [int32_bytes]
    have hx1 : (1 : Int) ≤ 2 := by decide
    have h0 := general _ hopen (by rw [hx]; exact hx1) (by rw [hy])
      (by rw [hx, hy]; exact hl) 0 (by rw [hx, hy]; decide) (hz 0 (by decide))
    have h1 := general _ hopen (by rw [hx]; exact hx1) (by rw [hy])
      (by rw [hx, hy]; exact hl) 1 (by rw [hx, hy]; decide) (hz 1 (by decide))
    obtain ⟨img, himg, hw, hh, hp0⟩ := h0
    obtain ⟨img', himg', _, _, hp1⟩ := h1
    rw [himg] at himg'
    cases himg'
    rw [hx] at hw hp0 hp1
    rw [hy] at hh
    refine ⟨img, himg, by rw [hw]; decide, by rw [hh]; decide, ?_⟩
    intro o ho
    by_cases hlo : o % 16 < 8
    · have := hp0 (o % 8) (Nat.mod_lt _ (by decide)) (o / 16) (by omega)
      have e : pixel_offset (Int.toNat 2) (0 % Int.toNat 2) (0 / Int.toNat 2) (o % 8) (o / 16)
          = o := by
        unfold pixel_offset
        simp
        omega
      rw [e] at this
      exact this
    · have := hp1 (o % 8) (Nat.mod_lt _ (by decide)) (o / 16) (by omega)
      have e : pixel_offset (Int.toNat 2) (1 % Int.toNat 2) (1 / Int.toNat 2) (o % 8) (o / 16)
          = o := by
        unfold pixel_offset
        simp
        omega
      rw [e] at this
      exact this
  · intro bytes hopen hx hy hlen k hk hzero
    obtain ⟨img, himg, _, _, hp⟩ := general bytes hopen hx hy hlen k hk hzero
    exact ⟨img, himg, hp⟩

/-- C9 at the JPEG zigzag order, the divisors `16` and the container with header
`blocks_x = 2`, `blocks_y = 1` and two all-zero records. -/
theorem C9_zero_records_decode_to_128_witness :
    is_permutation jpeg_zig_zag_order ∧
    ∃ img, (decompress
        (sample_decompress_env (int32_bytes 2 ++ int32_bytes 1 ++ List.replicate 128 0))
        sample_cosf 3 sample_alpha jpeg_zig_zag_order "in.dct" (fun _ => 16)
        "out.bmp").image = some img ∧
      img.params.widthPx = 16 ∧ img.params.heightPx = 8 ∧
      ∀ o < 128, img.pixels o = { r := 128, g := 128, b := 128 } :=
  ⟨jpeg_zig_zag_order_is_permutation,
   (C9_zero_records_decode_to_128
     (sample_decompress_env (int32_bytes 2 ++ int32_bytes 1 ++ List.replicate 128 0))
     sample_cosf 3 sample_alpha jpeg_zig_zag_order jpeg_zig_zag_order_is_permutation "in.dct"
     (fun _ => 16) "out.bmp").1 rfl⟩

/-- C10: with `alpha 0 = 1/√8` and `alpha k = √(2/8)` for `k` in `1..7`, over the reals: for
a block whose 64 pixels have value 200, `read_block` gives 64 samples `72` and `perform_dct`
gives `576` in cell `(0,0)` and `0` in the 63 others; and for every block that is constant
`c`, `perform_dct` gives `8 * c` in cell `(0,0)` and `0` in the others. -/
theorem C10_dct_of_constant_block (alpha : ℕ → ℝ) (ha0 : alpha 0 = 1 / Real.sqrt 8)
    (hak : ∀ k, 1 ≤ k → k ≤ 7 → alpha k = Real.sqrt (2 / 8)) :
    (∀ (pixels : Nat → bitmap_pixel_hsv_t) (index_x index_y blocks_x : Nat)
        (block out : ℕ → ℝ),
      (∀ curr_x < 8, ∀ curr_y < 8,
        (pixels (pixel_offset blocks_x index_x index_y curr_x curr_y)).v = 200) →
      (∀ i < 64, read_block pixels index_x index_y blocks_x block i = 72) ∧
      perform_dct Real.cos Real.pi alpha
        (read_block pixels index_x index_y blocks_x block) out 0 = 576 ∧
      ∀ i, 0 < i → i < 64 → perform_dct Real.cos Real.pi alpha
        (read_block pixels index_x index_y blocks_x block) out i = 0) ∧
    (∀ (c : ℝ) (b out : ℕ → ℝ), (∀ i < 64, b i = c) →
      perform_dct Real.cos Real.pi alpha b out 0 = 8 * c ∧
      ∀ i, 0 < i → i < 64 → perform_dct Real.cos Real.pi alpha b out i = 0) := by
  have general : ∀ (c : ℝ) (b out : ℕ → ℝ), (∀ i < 64, b i = c) →
      perform_dct Real.cos Real.pi alpha b out 0 = 8 * c ∧
      ∀ i, 0 < i → i < 64 → perform_dct Real.cos Real.pi alpha b out i = 0 := by
    intro c b out hb
    constructor
    · rw [perform_dct_constant alpha ha0 hak c b out hb 0 (by norm_num), if_pos rfl]
    · intro i h0 hi
      rw [perform_dct_constant alpha ha0 hak c b out hb i hi, if_neg (by omega)]
  refine ⟨?_, general⟩
  intro pixels index_x index_y blocks_x block out hv
  have hb : ∀ i < 64, read_block pixels index_x index_y blocks_x block i = (72 : ℝ) := by
    intro i hi
    rw [read_block_apply, if_pos hi, hv (i % 8) (Nat.mod_lt _ (by norm_num)) (i / 8) (by omega)]
    norm_num
  obtain ⟨h1, h2⟩ := general 72 _ out hb
  refine ⟨hb, ?_, h2⟩
  rw [h1]
  norm_num

/-- C10 at the spec's `alpha` and the constant block `72`. -/
theorem C10_dct_of_constant_block_witness :
    (alpha Real.sqrt 0 = 1 / Real.sqrt 8 ∧
      (∀ k, 1 ≤ k → k ≤ 7 → alpha Real.sqrt k = Real.sqrt (2 / 8))) ∧
    (perform_dct Real.cos Real.pi (alpha Real.sqrt) (fun _ => (72 : ℝ)) (fun _ => 0) 0
        = 8 * 72 ∧
     ∀ i, 0 < i → i < 64 →
       perform_dct Real.cos Real.pi (alpha Real.sqrt) (fun _ => (72 : ℝ)) (fun _ => 0) i
         = 0) :=
  ⟨⟨alpha_zero, alpha_pos⟩,
   (C10_dct_of_constant_block (alpha Real.sqrt) alpha_zero alpha_pos).2 72 (fun _ => 72)
     (fun _ => 0) (fun _ _ => rfl)⟩

/-- C11 as stated fails: with all divisors `1` the block of value 200 is reconstructed as
pixels of value `136` (the DC quotient `576` does not fit the `int8_t` and is stored as
`64`), which is `64` away from `200`, more than `1/16 + 1/2`, although `1` divides `576`. -/
theorem C11_uniform_200_counterexample :
    write_block (fun _ => ({ r := 0, g := 0, b := 0 } : bitmap_pixel_rgb_t)) 0 0 1
        (original_block (sample_decompress_env []) Real.cos Real.pi (alpha Real.sqrt)
          jpeg_zig_zag_order (fun _ => 1)
          (compress_block (sample_compress_env (sample_bitmap 8 8)) Real.cos Real.pi
            (alpha Real.sqrt) jpeg_zig_zag_order (fun _ => 1) (sample_bitmap 8 8).pixels 1 0 0))
        (pixel_offset 1 0 0 0 0)
      = { r := 136, g := 136, b := 136 } ∧
    ¬ |((136 : Nat) : ℝ) - 200| ≤ (((fun _ => 1 : Nat → Int) 0 : Int) : ℝ) / 16 + 1 / 2 := by
  constructor
  · rw [uniform_200_pixel _ _ (alpha Real.sqrt) alpha_zero alpha_pos jpeg_zig_zag_order
      jpeg_zig_zag_order_is_permutation (fun _ => 1) _ _ 1 0 0 (by decide)
      (fun _ _ _ _ => rfl) 0 0 (by decide) (by decide)]
    have e1 : (576 : ℝ) / ((1 : Int) : ℝ) = ((576 : Int) : ℝ) := by norm_num
    have e2 : int8_cast 576 = 64 := by decide
    have e3 : ((int_cast (64 * 1) : Int) : ℝ) / 8 = ((8 : Int) : ℝ) := by
      have e5 : int_cast (64 * 1) = 64 := by decide
      rw [e5]
      norm_num
    have e4 : (max (min 255 ((8 : Int) + 128)) 0).toNat = 136 := by decide
    rw [e1, roundf_intCast, e2, e3, clamped_component_intCast, e4]
  · norm_num

/-- C11, amended: for every quantization matrix of positive divisors whose DC divisor `d0`
is at least 5 (so that the rounded DC quotient fits a signed 8-bit value), the block of value
200 passed through `read_block`, `perform_dct`, `quantize`, `zig_zag`, `un_zig_zag`,
`dequantize`, `perform_inverse_dct` and `write_block` is reconstructed, at all 64 pixels, as
a gray pixel within `d0 / 16 + 1/2` of `200`, and as exactly `200` when `d0` divides `576`. -/
theorem C11_uniform_200_round_trip (env : compress_env ℝ) (denv : decompress_env ℝ)
    (alpha : ℕ → ℝ) (ha0 : alpha 0 = 1 / Real.sqrt 8)
    (hak : ∀ k, 1 ≤ k → k ≤ 7 → alpha k = Real.sqrt (2 / 8)) (zz : Nat → Nat)
    (hzz : is_permutation zz) (quant_matrix : Nat → Int)
    (hq : ∀ i < 64, 0 < quant_matrix i) (hd0 : 5 ≤ quant_matrix 0)
    (hsv_pixels : Nat → bitmap_pixel_hsv_t) (rgb_pixels : Nat → bitmap_pixel_rgb_t)
    (blocks_x index_x index_y : Nat) (hx : index_x < blocks_x)
    (hv : ∀ curr_x < 8, ∀ curr_y < 8,
      (hsv_pixels (pixel_offset blocks_x index_x index_y curr_x curr_y)).v = 200) :
    ∀ curr_x < 8, ∀ curr_y < 8,
      (write_block rgb_pixels index_x index_y blocks_x
          (original_block denv Real.cos Real.pi alpha zz quant_matrix
            (compress_block env Real.cos Real.pi alpha zz quant_matrix hsv_pixels blocks_x
              index_x index_y))
          (pixel_offset blocks_x index_x index_y curr_x curr_y)).g
        = (write_block rgb_pixels index_x index_y blocks_x
          (original_block denv Real.cos Real.pi alpha zz quant_matrix
            (compress_block env Real.cos Real.pi alpha zz quant_matrix hsv_pixels blocks_x
              index_x index_y))
          (pixel_offset blocks_x index_x index_y curr_x curr_y)).r ∧
      (write_block rgb_pixels index_x index_y blocks_x
          (original_block denv Real.cos Real.pi alpha zz quant_matrix
            (compress_block env Real.cos Real.pi alpha zz quant_matrix hsv_pixels blocks_x
              index_x index_y))
          (pixel_offset blocks_x index_x index_y curr_x curr_y)).b
        = (write_block rgb_pixels index_x index_y blocks_x
          (original_block denv Real.cos Real.pi alpha zz quant_matrix
            (compress_block env Real.cos Real.pi alpha zz quant_matrix hsv_pixels blocks_x
              index_x index_y))
          (pixel_offset blocks_x index_x index_y curr_x curr_y)).r ∧
      |(((write_block rgb_pixels index_x index_y blocks_x
          (original_block denv Real.cos Real.pi alpha zz quant_matrix
            (compress_block env Real.cos Real.pi alpha zz quant_matrix hsv_pixels blocks_x
              index_x index_y))
          (pixel_offset blocks_x index_x index_y curr_x curr_y)).r : Nat) : ℝ) - 200|
        ≤ (quant_matrix 0 : ℝ) / 16 + 1 / 2 ∧
      (quant_matrix 0 ∣ 576 →
        (write_block rgb_pixels index_x index_y blocks_x
          (original_block denv Real.cos Real.pi alpha zz quant_matrix
            (compress_block env Real.cos Real.pi alpha zz quant_matrix hsv_pixels blocks_x
              index_x index_y))
          (pixel_offset blocks_x index_x index_y curr_x curr_y)).r = 200) := by
  intro curr_x hcx curr_y hcy
  have _hq0 := hq 0 (by norm_num)
  rw [uniform_200_pixel env denv alpha ha0 hak zz hzz quant_matrix hsv_pixels rgb_pixels
    blocks_x index_x index_y hx hv curr_x curr_y hcx hcy]
  obtain ⟨h1, h2⟩ := uniform_200_component (quant_matrix 0) hd0
  exact ⟨rfl, rfl, h1, h2⟩

/-- C11, amended, at the spec's `alpha`, the JPEG zigzag order and the divisors `16`. -/
theorem C11_uniform_200_round_trip_witness :
    (is_permutation jpeg_zig_zag_order ∧
      (∀ i < 64, (0 : Int) < (fun _ => 16 : Nat → Int) i) ∧
      (5 : Int) ≤ (fun _ => 16 : Nat → Int) 0 ∧ 0 < 1 ∧
      (∀ curr_x < 8, ∀ curr_y < 8,
        ((sample_bitmap 8 8).pixels (pixel_offset 1 0 0 curr_x curr_y)).v = 200)) ∧
    (write_block (fun _ => ({ r := 0, g := 0, b := 0 } : bitmap_pixel_rgb_t)) 0 0 1
        (original_block (sample_decompress_env []) Real.cos Real.pi (alpha Real.sqrt)
          jpeg_zig_zag_order (fun _ => 16)
          (compress_block (sample_compress_env (sample_bitmap 8 8)) Real.cos Real.pi
            (alpha Real.sqrt) jpeg_zig_zag_order (fun _ => 16) (sample_bitmap 8 8).pixels
            1 0 0))
        (pixel_offset 1 0 0 3 5)).r = 200 := by
  have hq : ∀ i < 64, (0 : Int) < (fun _ => 16 : Nat → Int) i := fun _ _ => by norm_num
  have hd : (5 : Int) ≤ (fun _ => 16 : Nat → Int) 0 := by norm_num
  have hv : ∀ curr_x < 8, ∀ curr_y < 8,
      ((sample_bitmap 8 8).pixels (pixel_offset 1 0 0 curr_x curr_y)).v = 200 :=
    fun _ _ _ _ => rfl
  exact ⟨⟨jpeg_zig_zag_order_is_permutation, hq, hd, by decide, hv⟩,
    (C11_uniform_200_round_trip (sample_compress_env (sample_bitmap 8 8))
      (sample_decompress_env []) (alpha Real.sqrt) alpha_zero alpha_pos jpeg_zig_zag_order
      jpeg_zig_zag_order_is_permutation (fun _ => 16) hq hd (sample_bitmap 8 8).pixels
      (fun _ => { r := 0, g := 0, b := 0 }) 1 0 0 (by decide) hv 3 (by decide) 5
      (by decide)).2.2.2 (by norm_num)⟩

/-- C12: when `create_grayscale_bitmap` succeeds on a decoded image (whose width and height
are then multiples of 8), the buffer it returns has `s = 0` at each of the `width * height`
pixels with `v` and `h` as decoded, the cells beyond are untouched, and the block counts it
reports are `width / 8` and `height / 8`. -/
theorem C12_create_grayscale_bitmap {R : Type} (env : compress_env R) (input_path : String)
    (output_path : Option String) (bmp : bitmap_read_t)
    (hread : env.bitmapReadPixels input_path = some bmp)
    (pixels : Nat → bitmap_pixel_hsv_t) (blocks_x blocks_y : Int)
    (hok : (create_grayscale_bitmap env input_path output_path).pixels
      = some (pixels, blocks_x, blocks_y)) :
    (8 ∣ bmp.width_px ∧ 8 ∣ bmp.height_px) ∧
    (∀ i, i < (bmp.width_px * bmp.height_px).toNat →
      (pixels i).s = 0 ∧ (pixels i).v = (bmp.pixels i).v ∧ (pixels i).h = (bmp.pixels i).h) ∧
    (∀ i, (bmp.width_px * bmp.height_px).toNat ≤ i → pixels i = bmp.pixels i) ∧
    (blocks_x = Int.tdiv bmp.width_px 8 ∧ 8 * blocks_x = bmp.width_px) ∧
    (blocks_y = Int.tdiv bmp.height_px 8 ∧ 8 * blocks_y = bmp.height_px) := by
  obtain ⟨hw, hh, hpx, hbx, hby⟩ := create_grayscale_bitmap_success env input_path
    output_path bmp hread pixels blocks_x blocks_y hok
  refine ⟨⟨Int.dvd_of_tmod_eq_zero hw, Int.dvd_of_tmod_eq_zero hh⟩, ?_, ?_,
    ⟨hbx, by rw [hbx]; exact Int.mul_tdiv_cancel_of_tmod_eq_zero hw⟩,
    ⟨hby, by rw [hby]; exact Int.mul_tdiv_cancel_of_tmod_eq_zero hh⟩⟩
  · intro i hi
    rw [hpx, convert_to_grayscale_apply, if_pos hi]
    exact ⟨rfl, rfl, rfl⟩
  · intro i hi
    rw [hpx, convert_to_grayscale_apply, if_neg (by omega)]

/-- C12 at a 16×8 image whose pixels are `h = 0`, `s = 0`, `v = 200`. -/
theorem C12_create_grayscale_bitmap_witness :
    ((sample_compress_env (sample_bitmap 16 8) : compress_env ℚ).bitmapReadPixels "in.bmp"
        = some (sample_bitmap 16 8) ∧
      (create_grayscale_bitmap (sample_compress_env (sample_bitmap 16 8) : compress_env ℚ)
        "in.bmp" (some "gray.bmp")).pixels
        = some (convert_to_grayscale 128 (sample_bitmap 16 8).pixels, 2, 1)) ∧
    ((2 : Int) = Int.tdiv (sample_bitmap 16 8).width_px 8 ∧
      8 * (2 : Int) = (sample_bitmap 16 8).width_px) :=
  ⟨⟨rfl, rfl⟩,
   (C12_create_grayscale_bitmap (sample_compress_env (sample_bitmap 16 8) : compress_env ℚ)
     "in.bmp" (some "gray.bmp") (sample_bitmap 16 8) rfl
     (convert_to_grayscale 128 (sample_bitmap 16 8).pixels) 2 1 rfl).2.2.2.1⟩

/-- C13: with a bitmap library that refuses the `NULL` path, `compress` of a valid 8×8 image
with the grayscale path `NULL` still calls `bitmapWritePixels` (with the path `NULL`),
returns `-1` and creates no container, while the same run with a dump path returns `0`. -/
theorem C13_null_grayscale_path_is_not_suppressed :
    ((compress (strict_compress_env (sample_bitmap 8 8)) sample_cosf 3 sample_alpha
        jpeg_zig_zag_order "in.bmp" (fun _ => 16) none "out.dct").grayscale_dump.map
          (fun call => call.path) = some none) ∧
    (compress (strict_compress_env (sample_bitmap 8 8)) sample_cosf 3 sample_alpha
        jpeg_zig_zag_order "in.bmp" (fun _ => 16) none "out.dct").status = -1 ∧
    (compress (strict_compress_env (sample_bitmap 8 8)) sample_cosf 3 sample_alpha
        jpeg_zig_zag_order "in.bmp" (fun _ => 16) none "out.dct").output_file = none ∧
    (compress (strict_compress_env (sample_bitmap 8 8)) sample_cosf 3 sample_alpha
        jpeg_zig_zag_order "in.bmp" (fun _ => 16) (some "gray.bmp") "out.dct").status = 0 := by
  refine ⟨?_, by decide, by decide, by decide⟩
  rw [compress_grayscale_dump, create_grayscale_bitmap_eq _ _ _ (sample_bitmap 8 8) rfl
    (by decide) (by decide)]
  rfl

/-- C14: for every block and every position `(curr_x, curr_y)` of it, `write_block` stores
in `r`, `g` and `b` of the target pixel the same component,
`clamp (round sample + 128) 0 255`; every cell of the buffer is either untouched or holds
such a gray pixel; and the component is at most `255` for every sample. -/
theorem C14_write_block_component {R : Type} [LinearOrderedField R] [FloorRing R]
    (pixels : Nat → bitmap_pixel_rgb_t) (index_x index_y blocks_x : Nat) (block : Nat → R) :
    (index_x < blocks_x → ∀ curr_x < 8, ∀ curr_y < 8,
      write_block pixels index_x index_y blocks_x block
          (pixel_offset blocks_x index_x index_y curr_x curr_y)
        = { r := (max (min 255 (roundf (block (8 * curr_y + curr_x)) + 128)) 0).toNat,
            g := (max (min 255 (roundf (block (8 * curr_y + curr_x)) + 128)) 0).toNat,
            b := (max (min 255 (roundf (block (8 * curr_y + curr_x)) + 128)) 0).toNat }) ∧
    (∀ o, write_block pixels index_x index_y blocks_x block o = pixels o ∨
      ∃ curr_x < 8, ∃ curr_y < 8, o = pixel_offset blocks_x index_x index_y curr_x curr_y ∧
        write_block pixels index_x index_y blocks_x block o
          = { r := (max (min 255 (roundf (block (8 * curr_y + curr_x)) + 128)) 0).toNat,
              g := (max (min 255 (roundf (block (8 * curr_y + curr_x)) + 128)) 0).toNat,
              b := (max (min 255 (roundf (block (8 * curr_y + curr_x)) + 128)) 0).toNat }) ∧
    (∀ sample : R,
      clamped_component sample = (max (min 255 (roundf sample + 128)) 0).toNat ∧
      clamped_component sample ≤ 255) := by
  refine ⟨?_, ?_, ?_⟩
  · intro hx curr_x hcx curr_y hcy
    rw [write_block_at pixels index_x index_y blocks_x block hx curr_x curr_y hcx hcy,
      clamped_component_eq]
  · intro o
    rw [write_block_flat]
    rcases for_loop_scatter_cases
      (fun k => pixel_offset blocks_x index_x index_y (k % 8) (k / 8))
      (fun k => ({ r := clamped_component (block (8 * (k / 8) + k % 8)),
                   g := clamped_component (block (8 * (k / 8) + k % 8)),
                   b := clamped_component (block (8 * (k / 8) + k % 8)) }
                 : bitmap_pixel_rgb_t)) 64 pixels o with h | ⟨k, hk, hidx, hval⟩
    · exact Or.inl h
    · refine Or.inr ⟨k % 8, Nat.mod_lt _ (by norm_num), k / 8, by omega, hidx.symm, ?_⟩
      rw [hval, clamped_component_eq]
  · intro sample
    refine ⟨clamped_component_eq sample, ?_⟩
    rw [clamped_component_eq]
    omega

/-- C14 at block `(1, 0)` of a plane two blocks wide, with the samples `1000`. -/
theorem C14_write_block_component_witness :
    1 < 2 ∧
    write_block (fun _ => ({ r := 0, g := 0, b := 0 } : bitmap_pixel_rgb_t)) 1 0 2
        (fun _ => (1000 : ℚ)) (pixel_offset 2 1 0 3 4)
      = { r := (max (min 255 (roundf (1000 : ℚ) + 128)) 0).toNat,
          g := (max (min 255 (roundf (1000 : ℚ) + 128)) 0).toNat,
          b := (max (min 255 (roundf (1000 : ℚ) + 128)) 0).toNat } :=
  ⟨by decide,
   (C14_write_block_component (fun _ => ({ r := 0, g := 0, b := 0 } : bitmap_pixel_rgb_t))
     1 0 2 (fun _ => (1000 : ℚ))).1 (by decide) 3 (by decide) 4 (by decide)⟩

/-- C15: the pixel offset of `read_block` and `write_block` is
`(index_y * 8 + curr_y) * (blocks_x * 8) + index_x * 8 + curr_x`; on
`[0, blocks_x) × [0, blocks_y) × [0, 8) × [0, 8)` it stays below `64 * blocks_x * blocks_y`,
takes no value twice and takes every value below `64 * blocks_x * blocks_y`: the blocks tile
the plane without overlap or gap.  Hence `decompress` of a complete container of
`blocks_x` by `blocks_y` blocks hands over a plane in which every pixel holds the gray
decoded from the record of the one block it belongs to, and writes nothing behind the
plane. -/
theorem C15_pixel_offset_bijection {R : Type} [LinearOrderedField R] [FloorRing R]
    (blocks_x blocks_y : Nat) :
    (∀ index_x index_y curr_x curr_y,
      pixel_offset blocks_x index_x index_y curr_x curr_y
        = (index_y * 8 + curr_y) * (blocks_x * 8) + index_x * 8 + curr_x) ∧
    (∀ index_x < blocks_x, ∀ index_y < blocks_y, ∀ curr_x < 8, ∀ curr_y < 8,
      pixel_offset blocks_x index_x index_y curr_x curr_y < 64 * blocks_x * blocks_y) ∧
    (∀ index_x < blocks_x, ∀ index_y < blocks_y, ∀ curr_x < 8, ∀ curr_y < 8,
      ∀ index_x' < blocks_x, ∀ index_y' < blocks_y, ∀ curr_x' < 8, ∀ curr_y' < 8,
      pixel_offset blocks_x index_x index_y curr_x curr_y
          = pixel_offset blocks_x index_x' index_y' curr_x' curr_y' →
        index_x = index_x' ∧ index_y = index_y' ∧ curr_x = curr_x' ∧ curr_y = curr_y') ∧
    (∀ o < 64 * blocks_x * blocks_y,
      ∃ index_x < blocks_x, ∃ index_y < blocks_y, ∃ curr_x < 8, ∃ curr_y < 8,
        pixel_offset blocks_x index_x index_y curr_x curr_y = o) ∧
    (∀ (env : decompress_env R) (cosf : R → R) (M_PI : R) (alpha : Nat → R) (zz : Nat → Nat)
      (file_path : String) (quant_matrix : Nat → Int) (output_path : String)
      (bytes : List Nat),
      env.fopen file_path = some bytes → (∀ i < 64, zz i < 64) →
      container_blocks_x bytes = blocks_x → container_blocks_y bytes = blocks_y →
      8 + 64 * (blocks_x * blocks_y) ≤ bytes.length →
      ∃ img, (decompress env cosf M_PI alpha zz file_path quant_matrix output_path).image
          = some img ∧
        (∀ o < 64 * blocks_x * blocks_y,
          ∃ k < blocks_x * blocks_y, ∃ curr_x < 8, ∃ curr_y < 8,
            pixel_offset blocks_x (k % blocks_x) (k / blocks_x) curr_x curr_y = o ∧
            img.pixels o
              = { r := clamped_component (original_block env cosf M_PI alpha zz
                        quant_matrix (container_record bytes k) (8 * curr_y + curr_x)),
                  g := clamped_component (original_block env cosf M_PI alpha zz
                        quant_matrix (container_record bytes k) (8 * curr_y + curr_x)),
                  b := clamped_component (original_block env cosf M_PI alpha zz
                        quant_matrix (container_record bytes k) (8 * curr_y + curr_x)) }) ∧
        (∀ o, 64 * blocks_x * blocks_y ≤ o → img.pixels o = env.malloc o)) := by
  refine ⟨?_, ?_, ?_, ?_, ?_⟩
  · intro index_x index_y curr_x curr_y
    unfold pixel_offset
    ring
  · intro index_x hx index_y hy curr_x hcx curr_y hcy
    exact pixel_offset_lt blocks_x blocks_y index_x index_y curr_x curr_y hx hy hcx hcy
  · intro index_x hx index_y _ curr_x hcx curr_y hcy index_x' hx' index_y' _ curr_x' hcx'
      curr_y' hcy' h
    exact pixel_offset_inj blocks_x index_x index_y curr_x curr_y index_x' index_y' curr_x'
      curr_y' hx hx' hcx hcy hcx' hcy' h
  · intro o ho
    obtain ⟨k, hk, curr_x, hcx, curr_y, hcy, h⟩ := pixel_offset_surj blocks_x blocks_y o ho
    have hbx : 0 < blocks_x := by
      rcases Nat.eq_zero_or_pos blocks_x with h0 | h0
      · rw [h0, Nat.zero_mul] at hk
        omega
      · exact h0
    exact ⟨k % blocks_x, Nat.mod_lt _ hbx, k / blocks_x,
      Nat.div_lt_of_lt_mul hk, curr_x, hcx, curr_y, hcy, h⟩
  · intro env cosf M_PI alpha zz file_path quant_matrix output_path bytes hopen hzz hx hy hlen
    exact decompress_plane env cosf M_PI alpha zz file_path quant_matrix output_path bytes
      blocks_x blocks_y hopen hzz hx hy hlen

/-- C15 at a plane of 3 by 2 blocks: block `(2, 1)`, position `(7, 7)` is the last pixel. -/
theorem C15_pixel_offset_bijection_witness :
    (2 < 3 ∧ 1 < 2 ∧ 7 < 8) ∧ pixel_offset 3 2 1 7 7 < 64 * 3 * 2 :=
  ⟨by decide,
   (C15_pixel_offset_bijection (R := ℚ) 3 2).2.1 2 (by decide) 1 (by decide) 7 (by decide) 7
     (by decide)⟩

/-- C16: `quantize` does not clamp: the stored value is the rounded quotient
`r = round (coefficient / divisor)` itself when `r` lies in `[-128, 127]`, and in every case
it lies in `[-128, 127]` and differs from `r` by a multiple of `256`; `r = 128` is stored as
`-128` and `r = 200` as `-56`. -/
theorem C16_quantize_wraps {R : Type} [LinearOrderedField R] [FloorRing R] (c : Nat → R)
    (d : Nat → Int) (out : Nat → Int) (i : Nat) (hi : i < 64) :
    (-128 ≤ roundf (c i / (d i : R)) → roundf (c i / (d i : R)) ≤ 127 →
      quantize c d out i = roundf (c i / (d i : R))) ∧
    (-128 ≤ quantize c d out i ∧ quantize c d out i ≤ 127 ∧
      ∃ k : Int, quantize c d out i = roundf (c i / (d i : R)) + 256 * k) ∧
    (roundf (c i / (d i : R)) = 128 → quantize c d out i = -128) ∧
    (roundf (c i / (d i : R)) = 200 → quantize c d out i = -56) := by
  rw [quantize_apply, if_pos hi]
  refine ⟨fun h1 h2 => int8_cast_of_mem h1 h2,
    ⟨(int8_cast_mem _).1, (int8_cast_mem _).2,
      ⟨-((roundf (c i / (d i : R)) + 128) / 256), by unfold int8_cast; omega⟩⟩,
    fun h => by rw [h]; decide, fun h => by rw [h]; decide⟩

/-- C16 at the coefficients `200` and the divisors `1`: the stored value is `-56`. -/
theorem C16_quantize_wraps_witness :
    5 < 64 ∧ quantize (fun _ => (200 : ℚ)) (fun _ => 1) (fun _ => 0) 5 = -56 := by
  have e : (200 : ℚ) / (((fun _ => 1 : Nat → Int) 5 : Int) : ℚ) = ((200 : Int) : ℚ) := by
    norm_num
  exact ⟨by decide,
    (C16_quantize_wraps (fun _ => (200 : ℚ)) (fun _ => 1) (fun _ => 0) 5
      (by decide)).2.2.2 (by rw [e, roundf_intCast])⟩

/-- C17 as stated fails: the block that is constant `72` has the average `72`, and
`perform_dct` gives `576` in cell `(0,0)`. -/
theorem C17_dc_term_counterexample :
    perform_dct Real.cos Real.pi (alpha Real.sqrt) (fun _ => (72 : ℝ)) (fun _ => 0) 0 = 576 ∧
    (∑ i in Finset.range 64, (fun _ => (72 : ℝ)) i) / 64 = 72 ∧
    ¬ perform_dct Real.cos Real.pi (alpha Real.sqrt) (fun _ => (72 : ℝ)) (fun _ => 0) 0
        = (∑ i in Finset.range 64, (fun _ => (72 : ℝ)) i) / 64 := by
  have h := perform_dct_dc (alpha Real.sqrt) alpha_zero alpha_pos (fun _ => (72 : ℝ))
    (fun _ => 0)
  have hsum : ∑ i in Finset.range 64, (fun _ => (72 : ℝ)) i = 4608 := by
    simp
    norm_num
  rw [hsum] at h
  rw [h, hsum]
  norm_num

/-- C17, amended: with `alpha 0 = 1/√8`, over the reals, the `(0,0)` coefficient that
`perform_dct` produces is 8 times the block average: the sum of the 64 samples over 8. -/
theorem C17_dc_term (alpha : ℕ → ℝ) (ha0 : alpha 0 = 1 / Real.sqrt 8)
    (hak : ∀ k, 1 ≤ k → k ≤ 7 → alpha k = Real.sqrt (2 / 8)) (b out : ℕ → ℝ) :
    perform_dct Real.cos Real.pi alpha b out 0 = 8 * ((∑ i in Finset.range 64, b i) / 64) ∧
    perform_dct Real.cos Real.pi alpha b out 0 = (∑ i in Finset.range 64, b i) / 8 := by
  have h := perform_dct_dc alpha ha0 hak b out
  refine ⟨?_, h⟩
  rw [h]
  ring

/-- C17, amended, at the spec's `alpha` and the block `b i = i`. -/
theorem C17_dc_term_witness :
    (alpha Real.sqrt 0 = 1 / Real.sqrt 8 ∧
      (∀ k, 1 ≤ k → k ≤ 7 → alpha Real.sqrt k = Real.sqrt (2 / 8))) ∧
    perform_dct Real.cos Real.pi (alpha Real.sqrt) (fun i => (i : ℝ)) (fun _ => 0) 0
      = (∑ i in Finset.range 64, (fun i : ℕ => (i : ℝ)) i) / 8 :=
  ⟨⟨alpha_zero, alpha_pos⟩,
   (C17_dc_term (alpha Real.sqrt) alpha_zero alpha_pos (fun i => (i : ℝ)) (fun _ => 0)).2⟩

/-- C18 as stated fails: the value `127` with the divisor `2^25 = 33554432` has the product
`4261412864`, which does not fit the `int` in which `dequantize` multiplies; the product is
stored as `-33554432`, and `quantize` makes `-1` of it, not `127`. -/
theorem C18_quantize_dequantize_counterexample :
    ((-128 : Int) ≤ (fun _ => 127 : Nat → Int) 0 ∧ (fun _ => 127 : Nat → Int) 0 ≤ 127 ∧
      (0 : Int) < (fun _ => 33554432 : Nat → Int) 0) ∧
    dequantize (fun _ => 127) (fun _ => 33554432) (fun _ => (0 : ℚ)) 0 = -33554432 ∧
    quantize (dequantize (fun _ => 127) (fun _ => 33554432) (fun _ => (0 : ℚ)))
      (fun _ => 33554432) (fun _ => 0) 0 = -1 ∧
    quantize (dequantize (fun _ => 127) (fun _ => 33554432) (fun _ => (0 : ℚ)))
      (fun _ => 33554432) (fun _ => 0) 0 ≠ (fun _ => 127 : Nat → Int) 0 := by
  have e : int_cast ((fun _ => 127 : Nat → Int) 0 * (fun _ => 33554432 : Nat → Int) 0)
      = -33554432 := by decide
  have hdq : dequantize (fun _ => 127) (fun _ => 33554432) (fun _ => (0 : ℚ)) 0
      = -33554432 := by
    rw [dequantize_apply, if_pos (by norm_num), e]
    norm_num
  have hq : quantize (dequantize (fun _ => 127) (fun _ => 33554432) (fun _ => (0 : ℚ)))
      (fun _ => 33554432) (fun _ => 0) 0 = -1 := by
    rw [quantize_apply, if_pos (by norm_num), hdq]
    have e1 : (-33554432 : ℚ) / (((fun _ => 33554432 : Nat → Int) 0 : Int) : ℚ)
        = (((-1 : Int) : Int) : ℚ) := by norm_num
    rw [e1, roundf_intCast]
    decide
  refine ⟨⟨by norm_num, by norm_num, by norm_num⟩, hdq, hq, ?_⟩
  rw [hq]
  norm_num

/-- C18, amended: for every block `q` of signed 8-bit values and every quantization matrix
`d` of positive divisors, `quantize (dequantize q d) d` is `q` at every position whose
product `q i * d i` fits a 32-bit `int`; these are all 64 positions when no divisor exceeds
`2^24 = 16777216`. -/
theorem C18_quantize_dequantize {R : Type} [LinearOrderedField R] [FloorRing R]
    (q : Nat → Int) (d : Nat → Int) (out1 : Nat → R) (out2 : Nat → Int)
    (hq : ∀ i < 64, -128 ≤ q i ∧ q i ≤ 127) (hd : ∀ i < 64, 0 < d i) :
    (∀ i < 64, -2147483648 ≤ q i * d i → q i * d i ≤ 2147483647 →
      quantize (dequantize q d out1) d out2 i = q i) ∧
    ((∀ i < 64, d i ≤ 16777216) →
      ∀ i < 64, quantize (dequantize q d out1) d out2 i = q i) := by
  refine ⟨fun i hi h1 h2 => quantize_dequantize q d out1 out2 i hi (hq i hi).1 (hq i hi).2
    (hd i hi) h1 h2, fun h24 i hi => ?_⟩
  have hf := int8_mul_fits (q i) (d i) (hq i hi).1 (hq i hi).2 (hd i hi) (h24 i hi)
  exact quantize_dequantize q d out1 out2 i hi (hq i hi).1 (hq i hi).2 (hd i hi) hf.1 hf.2

/-- C18, amended, at the block `q i = i - 32` and the divisors `i + 1`. -/
theorem C18_quantize_dequantize_witness :
    ((∀ i < 64, -128 ≤ (fun i : Nat => (i : Int) - 32) i ∧
        (fun i : Nat => (i : Int) - 32) i ≤ 127) ∧
      (∀ i < 64, 0 < (fun i : Nat => (i : Int) + 1) i) ∧
      (∀ i < 64, (fun i : Nat => (i : Int) + 1) i ≤ 16777216)) ∧
    ∀ i < 64, quantize (dequantize (fun i : Nat => (i : Int) - 32)
        (fun i : Nat => (i : Int) + 1) (fun _ => (0 : ℚ)))
        (fun i : Nat => (i : Int) + 1) (fun _ => 0) i = (fun i : Nat => (i : Int) - 32) i :=
  ⟨⟨fun i hi => by constructor <;> simp only <;> omega, fun i _ => by simp only; omega,
      fun i hi => by simp only; omega⟩,
   (C18_quantize_dequantize (fun i : Nat => (i : Int) - 32) (fun i : Nat => (i : Int) + 1)
     (fun _ => (0 : ℚ)) (fun _ => 0)
     (fun i hi => by constructor <;> simp only <;> omega)
     (fun i _ => by simp only; omega)).2 (fun i hi => by omega)⟩

/-- C19: `quantize` rounds ties away from zero: with a positive divisor `d`, a coefficient
`(k + 1/2) * d` with `k ≥ 0` is stored as `k + 1`, a coefficient `-(k + 1/2) * d` as
`-(k + 1)`, when these fit a signed 8-bit value; and a quotient strictly within `1/2` of an
integer `n` of `[-128, 127]` is stored as `n`. -/
theorem C19_quantize_rounds_half_away {R : Type} [LinearOrderedField R] [FloorRing R]
    (c : Nat → R) (d : Nat → Int) (out : Nat → Int) (i : Nat) (hi : i < 64)
    (hd : 0 < d i) :
    (∀ k : Int, 0 ≤ k → k + 1 ≤ 127 → c i = ((k : R) + 1 / 2) * (d i : R) →
      quantize c d out i = k + 1) ∧
    (∀ k : Int, 0 ≤ k → -128 ≤ -(k + 1) → c i = -(((k : R) + 1 / 2) * (d i : R)) →
      quantize c d out i = -(k + 1)) ∧
    (∀ n : Int, -128 ≤ n → n ≤ 127 → |c i / (d i : R) - (n : R)| < 1 / 2 →
      quantize c d out i = n) := by
  have hdR : (d i : R) ≠ 0 := by
    have : (0 : R) < (d i : R) := by exact_mod_cast hd
    exact ne_of_gt this
  rw [quantize_apply, if_pos hi]
  refine ⟨?_, ?_, ?_⟩
  · intro k hk hk1 hc
    have e : c i / (d i : R) = (k : R) + 1 / 2 := by
      rw [hc, mul_div_assoc, div_self hdR, mul_one]
    rw [e, roundf_add_half k hk]
    exact int8_cast_of_mem (by omega) hk1
  · intro k hk hk1 hc
    have e : c i / (d i : R) = -((k : R) + 1 / 2) := by
      rw [hc, neg_div, mul_div_assoc, div_self hdR, mul_one]
    rw [e, roundf_neg_add_half k hk]
    exact int8_cast_of_mem hk1 (by omega)
  · intro n hn1 hn2 h
    rw [roundf_of_abs_sub_lt _ n h]
    exact int8_cast_of_mem hn1 hn2

/-- C19 at the divisors `16`: the coefficient `40` (quotient `2.5`) is stored as `3`. -/
theorem C19_quantize_rounds_half_away_witness :
    (7 < 64 ∧ (0 : Int) < (fun _ => 16 : Nat → Int) 7) ∧
    quantize (fun _ => (40 : ℚ)) (fun _ => 16) (fun _ => 0) 7 = 2 + 1 :=
  ⟨⟨by decide, by norm_num⟩,
   (C19_quantize_rounds_half_away (fun _ => (40 : ℚ)) (fun _ => 16) (fun _ => 0) 7
     (by decide) (by norm_num)).1 2 (by decide) (by decide) (by norm_num)⟩

/-- C20: the container written by `compress` depends on the value channel only, block by
block.  For two images of the same dimensions `8 * blocks_x` by `8 * blocks_y`, compressed
in the same surroundings with the same quantization matrix: if the value components of
their pixels agree (hue and saturation are arbitrary), the two runs return the same status,
write the same bytes and visit the same blocks; and if both runs succeed and the value
components agree on the 64 pixels of block `(k mod blocks_x, k div blocks_x)` alone, the 64
bytes of record `k` are the same in the two containers, whatever the pixels outside that
block are. -/
theorem C20_container_depends_on_value_only {R : Type} [LinearOrderedField R] [FloorRing R]
    (env : compress_env R) (cosf : R → R) (M_PI : R) (alpha : Nat → R) (zz : Nat → Nat)
    (quant_matrix : Nat → Int) (grayscale_path : Option String) (output_path : String)
    (path1 path2 : String) (bmp1 bmp2 : bitmap_read_t) (blocks_x blocks_y : Nat)
    (h1 : env.bitmapReadPixels path1 = some bmp1)
    (h2 : env.bitmapReadPixels path2 = some bmp2)
    (hw1 : bmp1.width_px = 8 * blocks_x) (hh1 : bmp1.height_px = 8 * blocks_y)
    (hw2 : bmp2.width_px = 8 * blocks_x) (hh2 : bmp2.height_px = 8 * blocks_y) :
    ((∀ o < 64 * blocks_x * blocks_y, (bmp1.pixels o).v = (bmp2.pixels o).v) →
      (compress env cosf M_PI alpha zz path1 quant_matrix grayscale_path output_path).status
        = (compress env cosf M_PI alpha zz path2 quant_matrix grayscale_path
            output_path).status ∧
      (compress env cosf M_PI alpha zz path1 quant_matrix grayscale_path
          output_path).output_file
        = (compress env cosf M_PI alpha zz path2 quant_matrix grayscale_path
            output_path).output_file ∧
      (compress env cosf M_PI alpha zz path1 quant_matrix grayscale_path output_path).blocks
        = (compress env cosf M_PI alpha zz path2 quant_matrix grayscale_path
            output_path).blocks) ∧
    (∀ k < blocks_x * blocks_y,
      (∀ curr_x < 8, ∀ curr_y < 8,
        (bmp1.pixels (pixel_offset blocks_x (k % blocks_x) (k / blocks_x) curr_x curr_y)).v
          = (bmp2.pixels
              (pixel_offset blocks_x (k % blocks_x) (k / blocks_x) curr_x curr_y)).v) →
      (compress env cosf M_PI alpha zz path1 quant_matrix grayscale_path
        output_path).status = 0 →
      (compress env cosf M_PI alpha zz path2 quant_matrix grayscale_path
        output_path).status = 0 →
      ∀ bytes1 bytes2 : List Nat,
        (compress env cosf M_PI alpha zz path1 quant_matrix grayscale_path
          output_path).output_file = some bytes1 →
        (compress env cosf M_PI alpha zz path2 quant_matrix grayscale_path
          output_path).output_file = some bytes2 →
        ∀ j < 64, bytes1.getD (8 + 64 * k + j) 0 = bytes2.getD (8 + 64 * k + j) 0 ∧
          container_record bytes1 k j = container_record bytes2 k j) := by
  refine ⟨fun hv => compress_value_only env cosf M_PI alpha zz quant_matrix grayscale_path
    output_path path1 path2 bmp1 bmp2 blocks_x blocks_y h1 h2 hw1 hh1 hw2 hh2 hv, ?_⟩
  intro k hk hv hs1 hs2 bytes1 bytes2 hb1 hb2 j hj
  have e : bytes1.getD (8 + 64 * k + j) 0 = bytes2.getD (8 + 64 * k + j) 0 := by
    rw [compress_record env cosf M_PI alpha zz path1 quant_matrix grayscale_path output_path
        bmp1 blocks_x blocks_y h1 hw1 hh1 hs1 bytes1 hb1 k hk j hj,
      compress_record env cosf M_PI alpha zz path2 quant_matrix grayscale_path output_path
        bmp2 blocks_x blocks_y h2 hw2 hh2 hs2 bytes2 hb2 k hk j hj,
      compress_block_congr env cosf M_PI alpha zz quant_matrix bmp1.pixels bmp2.pixels
        blocks_x (k % blocks_x) (k / blocks_x) hv]
  refine ⟨e, ?_⟩
  unfold container_record
  rw [e]

theorem C20_container_depends_on_value_only_witness :
    (((sample_bitmap 8 8).pixels 0).h ≠ ((sample_colour_bitmap 8 8).pixels 0).h) ∧
    (compress (sample_two_compress_env (sample_bitmap 8 8) (sample_colour_bitmap 8 8))
        sample_cosf 3 sample_alpha jpeg_zig_zag_order "gray.bmp" (fun _ => 16) none
        "out.jpg").output_file
      = (compress (sample_two_compress_env (sample_bitmap 8 8) (sample_colour_bitmap 8 8))
        sample_cosf 3 sample_alpha jpeg_zig_zag_order "colour.bmp" (fun _ => 16) none
        "out.jpg").output_file :=
  ⟨by decide,
   ((C20_container_depends_on_value_only
      (sample_two_compress_env (sample_bitmap 8 8) (sample_colour_bitmap 8 8))
      sample_cosf 3 sample_alpha jpeg_zig_zag_order (fun _ => 16) none "out.jpg"
      "gray.bmp" "colour.bmp" (sample_bitmap 8 8) (sample_colour_bitmap 8 8) 1 1
      rfl rfl rfl rfl rfl rfl).1 (fun _ _ => rfl)).2.1⟩

end HA_JPG
